import Mathlib

/-!
# GoReplica: a verification development of the Replica text-to-speech client

The development embeds `constants.go` and `replicaClient.go` of the repository.
Go strings are represented by Lean strings (valid UTF-8 text), Go `int` by `Int`.
The Go standard library the client calls is handled in two ways:

* pure helpers whose value the client's results depend on are written out
  (`errors.New`, `strings.Join`, `strconv.Itoa`, `url.Values.Add`,
  `url.Values.Encode`, `url.QueryEscape`, `url.ParseQuery`, and the functions of
  `net/url` behind `url.ParseRequestURI`, `url.Parse` and `URL.String`, as of
  Go 1.19 and later);
* everything that touches the outside world or whose full behaviour is not
  needed (the HTTP transport, reading a body, JSON decoding) is a field of the
  environment `Env`, and every theorem quantifies over it.

URL parsing and writing are fields of `Env` as well, so that the claims about the
status switches hold whatever they do; the claims about the URL of a request are
stated in the environment `netEnv`, where these fields are the functions of
`net/url` written out. Only `parseAuthority` (the syntax of user information, host
and port) and `strconv.Quote` (used in error texts) are left as parameters there.
-/

namespace GoReplica

/-! ## Go values -/

/-- A Go error value, identified with the text its `Error()` method returns;
`errors.New msg` is the message itself. -/
abbrev Error := String

/-- A Go `map[string]string`: an association list with pairwise distinct keys. -/
abbrev GoMap := List (String × String)

/-- The map assignment `m[k] = v`: overwrite the entry of `k` when there is one,
add a new entry otherwise. -/
def GoMap.set : GoMap → String → String → GoMap
  | [], k, v => [(k, v)]
  | (k', v') :: rest, k, v =>
    if k' = k then (k, v) :: rest else (k', v') :: GoMap.set rest k v

/-- The map lookup `m[k]` with its presence flag. -/
def GoMap.get? : GoMap → String → Option String
  | [], _ => none
  | (k', v') :: rest, k => if k' = k then some v' else GoMap.get? rest k

/-- The keys of a map. -/
def GoMap.keys (m : GoMap) : List String := m.map Prod.fst

/-- The builtin `len(m)`. -/
def GoMap.size (m : GoMap) : Nat := m.length

/-- The function `strconv.Itoa`: the decimal representation of an integer, with a
leading minus sign for a negative one. -/
def Itoa : Int → String
  | Int.ofNat n => Nat.repr n
  | Int.negSucc n => "-" ++ Nat.repr (n + 1)

/-- The function `strings.Join`. -/
def Join (elems : List String) (sep : String) : String := sep.intercalate elems

/-! ## `constants.go` -/

/-- The type `SpeechExtension` is a defined string type. -/
abbrev SpeechExtension := String

def WAV : SpeechExtension := "wav"
def MP3 : SpeechExtension := "mp3"
def OGG : SpeechExtension := "ogg"
def FLAC : SpeechExtension := "flac"
def CLIENTID : String := "client_id"
def CLIENTSECRET : String := "secret"
def UUID : String := "uuid"
def NAME : String := "name"
def TEXT : String := "txt"
def SPEAKERID : String := "speaker_id"
def EXTENSION : String := "extension"
def BITRATE : String := "bit_rate"
def SAMPLERATE : String := "sample_rate"

/-! ## `net/url`: form values -/

/-- The bytes of a Go string: its UTF-8 encoding. -/
def goBytes (s : String) : List Nat := s.toUTF8.data.toList.map UInt8.toNat

/-- The digit table `upperhex` of `net/url`. -/
def upperhex (n : Nat) : Char := "0123456789ABCDEF".toList.getD n '0'

/-- The byte codes of the characters of an ASCII text. -/
def codes (s : String) : List Nat := s.toList.map Char.toNat

/-- The type `encoding` of `net/url`: the part of a URL a text is escaped for. -/
inductive encoding where
  | encodePath
  | encodePathSegment
  | encodeHost
  | encodeZone
  | encodeUserPassword
  | encodeQueryComponent
  | encodeFragment
deriving DecidableEq, Repr

/-- The function `ishex`. -/
def ishex (c : Nat) : Bool :=
  ('0'.toNat ≤ c ∧ c ≤ '9'.toNat) ∨ ('a'.toNat ≤ c ∧ c ≤ 'f'.toNat)
    ∨ ('A'.toNat ≤ c ∧ c ≤ 'F'.toNat)

/-- The function `unhex`. -/
def unhex (c : Nat) : Nat :=
  if '0'.toNat ≤ c ∧ c ≤ '9'.toNat then c - '0'.toNat
  else if 'a'.toNat ≤ c ∧ c ≤ 'f'.toNat then c - 'a'.toNat + 10
  else if 'A'.toNat ≤ c ∧ c ≤ 'F'.toNat then c - 'A'.toNat + 10
  else 0

/-- The function `shouldEscape`: whether byte `c` must be written `%XX` in the
given part of a URL. A reserved character in host or zone mode that is not in the
host list falls through both switches and is escaped. -/
def shouldEscape (c : Nat) (mode : encoding) : Bool :=
  if ('a'.toNat ≤ c ∧ c ≤ 'z'.toNat) ∨ ('A'.toNat ≤ c ∧ c ≤ 'Z'.toNat)
      ∨ ('0'.toNat ≤ c ∧ c ≤ '9'.toNat) then false
  else if (mode = .encodeHost ∨ mode = .encodeZone)
      ∧ c ∈ codes "!$&'()*+,;=:[]<>\"" then false
  else if c ∈ codes "-_.~" then false
  else if c ∈ codes "$&+,/:;=?@" then
    match mode with
    | .encodePath => c = '?'.toNat
    | .encodePathSegment =>
      c = '/'.toNat ∨ c = ';'.toNat ∨ c = ','.toNat ∨ c = '?'.toNat
    | .encodeUserPassword =>
      c = '@'.toNat ∨ c = '/'.toNat ∨ c = '?'.toNat ∨ c = ':'.toNat
    | .encodeQueryComponent => true
    | .encodeFragment => false
    | _ => true
  else if mode = .encodeFragment ∧ c ∈ codes "!()*" then false
  else true

/-- One byte of `escape(s, mode)`: a space in a query component becomes `+`, any
other byte that must be escaped becomes `%XX`, the rest is copied. -/
def escapeByte (c : Nat) (mode : encoding) : List Char :=
  if shouldEscape c mode then
    if c = ' '.toNat ∧ mode = .encodeQueryComponent then ['+']
    else ['%', upperhex (c / 16), upperhex (c % 16)]
  else [Char.ofNat c]

/-- The function `escape` applied to the bytes of a string. -/
def escapeBytes (bs : List Nat) (mode : encoding) : String :=
  String.mk (bs.flatMap fun c => escapeByte c mode)

/-- The function `escape`. -/
def escape (s : String) (mode : encoding) : String := escapeBytes (goBytes s) mode

/-- The function `url.QueryEscape`. -/
def QueryEscape (s : String) : String := escape s .encodeQueryComponent

/-- Lexicographic comparison of byte sequences. -/
def bytesLE : List Nat → List Nat → Bool
  | [], _ => true
  | _ :: _, [] => false
  | a :: as, b :: bs => if a < b then true else if b < a then false else bytesLE as bs

/-- The comparison `a <= b` of Go strings (bytewise), the order of `sort.Strings`. -/
def stringLE (a b : String) : Bool := bytesLE (goBytes a) (goBytes b)

/-- The type `url.Values` (`map[string][]string`): an association list with
pairwise distinct keys. -/
abbrev Values := List (String × List String)

/-- The method `Values.Add`: `v[key] = append(v[key], value)`. -/
def Values.Add : Values → String → String → Values
  | [], key, value => [(key, [value])]
  | (k, vs) :: rest, key, value =>
    if k = key then (k, vs ++ [value]) :: rest else (k, vs) :: Values.Add rest key value

/-- The values stored under a key (`v[key]`, nil when absent). -/
def Values.get : Values → String → List String
  | [], _ => []
  | (k, vs) :: rest, key => if k = key then vs else Values.get rest key

/-- The key/value pairs in the order `Values.Encode` writes them: keys sorted,
the values of one key in insertion order. -/
def Values.sortedPairs (v : Values) : List (String × String) :=
  ((v.map Prod.fst).insertionSort (fun a b => stringLE a b = true)).flatMap
    fun k => (Values.get v k).map fun value => (k, value)

/-- The method `Values.Encode`: the pairs `key=value`, both escaped, joined by
`&` (the buffer receives `&` before every pair but the first). -/
def Values.Encode (v : Values) : String :=
  (Values.sortedPairs v).foldl
    (fun buf kv =>
      (if buf.utf8ByteSize > 0 then buf ++ "&" else buf)
        ++ QueryEscape kv.1 ++ "=" ++ QueryEscape kv.2)
    ""

/-! ## `net/url`, `net/http`: the values the client handles -/

/-- The type `url.Userinfo`. -/
structure Userinfo where
  username : String
  password : String
  passwordSet : Bool
deriving DecidableEq, Repr

/-- The type `url.URL`. -/
structure URL where
  Scheme : String := ""
  Opaque : String := ""
  User : Option Userinfo := none
  Host : String := ""
  Path : String := ""
  RawPath : String := ""
  OmitHost : Bool := false
  ForceQuery : Bool := false
  RawQuery : String := ""
  Fragment : String := ""
  RawFragment : String := ""
deriving DecidableEq, Repr

/-- The type `http.Header`: the values stored under each header name. -/
abbrev Header := List (String × List String)

/-- The method `Header.Add` (the names used by the client are already in
canonical form). -/
def Header.Add (h : Header) (key value : String) : Header := Values.Add h key value

/-- The method `Header.Set`: replace the values of a header name by one value. -/
def Header.Set : Header → String → String → Header
  | [], key, value => [(key, [value])]
  | (k, vs) :: rest, key, value =>
    if k = key then (k, [value]) :: rest else (k, vs) :: Header.Set rest key value

/-- The fields of `http.Request` that the client sets: `Body` is the text handed
to `strings.NewReader`, `none` for a nil body. -/
structure Request where
  Method : String
  URL : URL
  Header : Header := []
  Body : Option String := none
  Close : Bool := false
deriving DecidableEq, Repr

/-- The fields of `http.Response` that the client reads: `Body` is what
`ioutil.ReadAll(response.Body)` returns, the bytes read or a read error. -/
structure Response where
  StatusCode : Int
  Body : Except Error String

/-! ## `replicaClient.go`: data model -/

/-- The struct `Client`; `HTTPClient` is a pointer, `none` when nil. -/
structure Client where
  ServiceEndpoint : String := ""
  ClientID : String := ""
  ClientSecret : String := ""
  AccessToken : String := ""
  HTTPClient : Option Nat := none
deriving DecidableEq, Repr

/-- The struct `AuthResponse`. -/
structure AuthResponse where
  AccessToken : String := ""
  RefreshToken : String := ""
deriving DecidableEq, Repr

/-- The struct `VoiceResponse`. -/
structure VoiceResponse where
  UUID : String := ""
  Name : String := ""
deriving DecidableEq, Repr

/-- The struct `SpeechResponse`; `Duration` holds the bits of the `float32`, and
`URLs` is `none` for a nil map. -/
structure SpeechResponse where
  UUID : String := ""
  Quality : String := ""
  Duration : Nat := 0
  SpeakerID : String := ""
  Text : String := ""
  BitRate : Int := 0
  SampleRate : Int := 0
  Extension : String := ""
  Extensions : List String := []
  URL : String := ""
  URLs : Option GoMap := none
deriving DecidableEq, Repr

/-- The struct `UnauthorizedResponse`. -/
structure UnauthorizedResponse where
  Reasons : List String := []
  Exception : String := ""
deriving DecidableEq, Repr

/-- The struct `BadRequestResponse`. -/
structure BadRequestResponse where
  ErrorCode : Int := 0
  Error : String := ""
deriving DecidableEq, Repr

/-! ## `net/url`: parsing and writing a URL -/

/-- The function `validEncoded`. -/
def validEncoded (s : String) (mode : encoding) : Bool :=
  (goBytes s).all fun c => c ∈ codes "!$&'()*+,;=:@[]%" || !shouldEscape c mode

/-- The first loop of `unescape`: the bytes of the first malformed piece, with
`true` when it is a bad escape (`EscapeError`) and `false` when it is a byte
that a host name cannot hold (`InvalidHostError`); `none` when the text is well
formed. -/
def unescapeBad : List Nat → encoding → Option (Bool × List Nat)
  | [], _ => none
  | c :: rest, mode =>
    if c = '%'.toNat then
      match rest with
      | h1 :: h2 :: rest' =>
        if ishex h1 = false ∨ ishex h2 = false then some (true, [c, h1, h2])
        else if mode = .encodeHost ∧ unhex h1 < 8 ∧ [c, h1, h2] ≠ codes "%25" then
          some (true, [c, h1, h2])
        else if mode = .encodeZone ∧ [c, h1, h2] ≠ codes "%25"
            ∧ unhex h1 * 16 + unhex h2 ≠ ' '.toNat
            ∧ shouldEscape (unhex h1 * 16 + unhex h2) .encodeHost then
          some (true, [c, h1, h2])
        else unescapeBad rest' mode
      | _ => some (true, c :: rest)
    else if (mode = .encodeHost ∨ mode = .encodeZone) ∧ c < 0x80
        ∧ shouldEscape c .encodeHost then some (false, [c])
    else unescapeBad rest mode

/-- The second loop of `unescape`, on a well-formed text: `%XX` becomes the byte
`XX`, `+` becomes a space in a query component, the rest is copied. -/
def unescapeBytes : List Nat → encoding → List Nat
  | [], _ => []
  | c :: rest, mode =>
    if c = '%'.toNat then
      match rest with
      | h1 :: h2 :: rest' => (unhex h1 * 16 + unhex h2) :: unescapeBytes rest' mode
      | _ => []
    else if c = '+'.toNat ∧ mode = .encodeQueryComponent then
      ' '.toNat :: unescapeBytes rest mode
    else c :: unescapeBytes rest mode

/-- Reading bytes as UTF-8; the second argument counts the continuation bytes
still expected for the code point accumulated in the third. -/
def decodeUTF8 : List Nat → Nat → Nat → List Char
  | [], 0, _ => []
  | [], _ + 1, _ => [Char.ofNat 0xFFFD]
  | b :: rest, 0, _ =>
    if b < 0x80 then Char.ofNat b :: decodeUTF8 rest 0 0
    else if 0xC0 ≤ b ∧ b < 0xE0 then decodeUTF8 rest 1 (b % 0x20)
    else if 0xE0 ≤ b ∧ b < 0xF0 then decodeUTF8 rest 2 (b % 0x10)
    else if 0xF0 ≤ b ∧ b < 0xF8 then decodeUTF8 rest 3 (b % 8)
    else Char.ofNat 0xFFFD :: decodeUTF8 rest 0 0
  | b :: rest, n + 1, acc =>
    if 0x80 ≤ b ∧ b < 0xC0 then
      if n = 0 then Char.ofNat (acc * 0x40 + b % 0x40) :: decodeUTF8 rest 0 0
      else decodeUTF8 rest n (acc * 0x40 + b % 0x40)
    else Char.ofNat 0xFFFD :: decodeUTF8 rest 0 0

/-- The string with the given bytes, when they are UTF-8 text. A Go string can hold
bytes that are not UTF-8 text; these have no counterpart in this embedding and are
read as replacement text. Only `Path` and `Fragment` of a parsed URL are made this
way; the paths the client sets are ASCII text. -/
def stringOfBytes (bs : List Nat) : String := String.mk (decodeUTF8 bs 0 0)

/-- The standard-library functions the URL code calls and that are not written
out: `parseAuthority` of `net/url` (user information, host and port checks) and
`strconv.Quote`, used in error texts. -/
structure NetURL where
  parseAuthority : String → Except Error (Option Userinfo × String)
  Quote : String → String

/-- The function `unescape` on the bytes of its argument, returning the bytes of
the result. -/
def unescapeList (N : NetURL) (s : List Nat) (mode : encoding) : Except Error (List Nat) :=
  match unescapeBad s mode with
  | some (true, piece) => .error ("invalid URL escape " ++ N.Quote (stringOfBytes piece))
  | some (false, piece) =>
    .error ("invalid character " ++ N.Quote (stringOfBytes piece) ++ " in host name")
  | none => .ok (unescapeBytes s mode)

/-- The function `unescape`, returning the bytes of the result. -/
def unescape (N : NetURL) (s : String) (mode : encoding) : Except Error (List Nat) :=
  unescapeList N (goBytes s) mode

/-- The test `p, err := unescape(raw, mode); err == nil && p == text`. -/
def unescapesTo (N : NetURL) (raw : String) (mode : encoding) (text : String) : Bool :=
  match unescape N raw mode with
  | .ok p => p = goBytes text
  | .error _ => false

/-- The method `Userinfo.String`. -/
def Userinfo.string (u : Userinfo) : String :=
  if u.passwordSet then
    escape u.username .encodeUserPassword ++ ":" ++ escape u.password .encodeUserPassword
  else escape u.username .encodeUserPassword

/-- The method `URL.EscapedPath`: `RawPath` when it is a valid encoding of `Path`,
the default escaping of `Path` otherwise. -/
def URL.EscapedPath (N : NetURL) (u : URL) : String :=
  if u.RawPath ≠ "" ∧ validEncoded u.RawPath .encodePath = true
      ∧ unescapesTo N u.RawPath .encodePath u.Path = true then u.RawPath
  else if u.Path = "*" then "*"
  else escape u.Path .encodePath

/-- The method `URL.EscapedFragment`. -/
def URL.EscapedFragment (N : NetURL) (u : URL) : String :=
  if u.RawFragment ≠ "" ∧ validEncoded u.RawFragment .encodeFragment = true
      ∧ unescapesTo N u.RawFragment .encodeFragment u.Fragment = true then u.RawFragment
  else escape u.Fragment .encodeFragment

/-- The text before the first `/` (`strings.Cut(path, "/")`). -/
def firstSegment (l : List Char) : List Char := l.takeWhile fun ch => ch ≠ '/'

/-- The authority `URL.String` writes for a URL without opaque part: nothing when
the URL has neither scheme nor host nor user, or when `OmitHost` is set and there
is neither host nor user; otherwise `//` (unless host, path and user are all
missing), the user information with `@`, and the escaped host. -/
def URL.authorityText (u : URL) : String :=
  if u.Scheme ≠ "" ∨ u.Host ≠ "" ∨ u.User ≠ none then
    if u.OmitHost = true ∧ u.Host = "" ∧ u.User = none then ""
    else
      (if u.Host ≠ "" ∨ u.Path ≠ "" ∨ u.User ≠ none then "//" else "")
        ++ (match u.User with
            | some ui => ui.string ++ "@"
            | none => "")
        ++ (if u.Host ≠ "" then escape u.Host .encodeHost else "")
  else ""

/-- What `URL.String` writes between the scheme and the query of a URL without
opaque part: the authority, then the escaped path, with a `/` put before a path
that lacks one after a host, and `./` before a path whose first segment holds a
colon when nothing has been written yet. -/
def hierPart (N : NetURL) (u : URL) : String :=
  let authority := u.authorityText
  let path := u.EscapedPath N
  let slash := if path ≠ "" ∧ path.toList.head? ≠ some '/' ∧ u.Host ≠ "" then "/" else ""
  let dot :=
    if u.Scheme = "" ∧ authority = "" ∧ slash = "" then
      if ':' ∈ firstSegment path.toList then "./" else ""
    else ""
  authority ++ slash ++ dot ++ path

/-- The function `stringContainsCTLByte`. -/
def stringContainsCTLByte (l : List Char) : Bool :=
  l.any fun ch => ch.toNat < 0x20 || ch.toNat = 0x7f

/-- The first case of the switch in `getScheme`: an ASCII letter. -/
def schemeLetter (c : Char) : Bool :=
  ('a'.toNat ≤ c.toNat ∧ c.toNat ≤ 'z'.toNat) ∨ ('A'.toNat ≤ c.toNat ∧ c.toNat ≤ 'Z'.toNat)

/-- The second case of the switch in `getScheme`: a digit, `+`, `-` or `.`. -/
def schemeOther (c : Char) : Bool :=
  ('0'.toNat ≤ c.toNat ∧ c.toNat ≤ '9'.toNat) ∨ c = '+' ∨ c = '-' ∨ c = '.'

/-- The loop of `getScheme` after the characters `pre` of `rawURL` have been read
as scheme characters. -/
def getSchemeFrom (rawURL pre : List Char) : List Char → Except Error (List Char × List Char)
  | [] => .ok ([], rawURL)
  | c :: cs =>
    if schemeLetter c = true then getSchemeFrom rawURL (pre ++ [c]) cs
    else if schemeOther c = true then
      if pre = [] then .ok ([], rawURL) else getSchemeFrom rawURL (pre ++ [c]) cs
    else if c = ':' then
      if pre = [] then .error "missing protocol scheme" else .ok (pre, cs)
    else .ok ([], rawURL)

/-- The function `getScheme`: the scheme and the text after its colon, or no scheme
and the whole text. -/
def getScheme (rawURL : List Char) : Except Error (List Char × List Char) :=
  getSchemeFrom rawURL [] rawURL

/-- The function `strings.ToLower` on ASCII text. -/
def toLower (l : List Char) : List Char :=
  l.map fun ch =>
    if 'A'.toNat ≤ ch.toNat ∧ ch.toNat ≤ 'Z'.toNat then Char.ofNat (ch.toNat + 32) else ch

/-- The method `URL.setPath`: `Path` is the unescaped text, and `RawPath` is kept
only when it differs from the default escaping of `Path`. -/
def URL.setPath (N : NetURL) (u : URL) (p : String) : Except Error URL :=
  match unescape N p .encodePath with
  | .error err => .error err
  | .ok path =>
    .ok { u with
      Path := stringOfBytes path,
      RawPath := if p = escapeBytes path .encodePath then "" else p }

/-- The method `URL.setFragment`. -/
def URL.setFragment (N : NetURL) (u : URL) (f : String) : Except Error URL :=
  match unescape N f .encodeFragment with
  | .error err => .error err
  | .ok frag =>
    .ok { u with
      Fragment := stringOfBytes frag,
      RawFragment := if f = escapeBytes frag .encodeFragment then "" else f }

/-- The query step of `parse`: a text that ends in its only `?` sets `ForceQuery`
and loses the `?`; any other text is cut at its first `?` and what follows is
`RawQuery`. Returns the URL and the text left. -/
def cutQuery (url : URL) (rest : List Char) : URL × List Char :=
  if rest.getLast? = some '?' ∧ rest.count '?' = 1 then
    ({ url with ForceQuery := true }, rest.dropLast)
  else
    ({ url with RawQuery := String.mk ((rest.dropWhile fun ch => ch ≠ '?').drop 1) },
      rest.takeWhile fun ch => ch ≠ '?')

/-- The steps of `parse` after the scheme and the query have been split off: a text
that does not start with `/` is the opaque part when there is a scheme, and is
refused for a request URI; otherwise the authority, if any, and the path. -/
def parseHier (N : NetURL) (url : URL) (rest : List Char) (viaRequest : Bool) :
    Except Error URL :=
  if rest.head? ≠ some '/' ∧ url.Scheme ≠ "" then
    .ok { url with Opaque := String.mk rest }
  else if rest.head? ≠ some '/' ∧ viaRequest = true then
    .error "invalid URI for request"
  else if rest.head? ≠ some '/' ∧ ':' ∈ firstSegment rest then
    .error "first path segment in URL cannot contain colon"
  else if (url.Scheme ≠ "" ∨ (viaRequest = false ∧ rest.take 3 ≠ ['/', '/', '/']))
      ∧ rest.take 2 = ['/', '/'] then
    let authority := (rest.drop 2).takeWhile fun ch => ch ≠ '/'
    let rest := (rest.drop 2).dropWhile fun ch => ch ≠ '/'
    match N.parseAuthority (String.mk authority) with
    | .error err => .error err
    | .ok (user, host) => URL.setPath N { url with User := user, Host := host } (String.mk rest)
  else if url.Scheme ≠ "" ∧ rest.head? = some '/' then
    URL.setPath N { url with OmitHost := true } (String.mk rest)
  else URL.setPath N url (String.mk rest)

/-- The function `parse` of `net/url`. -/
def parse (N : NetURL) (rawURL : String) (viaRequest : Bool) : Except Error URL :=
  if stringContainsCTLByte rawURL.toList = true then
    .error "net/url: invalid control character in URL"
  else if rawURL = "" ∧ viaRequest = true then .error "empty url"
  else if rawURL = "*" then .ok { Path := "*" }
  else
    match getScheme rawURL.toList with
    | .error err => .error err
    | .ok (scheme, rest) =>
      let cut := cutQuery { Scheme := String.mk (toLower scheme) } rest
      parseHier N cut.1 cut.2 viaRequest

/-- The function `url.ParseRequestURI`; on an error Go returns a nil URL. -/
def ParseRequestURI (N : NetURL) (rawURL : String) : Except Error URL :=
  match parse N rawURL true with
  | .error err => .error ("parse " ++ N.Quote rawURL ++ ": " ++ err)
  | .ok url => .ok url

/-- The function `url.Parse`: the text after the first `#` is the fragment. -/
def Parse (N : NetURL) (rawURL : String) : Except Error URL :=
  let u := String.mk (rawURL.toList.takeWhile fun ch => ch ≠ '#')
  let frag := String.mk ((rawURL.toList.dropWhile fun ch => ch ≠ '#').drop 1)
  match parse N u false with
  | .error err => .error ("parse " ++ N.Quote u ++ ": " ++ err)
  | .ok url =>
    if frag = "" then .ok url
    else
      match URL.setFragment N url frag with
      | .error err => .error ("parse " ++ N.Quote rawURL ++ ": " ++ err)
      | .ok url => .ok url

/-! ## `net/url`, `net/http`: decoding a query, the URL of a request -/

/-- The type `url.Values` as `url.ParseQuery` returns it: keys and values are byte
strings, since unescaping can produce any bytes. -/
abbrev ByteValues := List (List Nat × List (List Nat))

/-- The statement `m[key] = append(m[key], value)`. -/
def ByteValues.Add : ByteValues → List Nat → List Nat → ByteValues
  | [], key, value => [(key, [value])]
  | (k, vs) :: rest, key, value =>
    if k = key then (k, vs ++ [value]) :: rest else (k, vs) :: ByteValues.Add rest key value

/-- One round of the loop of `parseQuery`, for the piece `key` cut off before the
next `&`: a piece with a semicolon sets the error, an empty piece is skipped, and
otherwise the piece is cut at its first `=` and both halves are unescaped
(`QueryUnescape`); the first unescaping error is kept. -/
def parseQueryRound (N : NetURL) (acc : ByteValues × Option Error) (key : List Nat) :
    ByteValues × Option Error :=
  if ';'.toNat ∈ key then (acc.1, some "invalid semicolon separator in query")
  else if key = [] then acc
  else
    let value := (key.dropWhile fun b => b ≠ '='.toNat).drop 1
    let key := key.takeWhile fun b => b ≠ '='.toNat
    match unescapeList N key .encodeQueryComponent with
    | .error err1 => (acc.1, if acc.2 = none then some err1 else acc.2)
    | .ok key =>
      match unescapeList N value .encodeQueryComponent with
      | .error err1 => (acc.1, if acc.2 = none then some err1 else acc.2)
      | .ok value => (ByteValues.Add acc.1 key value, acc.2)

/-- The function `url.ParseQuery`, which `URL.Query` calls on `RawQuery`: the loop
of `parseQuery` cuts the query at each `&` until the text is used up, so its rounds
are the pieces between the `&`s, in order. -/
def ParseQuery (N : NetURL) (query : String) : ByteValues × Option Error :=
  ((goBytes query).splitOn '&'.toNat).foldl (parseQueryRound N) ([], none)

/-- The function `strings.LastIndex` for a one-character pattern. -/
def lastIndex (s : List Char) (c : Char) : Int :=
  s.enum.foldl (fun i p => if p.2 = c then (p.1 : Int) else i) (-1)

/-- The function `hasPort` of `net/http`. -/
def hasPort (s : String) : Bool := lastIndex s.toList ':' > lastIndex s.toList ']'

/-- The function `removeEmptyPort` of `net/http`. -/
def removeEmptyPort (host : String) : String :=
  if hasPort host = true then
    if host.toList.getLast? = some ':' then String.mk host.toList.dropLast else host
  else host

/-- What `http.NewRequest` makes of its URL argument: `url.Parse`, then
`u.Host = removeEmptyPort(u.Host)`. -/
def requestURL (N : NetURL) (urlStr : String) : Except Error URL :=
  match Parse N urlStr with
  | .error err => .error err
  | .ok u => .ok { u with Host := removeEmptyPort u.Host }

/-! ## The environment: the standard library calls that are not written out -/

/-- The behaviour of the standard library around one call of the client.

* `ParseRequestURI` is `url.ParseRequestURI`; on an error Go returns a nil URL.
* `hierPart u` is what `URL.String` writes between the scheme and the query of
  a URL without opaque part (`//userinfo@host` and the escaped path);
  `EscapedFragment` is the method of that name.
* `Parse` is the parsing `http.NewRequest` applies to its URL argument.
* `Do h` is `Do` on the `http.Client` behind the pointer `h`.
* `unmarshal...` is `json.Unmarshal` into a zero value of the respective type. -/
structure Env where
  ParseRequestURI : String → Except Error URL
  hierPart : URL → String
  EscapedFragment : URL → String
  Parse : String → Except Error URL
  Do : Nat → Request → Except Error Response
  unmarshalAuthResponse : String → Except Error AuthResponse
  unmarshalVoiceResponses : String → Except Error (List VoiceResponse)
  unmarshalSpeechResponse : String → Except Error SpeechResponse
  unmarshalUnauthorizedResponse : String → Except Error UnauthorizedResponse
  unmarshalBadRequestResponse : String → Except Error BadRequestResponse

/-- The method `URL.String`. Its documentation gives the two forms of the result,
`scheme:opaque?query#fragment` and `scheme://userinfo@host/path?query#fragment`,
and says: if `u.Opaque` is non-empty, `String` uses the first form, otherwise the
second. The path is written only in the second form, inside `hierPart`. -/
def URL.string (env : Env) (u : URL) : String :=
  let buf := if u.Scheme ≠ "" then u.Scheme ++ ":" else ""
  let buf := if u.Opaque ≠ "" then buf ++ u.Opaque else buf ++ env.hierPart u
  let buf := if u.ForceQuery = true ∨ u.RawQuery ≠ "" then buf ++ "?" ++ u.RawQuery else buf
  if u.Fragment ≠ "" then buf ++ "#" ++ env.EscapedFragment u else buf

/-- The function `http.NewRequest` for the methods the client uses (`GET` and
`POST`, both valid): it fails exactly when the URL does not parse, and otherwise
returns a request with an empty header. -/
def NewRequest (env : Env) (method urlStr : String) (body : Option String) :
    Except Error Request :=
  match env.Parse urlStr with
  | .error err => .error err
  | .ok u => .ok { Method := method, URL := u, Header := [], Body := body, Close := false }

/-- The environment in which URL parsing and writing are the functions of `net/url`
written out above; the transport and the JSON decoding stay those of `env`. -/
def netEnv (N : NetURL) (env : Env) : Env :=
  { env with
    ParseRequestURI := ParseRequestURI N
    hierPart := hierPart N
    EscapedFragment := URL.EscapedFragment N
    Parse := requestURL N }

/-- How a call ends: it returns, or the goroutine panics. -/
inductive Outcome (α : Type) where
  | ret (a : α)
  | panic (msg : String)
deriving DecidableEq, Repr

/-- The observable effect of one call on a client: the requests handed to the
HTTP transport, the client afterwards, and how the call ended. -/
structure Run (α : Type) where
  sent : List Request
  client : Client
  result : Outcome α
deriving DecidableEq, Repr

/-- The panic of a nil pointer dereference. -/
def nilDereference : String :=
  "runtime error: invalid memory address or nil pointer dereference"

/-- The panic of an index outside a slice. -/
def indexOutOfRange : String := "runtime error: index out of range"

/-! ## `replicaClient.go`: `Auth` -/

/-- Lines 64-66 of `Auth`: the form values `client_id` and `secret`. -/
def Client.authData (replicaClient : Client) : Values :=
  let data : Values := []
  let data := Values.Add data CLIENTID replicaClient.ClientID
  let data := Values.Add data CLIENTSECRET replicaClient.ClientSecret
  data

/-- The status switch of `Auth` (lines 86-123), entered with the request that was
sent and the response the transport returned. -/
def Client.authSwitch (env : Env) (replicaClient : Client) (request : Request)
    (response : Response) : Run (Option Error) :=
  if response.StatusCode = 200 then
    match response.Body with
    | .error responseBodyErr => ⟨[request], replicaClient, .ret (some responseBodyErr)⟩
    | .ok authResponseBody =>
      match env.unmarshalAuthResponse authResponseBody with
      | .error marshallErr => ⟨[request], replicaClient, .ret (some marshallErr)⟩
      | .ok authResponse =>
        ⟨[request], { replicaClient with AccessToken := authResponse.AccessToken }, .ret none⟩
  else if response.StatusCode = 401 then
    match response.Body with
    | .error responseBodyErr => ⟨[request], replicaClient, .ret (some responseBodyErr)⟩
    | .ok responseBody =>
      match env.unmarshalUnauthorizedResponse responseBody with
      | .error marshallErr => ⟨[request], replicaClient, .ret (some marshallErr)⟩
      | .ok unauthorizedResponse =>
        ⟨[request], replicaClient,
          .ret (some (unauthorizedResponse.Exception ++ " : "
            ++ Join unauthorizedResponse.Reasons "; "))⟩
  else
    ⟨[request], replicaClient, .ret (some "unknown response")⟩

/-- The method `Client.Auth`. The error of `url.ParseRequestURI` is discarded, so
after a failed parse `u` is nil and the assignment to `u.Path` panics. -/
def Client.Auth (env : Env) (replicaClient : Client) : Run (Option Error) :=
  let data := replicaClient.authData
  match env.ParseRequestURI replicaClient.ServiceEndpoint with
  | .error _ => ⟨[], replicaClient, .panic nilDereference⟩
  | .ok u =>
    let u := { u with Path := "/auth/" }
    let u := { u with RawQuery := Values.Encode data }
    let urlStr := u.string env
    match NewRequest env "POST" urlStr (some (Values.Encode data)) with
    | .error err => ⟨[], replicaClient, .ret (some err)⟩
    | .ok request =>
      let request := { request with
        Header := Header.Add request.Header "Content-Type" "application/x-www-form-urlencoded" }
      let request := { request with
        Header := Header.Add request.Header "Content-Length"
          (Itoa (Values.Encode data).utf8ByteSize) }
      let request := { request with Close := true }
      match replicaClient.HTTPClient with
      | none => ⟨[], replicaClient, .panic nilDereference⟩
      | some httpClient =>
        match env.Do httpClient request with
        | .error requestErr => ⟨[request], replicaClient, .ret (some requestErr)⟩
        | .ok response => replicaClient.authSwitch env request response

/-! ## `replicaClient.go`: `GetVoices` -/

/-- The loop of `GetVoices` (lines 166-168):
`for i := 0; i < len(voiceResponse)-1; i++ { voiceMap[...UUID] = ...Name }`,
entered at index `i`; the bound is a signed subtraction, and an index outside the
slice would panic. -/
def voicesLoop (voiceResponse : List VoiceResponse) (i : Nat) (voiceMap : GoMap) :
    Outcome GoMap :=
  if _hlt : (i : Int) < (voiceResponse.length : Int) - 1 then
    match voiceResponse[i]? with
    | none => .panic indexOutOfRange
    | some v => voicesLoop voiceResponse (i + 1) (GoMap.set voiceMap v.UUID v.Name)
  else .ret voiceMap
termination_by voiceResponse.length - i
decreasing_by omega

/-- The status switch of `GetVoices` (lines 150-193). -/
def Client.voicesSwitch (env : Env) (replicaClient : Client) (request : Request)
    (response : Response) : Run (Option GoMap × Option Error) :=
  if response.StatusCode = 200 then
    let voiceMap : GoMap := []
    match response.Body with
    | .error responseBodyErr => ⟨[request], replicaClient, .ret (none, some responseBodyErr)⟩
    | .ok voiceResponseBody =>
      match env.unmarshalVoiceResponses voiceResponseBody with
      | .error marshallErr => ⟨[request], replicaClient, .ret (none, some marshallErr)⟩
      | .ok voiceResponse =>
        ⟨[request], replicaClient,
          match voicesLoop voiceResponse 0 voiceMap with
          | .panic msg => .panic msg
          | .ret voiceMap => .ret (some voiceMap, none)⟩
  else if response.StatusCode = 401 then
    match response.Body with
    | .error responseBodyErr => ⟨[request], replicaClient, .ret (none, some responseBodyErr)⟩
    | .ok responseBody =>
      match env.unmarshalUnauthorizedResponse responseBody with
      | .error marshallErr => ⟨[request], replicaClient, .ret (none, some marshallErr)⟩
      | .ok unauthorizedResponse =>
        ⟨[request], replicaClient,
          .ret (none, some (unauthorizedResponse.Exception ++ " : "
            ++ Join unauthorizedResponse.Reasons "; "))⟩
  else
    ⟨[request], replicaClient, .ret (none, some "unknown response")⟩

/-- The method `Client.GetVoices`. The request is built before the token is
looked at; a failed parse of the endpoint leaves `u` nil and panics. -/
def Client.GetVoices (env : Env) (replicaClient : Client) :
    Run (Option GoMap × Option Error) :=
  match env.ParseRequestURI replicaClient.ServiceEndpoint with
  | .error _ => ⟨[], replicaClient, .panic nilDereference⟩
  | .ok u =>
    let u := { u with Path := "/voice/" }
    let urlStr := u.string env
    match NewRequest env "GET" urlStr none with
    | .error err => ⟨[], replicaClient, .ret (none, some err)⟩
    | .ok request =>
      if replicaClient.AccessToken ≠ "" then
        let request := { request with
          Header := Header.Set request.Header "Content-Type" "application/json" }
        let request := { request with
          Header := Header.Set request.Header "Connection" "close" }
        let request := { request with
          Header := Header.Set request.Header "Authorization"
            ("Bearer " ++ replicaClient.AccessToken) }
        let request := { request with Close := true }
        match replicaClient.HTTPClient with
        | none => ⟨[], replicaClient, .panic nilDereference⟩
        | some httpClient =>
          match env.Do httpClient request with
          | .error requestErr => ⟨[request], replicaClient, .ret (none, some requestErr)⟩
          | .ok response => replicaClient.voicesSwitch env request response
      else
        ⟨[], replicaClient,
          .ret (none, some "authorization token is missing, make sure you get permission first")⟩

/-! ## `replicaClient.go`: `GetSpeech` -/

/-- Lines 204-215 of `GetSpeech`: the query values. -/
def speechData (text speakerID : String) (bitRate sampleRate : Int)
    (ext : SpeechExtension) : Values :=
  let data : Values := []
  let data := Values.Add data TEXT text
  let data := Values.Add data SPEAKERID speakerID
  let data := Values.Add data EXTENSION ext
  let data := if bitRate > 0 then Values.Add data BITRATE (Itoa bitRate) else data
  let data := if sampleRate > 0 then Values.Add data SAMPLERATE (Itoa sampleRate) else data
  data

/-- The status switch of `GetSpeech` (lines 239-294). -/
def Client.speechSwitch (env : Env) (replicaClient : Client) (request : Request)
    (response : Response) : Run (Option GoMap × Option Error) :=
  if response.StatusCode = 200 then
    match response.Body with
    | .error responseBodyErr => ⟨[request], replicaClient, .ret (none, some responseBodyErr)⟩
    | .ok speechResponseBody =>
      match env.unmarshalSpeechResponse speechResponseBody with
      | .error marshallErr => ⟨[request], replicaClient, .ret (none, some marshallErr)⟩
      | .ok speechResponse => ⟨[request], replicaClient, .ret (speechResponse.URLs, none)⟩
  else if response.StatusCode = 400 then
    match response.Body with
    | .error responseBodyErr => ⟨[request], replicaClient, .ret (none, some responseBodyErr)⟩
    | .ok responseBody =>
      match env.unmarshalBadRequestResponse responseBody with
      | .error marshallErr => ⟨[request], replicaClient, .ret (none, some marshallErr)⟩
      | .ok badRequestResponse =>
        ⟨[request], replicaClient,
          .ret (none, some (Itoa badRequestResponse.ErrorCode ++ " : "
            ++ badRequestResponse.Error))⟩
  else if response.StatusCode = 401 then
    match response.Body with
    | .error responseBodyErr => ⟨[request], replicaClient, .ret (none, some responseBodyErr)⟩
    | .ok responseBody =>
      match env.unmarshalUnauthorizedResponse responseBody with
      | .error marshallErr => ⟨[request], replicaClient, .ret (none, some marshallErr)⟩
      | .ok unauthorizedResponse =>
        ⟨[request], replicaClient,
          .ret (none, some (unauthorizedResponse.Exception ++ " : "
            ++ Join unauthorizedResponse.Reasons "; "))⟩
  else
    ⟨[request], replicaClient, .ret (none, some "unknown response")⟩

/-- The method `Client.GetSpeech`. -/
def Client.GetSpeech (env : Env) (replicaClient : Client) (text speakerID : String)
    (bitRate sampleRate : Int) (ext : SpeechExtension) :
    Run (Option GoMap × Option Error) :=
  let data := speechData text speakerID bitRate sampleRate ext
  match env.ParseRequestURI replicaClient.ServiceEndpoint with
  | .error _ => ⟨[], replicaClient, .panic nilDereference⟩
  | .ok u =>
    let u := { u with Path := "/speech/" }
    let u := { u with RawQuery := Values.Encode data }
    let urlStr := u.string env
    match NewRequest env "GET" urlStr (some (Values.Encode data)) with
    | .error err => ⟨[], replicaClient, .ret (none, some err)⟩
    | .ok request =>
      if replicaClient.AccessToken ≠ "" then
        let request := { request with
          Header := Header.Set request.Header "Content-Type" "application/json" }
        let request := { request with
          Header := Header.Set request.Header "Connection" "close" }
        let request := { request with
          Header := Header.Set request.Header "Authorization"
            ("Bearer " ++ replicaClient.AccessToken) }
        let request := { request with Close := true }
        match replicaClient.HTTPClient with
        | none => ⟨[], replicaClient, .panic nilDereference⟩
        | some httpClient =>
          match env.Do httpClient request with
          | .error requestErr => ⟨[request], replicaClient, .ret (none, some requestErr)⟩
          | .ok response => replicaClient.speechSwitch env request response
      else
        ⟨[], replicaClient,
          .ret (none, some "authorization token is missing, make sure you get permission first")⟩

/-! ## The URL values the requests are built from -/

/-- The URL value `Auth` serialises (lines 68-70): the parsed endpoint `u` after
`u.Path = "/auth/"` and `u.RawQuery = data.Encode()`. -/
def Client.authURL (replicaClient : Client) (u : URL) : URL :=
  { u with Path := "/auth/", RawQuery := Values.Encode replicaClient.authData }

/-- The URL value `GetSpeech` serialises (lines 217-219): the parsed endpoint `u`
after `u.Path = "/speech/"` and `u.RawQuery = data.Encode()`. -/
def speechURL (u : URL) (text speakerID : String) (bitRate sampleRate : Int)
    (ext : SpeechExtension) : URL :=
  { u with
    Path := "/speech/",
    RawQuery := Values.Encode (speechData text speakerID bitRate sampleRate ext) }

/-! ## The voice listing as the specification words it -/

/-- The mapping the specification describes for a listing `r_0 .. r_{N-1}`: start
from the empty mapping and insert `uuid(r_i) -> name(r_i)` for `i = 0 .. N-2` in
order, a later record overriding an earlier one with the same uuid. -/
def insertVoices (records : List VoiceResponse) : GoMap :=
  (records.take (records.length - 1)).foldl (fun m r => GoMap.set m r.UUID r.Name) []

/-! ## A mock server, for concrete runs -/

/-- The function `url.ParseRequestURI` on the endpoints of the concrete runs, with
the results of Go: the empty string is rejected (`empty url`); `http://host`
gives a scheme and a host; and `localhost:8080` gives the scheme `localhost` and
the opaque part `8080`, since `net/url` reads a URL that does not start with a
slash after the scheme as `scheme:opaque[?query][#fragment]`. -/
def mockParseRequestURI : String → Except Error URL
  | "" => .error "parse \"\": empty url"
  | "http://127.0.0.1:8080" => .ok { Scheme := "http", Host := "127.0.0.1:8080" }
  | "localhost:8080" => .ok { Scheme := "localhost", Opaque := "8080" }
  | _ => .error "parse: invalid URI for request"

/-- The function `url.Parse` on the URLs the concrete runs produce, none of which
has a fragment: the text after the first `?` is the raw query, and the text
before it is split as Go does, into scheme, host and path, or into scheme and
opaque part when no slash follows the scheme. -/
def mockParse (rawURL : String) : Except Error URL :=
  let front := rawURL.toList.takeWhile (fun ch => ch ≠ '?')
  let query := String.mk ((rawURL.toList.dropWhile (fun ch => ch ≠ '?')).drop 1)
  match String.mk front with
  | "http://127.0.0.1:8080/auth/" =>
    .ok { Scheme := "http", Host := "127.0.0.1:8080", Path := "/auth/", RawQuery := query }
  | "http://127.0.0.1:8080/voice/" =>
    .ok { Scheme := "http", Host := "127.0.0.1:8080", Path := "/voice/", RawQuery := query }
  | "http://127.0.0.1:8080/speech/" =>
    .ok { Scheme := "http", Host := "127.0.0.1:8080", Path := "/speech/", RawQuery := query }
  | "localhost:8080" => .ok { Scheme := "localhost", Opaque := "8080", RawQuery := query }
  | _ => .error "parse: unknown URL"

/-- The body `{"access_token":"tok123"}`. -/
def authBody : String := "\x7b\"access_token\":\"tok123\"\x7d"

/-- The body `{"exception":"Invalid","reasons":["bad id","bad secret"]}`. -/
def unauthorizedBody : String :=
  "\x7b\"exception\":\"Invalid\",\"reasons\":[\"bad id\",\"bad secret\"]\x7d"

/-- The body `{"error_code":42,"error":"bad text"}`. -/
def badRequestBody : String := "\x7b\"error_code\":42,\"error\":\"bad text\"\x7d"

/-- A voice listing of three records with distinct identifiers. -/
def voicesBody : String :=
  "[\x7b\"uuid\":\"u1\",\"name\":\"Ann\"\x7d,\x7b\"uuid\":\"u2\",\"name\":\"Bob\"\x7d,"
    ++ "\x7b\"uuid\":\"u3\",\"name\":\"Cy\"\x7d]"

/-- A voice listing of three records, the first two with the same identifier. -/
def repeatedVoicesBody : String :=
  "[\x7b\"uuid\":\"u1\",\"name\":\"Ann\"\x7d,\x7b\"uuid\":\"u1\",\"name\":\"Bob\"\x7d,"
    ++ "\x7b\"uuid\":\"u3\",\"name\":\"Cy\"\x7d]"

/-- A speech response `{"uuid":"s1","duration":1.5,"urls":{"mp3":"https://cdn/s1.mp3"}}`;
`1069547520` is the bit pattern of the `float32` value 1.5. -/
def speechBody : String :=
  "\x7b\"uuid\":\"s1\",\"duration\":1.5,\"urls\":\x7b\"mp3\":\"https://cdn/s1.mp3\"\x7d\x7d"

/-- The environment of a mock server at `http://127.0.0.1:8080` that answers every
request with the given status and body; any other scheme is refused by the
transport. JSON decoding is a table over the bodies above. -/
def mockEnv (status : Int) (body : String) : Env where
  ParseRequestURI := mockParseRequestURI
  hierPart := fun u => "//" ++ u.Host ++ u.Path
  EscapedFragment := fun u => u.Fragment
  Parse := mockParse
  Do := fun _ request =>
    if request.URL.Scheme = "http" then .ok ⟨status, .ok body⟩
    else .error "unsupported protocol scheme"
  unmarshalAuthResponse := fun data =>
    if data = authBody then .ok { AccessToken := "tok123" }
    else .error "unexpected end of JSON input"
  unmarshalVoiceResponses := fun data =>
    if data = voicesBody then .ok [⟨"u1", "Ann"⟩, ⟨"u2", "Bob"⟩, ⟨"u3", "Cy"⟩]
    else if data = repeatedVoicesBody then .ok [⟨"u1", "Ann"⟩, ⟨"u1", "Bob"⟩, ⟨"u3", "Cy"⟩]
    else if data = "[]" then .ok []
    else .error "unexpected end of JSON input"
  unmarshalSpeechResponse := fun data =>
    if data = speechBody then
      .ok { UUID := "s1", Duration := 1069547520, URLs := some [("mp3", "https://cdn/s1.mp3")] }
    else .error "unexpected end of JSON input"
  unmarshalUnauthorizedResponse := fun data =>
    if data = unauthorizedBody then
      .ok { Reasons := ["bad id", "bad secret"], Exception := "Invalid" }
    else .error "unexpected end of JSON input"
  unmarshalBadRequestResponse := fun data =>
    if data = badRequestBody then .ok { ErrorCode := 42, Error := "bad text" }
    else .error "unexpected end of JSON input"

/-- A client of the mock server that has not authenticated yet. -/
def mockClient : Client :=
  { ServiceEndpoint := "http://127.0.0.1:8080", ClientID := "my id", ClientSecret := "s3cr3t",
    AccessToken := "", HTTPClient := some 0 }

/-- A client of the mock server holding a token. -/
def tokenClient : Client := { mockClient with AccessToken := "tok123" }

/-- The request `Auth` hands to the transport for `mockClient`. -/
def mockAuthRequest : Request :=
  { Method := "POST",
    URL := { Scheme := "http", Host := "127.0.0.1:8080", Path := "/auth/",
             RawQuery := "client_id=my+id&secret=s3cr3t" },
    Header := [("Content-Type", ["application/x-www-form-urlencoded"]),
               ("Content-Length", ["29"])],
    Body := some "client_id=my+id&secret=s3cr3t",
    Close := true }

/-- The request `GetVoices` hands to the transport for `tokenClient`. -/
def mockVoicesRequest : Request :=
  { Method := "GET",
    URL := { Scheme := "http", Host := "127.0.0.1:8080", Path := "/voice/" },
    Header := [("Content-Type", ["application/json"]), ("Connection", ["close"]),
               ("Authorization", ["Bearer tok123"])],
    Body := none,
    Close := true }

/-- The request `GetSpeech` hands to the transport for `tokenClient` and the
arguments `"This is just a test."`, `"v1"`, `128`, `0`, `MP3`. -/
def mockSpeechRequest : Request :=
  { Method := "GET",
    URL := { Scheme := "http", Host := "127.0.0.1:8080", Path := "/speech/",
             RawQuery := "bit_rate=128&extension=mp3&speaker_id=v1&txt=This+is+just+a+test." },
    Header := [("Content-Type", ["application/json"]), ("Connection", ["close"]),
               ("Authorization", ["Bearer tok123"])],
    Body := some "bit_rate=128&extension=mp3&speaker_id=v1&txt=This+is+just+a+test.",
    Close := true }

/-- A client whose endpoint lacks the `http://` prefix: `url.ParseRequestURI`
accepts `localhost:8080` as the scheme `localhost` with the opaque part `8080`
(a scheme followed by text that does not start with `/`, as in `mailto:user@host`). -/
def opaqueClient : Client := { mockClient with ServiceEndpoint := "localhost:8080" }

/-- The request `Auth` hands to the transport for `opaqueClient`. -/
def opaqueAuthRequest : Request :=
  { Method := "POST",
    URL := { Scheme := "localhost", Opaque := "8080",
             RawQuery := "client_id=my+id&secret=s3cr3t" },
    Header := [("Content-Type", ["application/x-www-form-urlencoded"]),
               ("Content-Length", ["29"])],
    Body := some "client_id=my+id&secret=s3cr3t",
    Close := true }

/-- The zero value `Client{}`: no endpoint, no credentials, no token, a nil
`HTTPClient`. -/
def zeroClient : Client := {}

/-- A stand-in for `parseAuthority` and `strconv.Quote` in the concrete runs: the
authority is taken as a host without user information, which is what Go makes of
`127.0.0.1:8080`, the only authority of these runs, and a text is quoted by putting
it between double quotes. -/
def mockNet : NetURL where
  parseAuthority := fun authority => .ok (none, authority)
  Quote := fun s => "\"" ++ s ++ "\""

/-- A client whose endpoint has a `#` after the scheme: `url.ParseRequestURI` does
not split off a fragment, so `foo:bar#x` is the scheme `foo` with the opaque part
`bar#x`. -/
def fragmentClient : Client := { mockClient with ServiceEndpoint := "foo:bar#x" }

/-- The request `Auth` hands to the transport for `fragmentClient`: the URL text is
`foo:bar#x?client_id=my+id&secret=s3cr3t`, and `http.NewRequest` reads what follows
the `#` as the fragment. -/
def fragmentAuthRequest : Request :=
  { Method := "POST",
    URL := { Scheme := "foo", Opaque := "bar",
             Fragment := "x?client_id=my+id&secret=s3cr3t" },
    Header := [("Content-Type", ["application/x-www-form-urlencoded"]),
               ("Content-Length", ["29"])],
    Body := some "client_id=my+id&secret=s3cr3t",
    Close := true }

/-- The client `fragmentClient` holding a token. -/
def fragmentTokenClient : Client := { fragmentClient with AccessToken := "tok123" }

/-- The request `GetSpeech` hands to the transport for `fragmentTokenClient` and the
arguments `"This is just a test."`, `"v1"`, `128`, `0`, `MP3`. -/
def fragmentSpeechRequest : Request :=
  { Method := "GET",
    URL := { Scheme := "foo", Opaque := "bar",
             Fragment := "x?bit_rate=128&extension=mp3&speaker_id=v1&txt=This+is+just+a+test." },
    Header := [("Content-Type", ["application/json"]), ("Connection", ["close"]),
               ("Authorization", ["Bearer tok123"])],
    Body := some "bit_rate=128&extension=mp3&speaker_id=v1&txt=This+is+just+a+test.",
    Close := true }

/-- The request `GetSpeech` hands to the transport for `tokenClient` and the
arguments `"This is just a test."`, `"v1"`, `128`, `0` and the extension `m&x`. -/
def unknownExtensionRequest : Request :=
  { Method := "GET",
    URL := { Scheme := "http", Host := "127.0.0.1:8080", Path := "/speech/",
             RawQuery := "bit_rate=128&extension=m%26x&speaker_id=v1&txt=This+is+just+a+test." },
    Header := [("Content-Type", ["application/json"]), ("Connection", ["close"]),
               ("Authorization", ["Bearer tok123"])],
    Body := some "bit_rate=128&extension=m%26x&speaker_id=v1&txt=This+is+just+a+test.",
    Close := true }

/-! ## Vocabulary of the lemmas about URLs -/

/-- The texts `getScheme` accepts as a scheme: a letter followed by letters,
digits, `+`, `-` and `.`. -/
def isScheme (s : List Char) : Prop :=
  (∀ c ∈ s, schemeLetter c = true ∨ schemeOther c = true) ∧
  ∃ c cs, s = c :: cs ∧ schemeLetter c = true

/-- A character that neither is refused by `parse` nor ends the part of a URL
before the query: no control character, no `#`, no `?`. -/
def plainChar (ch : Char) : Prop :=
  ¬ (ch.toNat < 0x20 ∨ ch.toNat = 0x7f) ∧ ch ≠ '#' ∧ ch ≠ '?'

/-- What `url.ParseRequestURI` guarantees about the URL it returns: no fragment; a
well-formed scheme or none; without a scheme, no authority and no opaque part; an
opaque part that does not start with `/` and holds neither `?` nor a control
character; and a `RawPath` that is empty or starts with `/`. -/
structure RequestURI (u : URL) : Prop where
  fragment : u.Fragment = ""
  scheme : u.Scheme = "" ∨ isScheme u.Scheme.toList
  noScheme : u.Scheme = "" → u.Host = "" ∧ u.User = none ∧ u.Opaque = ""
  opaqueHead : u.Opaque.toList.head? ≠ some '/'
  opaqueChars : ∀ ch ∈ u.Opaque.toList, ch ≠ '?' ∧ ¬ (ch.toNat < 0x20 ∨ ch.toNat = 0x7f)
  rawPath : u.RawPath = "" ∨ u.RawPath.toList.head? = some '/'

/-- A path the client sets (`/auth/`, `/voice/`, `/speech/`): it starts with one
`/`, and it needs no escaping, so it is its own escaped form. -/
structure ClientPath (P : String) : Prop where
  head : P.toList.head? = some '/'
  second : (goBytes P).tail.head? ≠ some '/'.toNat
  escaped : escape P .encodePath = P
  notStar : P ≠ "*"
  wellFormed : unescapeBad (goBytes P) .encodePath = none
  unescaped : unescapeBytes (goBytes P) .encodePath = goBytes P
  text : stringOfBytes (goBytes P) = P
  chars : ∀ ch ∈ P.toList, plainChar ch

/-- A raw query as `Values.Encode` writes it for at least one pair: not empty,
without control characters, `#` and `?`, and with well-formed escapes only. -/
structure EncodedQuery (q : String) : Prop where
  nonempty : q ≠ ""
  chars : ∀ ch ∈ q.toList, plainChar ch
  wellFormed : unescapeBad (goBytes q) .encodeFragment = none

/-! ## Shared lemmas: a call whose request was answered runs its status switch -/

theorem Client.authSwitch_sent (env : Env) (c : Client) (request : Request)
    (response : Response) : (c.authSwitch env request response).sent = [request] := by
  unfold Client.authSwitch
  split_ifs <;> (repeat' split) <;> rfl

theorem Client.Auth_answered {env : Env} {c : Client} {h : Nat} {req : Request}
    {resp : Response} (hsent : (c.Auth env).sent = [req])
    (hclient : c.HTTPClient = some h) (hdo : env.Do h req = .ok resp) :
    c.Auth env = c.authSwitch env req resp := by
  revert hsent
  unfold Client.Auth
  simp only [hclient]
  split
  · simp
  · split
    · simp
    · split
      · rename_i hd
        intro hs
        simp at hs
        rw [hs, hdo] at hd
        simp at hd
      · rename_i hd
        intro hs
        rw [Client.authSwitch_sent] at hs
        simp at hs
        rw [hs, hdo] at hd
        simp at hd
        rw [hs, hd]

theorem Client.voicesSwitch_sent (env : Env) (c : Client) (request : Request)
    (response : Response) : (c.voicesSwitch env request response).sent = [request] := by
  unfold Client.voicesSwitch
  split_ifs
  · simp only []
    repeat' split
    all_goals rfl
  all_goals (repeat' split) <;> rfl

theorem Client.GetVoices_answered {env : Env} {c : Client} {h : Nat} {req : Request}
    {resp : Response} (hsent : (c.GetVoices env).sent = [req])
    (hclient : c.HTTPClient = some h) (hdo : env.Do h req = .ok resp) :
    c.GetVoices env = c.voicesSwitch env req resp := by
  revert hsent
  unfold Client.GetVoices
  simp only [hclient]
  split
  · simp
  · split
    · simp
    · split
      · split
        · rename_i hd
          intro hs
          simp at hs
          rw [hs, hdo] at hd
          simp at hd
        · rename_i hd
          intro hs
          rw [Client.voicesSwitch_sent] at hs
          simp at hs
          rw [hs, hdo] at hd
          simp at hd
          rw [hs, hd]
      · simp

theorem Client.speechSwitch_sent (env : Env) (c : Client) (request : Request)
    (response : Response) : (c.speechSwitch env request response).sent = [request] := by
  unfold Client.speechSwitch
  split_ifs <;> (repeat' split) <;> rfl

theorem Client.GetSpeech_answered {env : Env} {c : Client} {h : Nat} {req : Request}
    {resp : Response} {text speakerID : String} {bitRate sampleRate : Int}
    {ext : SpeechExtension}
    (hsent : (c.GetSpeech env text speakerID bitRate sampleRate ext).sent = [req])
    (hclient : c.HTTPClient = some h) (hdo : env.Do h req = .ok resp) :
    c.GetSpeech env text speakerID bitRate sampleRate ext = c.speechSwitch env req resp := by
  revert hsent
  unfold Client.GetSpeech
  simp only [hclient]
  split
  · simp
  · split
    · simp
    · split
      · split
        · rename_i hd
          intro hs
          simp at hs
          rw [hs, hdo] at hd
          simp at hd
        · rename_i hd
          intro hs
          rw [Client.speechSwitch_sent] at hs
          simp at hs
          rw [hs, hdo] at hd
          simp at hd
          rw [hs, hd]
      · simp

/-! ## Shared lemmas: maps and the voice loop -/

theorem GoMap.mem_keys_set (m : GoMap) (k v x : String) :
    x ∈ GoMap.keys (GoMap.set m k v) ↔ x = k ∨ x ∈ GoMap.keys m := by
  induction m with
  | nil => simp [GoMap.set, GoMap.keys]
  | cons p rest ih =>
    obtain ⟨k', v'⟩ := p
    unfold GoMap.set
    by_cases hk : k' = k
    · subst hk
      simp [GoMap.keys]
    · simp only [hk, if_false]
      simp only [GoMap.keys, List.map_cons, List.mem_cons] at ih ⊢
      rw [ih]
      tauto

theorem GoMap.nodup_keys_set (m : GoMap) (k v : String) (hm : (GoMap.keys m).Nodup) :
    (GoMap.keys (GoMap.set m k v)).Nodup := by
  induction m with
  | nil => simp [GoMap.set, GoMap.keys]
  | cons p rest ih =>
    obtain ⟨k', v'⟩ := p
    unfold GoMap.set
    by_cases hk : k' = k
    · subst hk
      simpa [GoMap.keys] using hm
    · simp only [hk, if_false]
      have hm' : k' ∉ GoMap.keys rest ∧ (GoMap.keys rest).Nodup := by
        simpa [GoMap.keys] using hm
      have hnot : k' ∉ GoMap.keys (GoMap.set rest k v) := by
        rw [GoMap.mem_keys_set]
        rintro (h | h)
        · exact hk h
        · exact hm'.1 h
      have := ih hm'.2
      simp only [GoMap.keys, List.map_cons, List.nodup_cons] at hnot this ⊢
      exact ⟨hnot, this⟩

theorem GoMap.get?_set (m : GoMap) (k v x : String) :
    GoMap.get? (GoMap.set m k v) x = if x = k then some v else GoMap.get? m x := by
  induction m with
  | nil =>
    by_cases hx : x = k
    · simp [GoMap.set, GoMap.get?, hx]
    · have hx' : ¬ k = x := fun h => hx h.symm
      simp [GoMap.set, GoMap.get?, hx, hx']
  | cons p rest ih =>
    obtain ⟨k', v'⟩ := p
    unfold GoMap.set
    by_cases hk : k' = k
    · subst hk
      by_cases hx : x = k'
      · simp [GoMap.get?, hx]
      · have hx' : ¬ k' = x := fun h => hx h.symm
        simp [GoMap.get?, hx, hx']
    · simp only [hk, if_false]
      by_cases hx : k' = x
      · subst hx
        simp [GoMap.get?, hk]
      · simp [GoMap.get?, hx, ih]

theorem GoMap.mem_keys_foldl (l : List VoiceResponse) (m : GoMap) (x : String) :
    x ∈ GoMap.keys (l.foldl (fun m r => GoMap.set m r.UUID r.Name) m)
      ↔ x ∈ GoMap.keys m ∨ ∃ r ∈ l, r.UUID = x := by
  induction l generalizing m with
  | nil => simp
  | cons r l ih =>
    rw [List.foldl_cons, ih, GoMap.mem_keys_set]
    constructor
    · rintro ((h | h) | ⟨r', hr', h⟩)
      · exact Or.inr ⟨r, List.mem_cons_self _ _, h.symm⟩
      · exact Or.inl h
      · exact Or.inr ⟨r', List.mem_cons_of_mem _ hr', h⟩
    · rintro (h | ⟨r', hr', h⟩)
      · exact Or.inl (Or.inr h)
      · rcases List.mem_cons.mp hr' with h' | h'
        · subst h'
          exact Or.inl (Or.inl h.symm)
        · exact Or.inr ⟨r', h', h⟩

theorem GoMap.nodup_keys_foldl (l : List VoiceResponse) (m : GoMap)
    (hm : (GoMap.keys m).Nodup) :
    (GoMap.keys (l.foldl (fun m r => GoMap.set m r.UUID r.Name) m)).Nodup := by
  induction l generalizing m with
  | nil => simpa using hm
  | cons r l ih =>
    rw [List.foldl_cons]
    exact ih _ (GoMap.nodup_keys_set m _ _ hm)

theorem GoMap.get?_foldl (l : List VoiceResponse) (m : GoMap) (k : String) :
    GoMap.get? (l.foldl (fun m r => GoMap.set m r.UUID r.Name) m) k
      = match l.reverse.find? (fun r => r.UUID = k) with
        | some r => some r.Name
        | none => GoMap.get? m k := by
  induction l generalizing m with
  | nil => simp
  | cons r l ih =>
    rw [List.foldl_cons, ih, List.reverse_cons, List.find?_append]
    cases hfind : l.reverse.find? (fun r => decide (r.UUID = k)) with
    | some r' => simp
    | none =>
      by_cases hr : r.UUID = k
      · simp [GoMap.get?_set, hr]
      · have hr' : ¬ k = r.UUID := fun h => hr h.symm
        simp [GoMap.get?_set, hr, hr']

theorem GoMap.size_foldl (l : List VoiceResponse) :
    GoMap.size (l.foldl (fun m r => GoMap.set m r.UUID r.Name) [])
      = (l.map (fun r => r.UUID)).dedup.length := by
  have hnodup := GoMap.nodup_keys_foldl l [] (by simp [GoMap.keys])
  have hlen : GoMap.size (l.foldl (fun m r => GoMap.set m r.UUID r.Name) [])
      = (GoMap.keys (l.foldl (fun m r => GoMap.set m r.UUID r.Name) [])).length := by
    simp [GoMap.size, GoMap.keys]
  rw [hlen, ← List.toFinset_card_of_nodup hnodup, ← List.card_toFinset]
  congr 1
  ext x
  simp only [List.mem_toFinset, GoMap.mem_keys_foldl, List.mem_map]
  simp [GoMap.keys]

theorem voicesLoop_eq (rs : List VoiceResponse) (i : Nat) (m : GoMap) :
    voicesLoop rs i m
      = .ret (((rs.take (rs.length - 1)).drop i).foldl
          (fun m r => GoMap.set m r.UUID r.Name) m) := by
  induction i, m using voicesLoop.induct rs with
  | case1 i m hlt hnone =>
    exfalso
    rw [List.getElem?_eq_none_iff] at hnone
    omega
  | case2 i m hlt v hv ih =>
    rw [voicesLoop, dif_pos hlt]
    simp only [hv]
    rw [ih]
    have hi : i < (rs.take (rs.length - 1)).length := by
      rw [List.length_take]
      omega
    have hget : (rs.take (rs.length - 1))[i] = v := by
      rw [List.getElem_take]
      have hi' : i < rs.length := by omega
      rw [List.getElem?_eq_getElem hi'] at hv
      exact Option.some.inj hv
    rw [List.drop_eq_getElem_cons hi, List.foldl_cons, hget]
  | case3 i m hnlt =>
    rw [voicesLoop, dif_neg hnlt]
    have hdrop : (rs.take (rs.length - 1)).drop i = [] := by
      apply List.drop_eq_nil_of_le
      rw [List.length_take]
      omega
    rw [hdrop, List.foldl_nil]

theorem voicesLoop_zero (rs : List VoiceResponse) :
    voicesLoop rs 0 [] = .ret (insertVoices rs) := by
  rw [voicesLoop_eq, List.drop_zero, insertVoices]

/-! ## Shared lemmas: the form encoding -/

theorem utf8ByteSize_append (a b : String) :
    (a ++ b).utf8ByteSize = a.utf8ByteSize + b.utf8ByteSize := by
  rw [show (a ++ b).utf8ByteSize = String.utf8Len (a ++ b).data from rfl, String.data_append,
    String.utf8Len_append]
  rfl

theorem encodeStep_pos (buf a b : String) :
    ((if buf.utf8ByteSize > 0 then buf ++ "&" else buf) ++ a ++ "=" ++ b).utf8ByteSize > 0 := by
  have h1 : ("=" : String).utf8ByteSize = 1 := by decide
  simp only [utf8ByteSize_append, h1]
  omega

theorem encodeFold_eq (ps : List (String × String)) (buf : String)
    (hbuf : buf.utf8ByteSize > 0) :
    ps.foldl
        (fun buf kv =>
          (if buf.utf8ByteSize > 0 then buf ++ "&" else buf)
            ++ QueryEscape kv.1 ++ "=" ++ QueryEscape kv.2)
        buf
      = String.intercalate.go buf "&"
          (ps.map fun kv => QueryEscape kv.1 ++ "=" ++ QueryEscape kv.2) := by
  induction ps generalizing buf with
  | nil => simp [String.intercalate.go]
  | cons p ps ih =>
    rw [List.foldl_cons, ih _ (encodeStep_pos _ _ _), if_pos hbuf]
    simp [String.intercalate.go, String.append_assoc]

theorem Values.Encode_eq_intercalate (v : Values) :
    Values.Encode v
      = "&".intercalate
          ((Values.sortedPairs v).map fun kv => QueryEscape kv.1 ++ "=" ++ QueryEscape kv.2) := by
  unfold Values.Encode
  cases Values.sortedPairs v with
  | nil => simp [String.intercalate]
  | cons p ps =>
    have h0 : ¬ ("" : String).utf8ByteSize > 0 := by decide
    rw [List.foldl_cons, encodeFold_eq _ _ (encodeStep_pos _ _ _), if_neg h0]
    simp [String.intercalate, String.append_assoc]

theorem Client.authData_Encode (c : Client) :
    Values.Encode c.authData
      = "client_id=" ++ QueryEscape c.ClientID ++ "&secret=" ++ QueryEscape c.ClientSecret := by
  have hpairs : Values.sortedPairs c.authData
      = [("client_id", c.ClientID), ("secret", c.ClientSecret)] := by
    rfl
  have h1 : QueryEscape "client_id" = "client_id" := by decide
  have h2 : QueryEscape "secret" = "secret" := by decide
  have e1 : "client_id=" = "client_id" ++ "=" := by decide
  have e2 : "&secret=" = "&" ++ ("secret" ++ "=") := by decide
  rw [Values.Encode_eq_intercalate, hpairs, e1, e2]
  simp only [List.map_cons, List.map_nil, String.intercalate, String.intercalate.go, h1, h2,
    String.append_assoc]

theorem speechData_eq (text speakerID : String) (bitRate sampleRate : Int)
    (ext : SpeechExtension) :
    speechData text speakerID bitRate sampleRate ext
      = [("txt", [text]), ("speaker_id", [speakerID]), ("extension", [ext])]
        ++ (if bitRate > 0 then [("bit_rate", [Itoa bitRate])] else [])
        ++ (if sampleRate > 0 then [("sample_rate", [Itoa sampleRate])] else []) := by
  by_cases hb : bitRate > 0 <;> by_cases hs : sampleRate > 0 <;>
    simp [speechData, Values.Add, TEXT, SPEAKERID, EXTENSION, BITRATE, SAMPLERATE, hb, hs]

theorem speechData_Encode (text speakerID : String) (bitRate sampleRate : Int)
    (ext : SpeechExtension) :
    Values.Encode (speechData text speakerID bitRate sampleRate ext)
      = (if bitRate > 0 then "bit_rate=" ++ QueryEscape (Itoa bitRate) ++ "&" else "")
        ++ "extension=" ++ QueryEscape ext
        ++ (if sampleRate > 0 then "&sample_rate=" ++ QueryEscape (Itoa sampleRate) else "")
        ++ "&speaker_id=" ++ QueryEscape speakerID ++ "&txt=" ++ QueryEscape text := by
  have h1 : QueryEscape "bit_rate" = "bit_rate" := by decide
  have h2 : QueryEscape "extension" = "extension" := by decide
  have h3 : QueryEscape "sample_rate" = "sample_rate" := by decide
  have h4 : QueryEscape "speaker_id" = "speaker_id" := by decide
  have h5 : QueryEscape "txt" = "txt" := by decide
  have e1 : "bit_rate=" = "bit_rate" ++ "=" := by decide
  have e2 : "extension=" = "extension" ++ "=" := by decide
  have e3 : "&sample_rate=" = "&" ++ ("sample_rate" ++ "=") := by decide
  have e4 : "&speaker_id=" = "&" ++ ("speaker_id" ++ "=") := by decide
  have e5 : "&txt=" = "&" ++ ("txt" ++ "=") := by decide
  rw [Values.Encode_eq_intercalate, speechData_eq, e1, e2, e3, e4, e5]
  by_cases hb : bitRate > 0 <;> by_cases hs : sampleRate > 0
  · rw [if_pos hb, if_pos hs]
    have hpairs : Values.sortedPairs ([("txt", [text]), ("speaker_id", [speakerID]),
        ("extension", [ext])] ++ [("bit_rate", [Itoa bitRate])]
          ++ [("sample_rate", [Itoa sampleRate])])
        = [("bit_rate", Itoa bitRate), ("extension", ext), ("sample_rate", Itoa sampleRate),
           ("speaker_id", speakerID), ("txt", text)] := by
      rfl
    rw [hpairs]
    simp only [List.map_cons, List.map_nil, String.intercalate, String.intercalate.go, h1, h2,
      h3, h4, h5, String.append_assoc, if_pos hb, if_pos hs]
  · rw [if_pos hb, if_neg hs]
    have hpairs : Values.sortedPairs ([("txt", [text]), ("speaker_id", [speakerID]),
        ("extension", [ext])] ++ [("bit_rate", [Itoa bitRate])] ++ [])
        = [("bit_rate", Itoa bitRate), ("extension", ext),
           ("speaker_id", speakerID), ("txt", text)] := by
      rfl
    rw [hpairs]
    simp only [List.map_cons, List.map_nil, String.intercalate, String.intercalate.go, h1, h2,
      h3, h4, h5, String.append_assoc, if_pos hb, if_neg hs, String.empty_append]
  · rw [if_neg hb, if_pos hs]
    have hpairs : Values.sortedPairs ([("txt", [text]), ("speaker_id", [speakerID]),
        ("extension", [ext])] ++ [] ++ [("sample_rate", [Itoa sampleRate])])
        = [("extension", ext), ("sample_rate", Itoa sampleRate),
           ("speaker_id", speakerID), ("txt", text)] := by
      rfl
    rw [hpairs]
    simp only [List.map_cons, List.map_nil, String.intercalate, String.intercalate.go, h1, h2,
      h3, h4, h5, String.append_assoc, if_neg hb, if_pos hs, String.empty_append]
  · rw [if_neg hb, if_neg hs]
    have hpairs : Values.sortedPairs ([("txt", [text]), ("speaker_id", [speakerID]),
        ("extension", [ext])] ++ [] ++ [])
        = [("extension", ext), ("speaker_id", speakerID), ("txt", text)] := by
      rfl
    rw [hpairs]
    simp only [List.map_cons, List.map_nil, String.intercalate, String.intercalate.go, h1, h2,
      h3, h4, h5, String.append_assoc, if_neg hb, if_neg hs, String.empty_append]

/-! ## Claims about the status switches -/

/-- C1. `Auth`, success path: when the transport answers the request of `Auth` with
status 200 and a body that decodes to an `AuthResponse` with access token `t`
(any string, the empty one included), `Auth` returns a nil error, the client's
`AccessToken` is `t` afterwards, and `ServiceEndpoint`, `ClientID`, `ClientSecret`
and `HTTPClient` are unchanged. -/
theorem auth_success_stores_token (env : Env) (c : Client) (h : Nat) (req : Request)
    (resp : Response) (body t refresh : String)
    (hsent : (c.Auth env).sent = [req]) (hclient : c.HTTPClient = some h)
    (hdo : env.Do h req = .ok resp) (hstatus : resp.StatusCode = 200)
    (hbody : resp.Body = .ok body)
    (hdecode : env.unmarshalAuthResponse body
      = .ok { AccessToken := t, RefreshToken := refresh }) :
    (c.Auth env).result = .ret none ∧
    (c.Auth env).client.AccessToken = t ∧
    (c.Auth env).client.ServiceEndpoint = c.ServiceEndpoint ∧
    (c.Auth env).client.ClientID = c.ClientID ∧
    (c.Auth env).client.ClientSecret = c.ClientSecret ∧
    (c.Auth env).client.HTTPClient = c.HTTPClient := by
  rw [Client.Auth_answered hsent hclient hdo]
  simp [Client.authSwitch, hstatus, hbody, hdecode]

/-- Witness of C1: the mock server answers 200 with `{"access_token":"tok123"}`;
the stored token becomes `tok123`. -/
theorem auth_success_stores_token_witness :
    (mockClient.Auth (mockEnv 200 authBody)).sent = [mockAuthRequest] ∧
    (mockClient.Auth (mockEnv 200 authBody)).result = .ret none ∧
    (mockClient.Auth (mockEnv 200 authBody)).client.AccessToken = "tok123" ∧
    (mockClient.Auth (mockEnv 200 authBody)).client.ServiceEndpoint
      = "http://127.0.0.1:8080" ∧
    (mockClient.Auth (mockEnv 200 authBody)).client.ClientID = "my id" ∧
    (mockClient.Auth (mockEnv 200 authBody)).client.ClientSecret = "s3cr3t" ∧
    (mockClient.Auth (mockEnv 200 authBody)).client.HTTPClient = some 0 :=
  ⟨by rfl,
   auth_success_stores_token (mockEnv 200 authBody) mockClient 0 mockAuthRequest
     ⟨200, .ok authBody⟩ authBody "tok123" "" (by rfl) rfl rfl rfl rfl rfl⟩

/-- C2. Unauthorized handling: when the transport answers with status 401 and a body
that decodes to exception text `e` and reason list `rs` (of any length), `Auth`
returns the error `e ++ " : " ++ (rs joined with "; ")` and leaves the access
token as it was; `GetVoices` and `GetSpeech`, called with a non-empty token and
answered with the same response, return the same error and a nil map. -/
theorem unauthorized_error_message (env : Env) (c : Client) (h : Nat) (resp : Response)
    (body e : String) (rs : List String)
    (hclient : c.HTTPClient = some h) (hstatus : resp.StatusCode = 401)
    (hbody : resp.Body = .ok body)
    (hdecode : env.unmarshalUnauthorizedResponse body
      = .ok { Reasons := rs, Exception := e }) :
    (∀ req, (c.Auth env).sent = [req] → env.Do h req = .ok resp →
      (c.Auth env).result = .ret (some (e ++ " : " ++ Join rs "; ")) ∧
      (c.Auth env).client.AccessToken = c.AccessToken ∧ (c.Auth env).client = c) ∧
    (∀ req, c.AccessToken ≠ "" → (c.GetVoices env).sent = [req] →
      env.Do h req = .ok resp →
      (c.GetVoices env).result = .ret (none, some (e ++ " : " ++ Join rs "; "))) ∧
    (∀ text speakerID bitRate sampleRate ext req, c.AccessToken ≠ "" →
      (c.GetSpeech env text speakerID bitRate sampleRate ext).sent = [req] →
      env.Do h req = .ok resp →
      (c.GetSpeech env text speakerID bitRate sampleRate ext).result
        = .ret (none, some (e ++ " : " ++ Join rs "; "))) := by
  refine ⟨?_, ?_, ?_⟩
  · intro req hsent hdo
    rw [Client.Auth_answered hsent hclient hdo]
    simp [Client.authSwitch, hstatus, hbody, hdecode]
  · intro req _ hsent hdo
    rw [Client.GetVoices_answered hsent hclient hdo]
    simp [Client.voicesSwitch, hstatus, hbody, hdecode]
  · intro text speakerID bitRate sampleRate ext req _ hsent hdo
    rw [Client.GetSpeech_answered hsent hclient hdo]
    simp [Client.speechSwitch, hstatus, hbody, hdecode]

/-- Witness of C2: the mock server answers 401 with
`{"exception":"Invalid","reasons":["bad id","bad secret"]}`; all three calls fail
with `Invalid : bad id; bad secret`, and `Auth` keeps the token. -/
theorem unauthorized_error_message_witness :
    ((tokenClient.Auth (mockEnv 401 unauthorizedBody)).result
        = .ret (some "Invalid : bad id; bad secret") ∧
      (tokenClient.Auth (mockEnv 401 unauthorizedBody)).client.AccessToken = "tok123" ∧
      (tokenClient.Auth (mockEnv 401 unauthorizedBody)).client = tokenClient) ∧
    (tokenClient.GetVoices (mockEnv 401 unauthorizedBody)).result
      = .ret (none, some "Invalid : bad id; bad secret") ∧
    (tokenClient.GetSpeech (mockEnv 401 unauthorizedBody)
        "This is just a test." "v1" 128 0 MP3).result
      = .ret (none, some "Invalid : bad id; bad secret") :=
  have key := unauthorized_error_message (mockEnv 401 unauthorizedBody) tokenClient 0
    ⟨401, .ok unauthorizedBody⟩ unauthorizedBody "Invalid" ["bad id", "bad secret"]
    rfl rfl rfl rfl
  ⟨key.1 mockAuthRequest (by rfl) (by rfl),
   key.2.1 mockVoicesRequest (by decide) (by rfl) (by rfl),
   key.2.2 "This is just a test." "v1" 128 0 MP3 mockSpeechRequest (by decide) (by rfl)
     (by rfl)⟩

/-- C5. `GetSpeech`, success path: when the client holds a non-empty token and the
transport answers with status 200 and a body that decodes to a speech response,
`GetSpeech` returns a nil error and exactly the `URLs` map of that response,
whatever its other fields are. -/
theorem speech_success_returns_urls (env : Env) (c : Client) (h : Nat) (req : Request)
    (resp : Response) (body text speakerID : String) (bitRate sampleRate : Int)
    (ext : SpeechExtension) (uuid quality : String) (duration : Nat)
    (speaker txt : String) (bit sample : Int) (extension : String)
    (extensions : List String) (url : String) (urls : Option GoMap)
    (_htoken : c.AccessToken ≠ "")
    (hsent : (c.GetSpeech env text speakerID bitRate sampleRate ext).sent = [req])
    (hclient : c.HTTPClient = some h) (hdo : env.Do h req = .ok resp)
    (hstatus : resp.StatusCode = 200) (hbody : resp.Body = .ok body)
    (hdecode : env.unmarshalSpeechResponse body
      = .ok { UUID := uuid, Quality := quality, Duration := duration, SpeakerID := speaker,
              Text := txt, BitRate := bit, SampleRate := sample, Extension := extension,
              Extensions := extensions, URL := url, URLs := urls }) :
    (c.GetSpeech env text speakerID bitRate sampleRate ext).result = .ret (urls, none) := by
  rw [Client.GetSpeech_answered hsent hclient hdo]
  simp [Client.speechSwitch, hstatus, hbody, hdecode]

/-- Witness of C5: the mock server answers 200 with a speech response whose `urls`
is `{"mp3":"https://cdn/s1.mp3"}`. -/
theorem speech_success_returns_urls_witness :
    (tokenClient.GetSpeech (mockEnv 200 speechBody)
        "This is just a test." "v1" 128 0 MP3).sent = [mockSpeechRequest] ∧
    (tokenClient.GetSpeech (mockEnv 200 speechBody)
        "This is just a test." "v1" 128 0 MP3).result
      = .ret (some [("mp3", "https://cdn/s1.mp3")], none) :=
  ⟨by rfl,
   speech_success_returns_urls (mockEnv 200 speechBody) tokenClient 0 mockSpeechRequest
     ⟨200, .ok speechBody⟩ speechBody "This is just a test." "v1" 128 0 MP3
     "s1" "" 1069547520 "" "" 0 0 "" [] "" (some [("mp3", "https://cdn/s1.mp3")])
     (by decide) (by rfl) rfl (by rfl) rfl rfl (by rfl)⟩

/-- C6. `GetSpeech`, bad request: when the client holds a non-empty token and the
transport answers with status 400 and a body that decodes to error code `code`
(any integer) and message `m`, `GetSpeech` returns a nil map and the error
`Itoa code ++ " : " ++ m`. -/
theorem speech_bad_request_message (env : Env) (c : Client) (h : Nat) (req : Request)
    (resp : Response) (body text speakerID : String) (bitRate sampleRate : Int)
    (ext : SpeechExtension) (code : Int) (m : String)
    (_htoken : c.AccessToken ≠ "")
    (hsent : (c.GetSpeech env text speakerID bitRate sampleRate ext).sent = [req])
    (hclient : c.HTTPClient = some h) (hdo : env.Do h req = .ok resp)
    (hstatus : resp.StatusCode = 400) (hbody : resp.Body = .ok body)
    (hdecode : env.unmarshalBadRequestResponse body = .ok { ErrorCode := code, Error := m }) :
    (c.GetSpeech env text speakerID bitRate sampleRate ext).result
      = .ret (none, some (Itoa code ++ " : " ++ m)) := by
  rw [Client.GetSpeech_answered hsent hclient hdo]
  simp [Client.speechSwitch, hstatus, hbody, hdecode]

/-- Witness of C6: the mock server answers 400 with
`{"error_code":42,"error":"bad text"}`; the error is `42 : bad text`. -/
theorem speech_bad_request_message_witness :
    (tokenClient.GetSpeech (mockEnv 400 badRequestBody)
        "This is just a test." "v1" 128 0 MP3).sent = [mockSpeechRequest] ∧
    (tokenClient.GetSpeech (mockEnv 400 badRequestBody)
        "This is just a test." "v1" 128 0 MP3).result
      = .ret (none, some "42 : bad text") :=
  ⟨by rfl,
   speech_bad_request_message (mockEnv 400 badRequestBody) tokenClient 0 mockSpeechRequest
     ⟨400, .ok badRequestBody⟩ badRequestBody "This is just a test." "v1" 128 0 MP3
     42 "bad text" (by decide) (by rfl) rfl (by rfl) rfl rfl (by rfl)⟩

/-- C8. Unknown status: whatever the body is, `Auth` answered with a status other
than 200 and 401, `GetVoices` (non-empty token) answered with a status other than
200 and 401, and `GetSpeech` (non-empty token) answered with a status other than
200, 400 and 401 each return the error `unknown response`, no map, and leave the
client, its access token included, unchanged. -/
theorem unknown_status_is_unknown_response (env : Env) (c : Client) (h : Nat)
    (hclient : c.HTTPClient = some h) :
    (∀ req resp, resp.StatusCode ≠ 200 → resp.StatusCode ≠ 401 →
      (c.Auth env).sent = [req] → env.Do h req = .ok resp →
      (c.Auth env).result = .ret (some "unknown response") ∧ (c.Auth env).client = c) ∧
    (∀ req resp, c.AccessToken ≠ "" → resp.StatusCode ≠ 200 → resp.StatusCode ≠ 401 →
      (c.GetVoices env).sent = [req] → env.Do h req = .ok resp →
      (c.GetVoices env).result = .ret (none, some "unknown response") ∧
      (c.GetVoices env).client = c) ∧
    (∀ text speakerID bitRate sampleRate ext req resp, c.AccessToken ≠ "" →
      resp.StatusCode ≠ 200 → resp.StatusCode ≠ 400 → resp.StatusCode ≠ 401 →
      (c.GetSpeech env text speakerID bitRate sampleRate ext).sent = [req] →
      env.Do h req = .ok resp →
      (c.GetSpeech env text speakerID bitRate sampleRate ext).result
        = .ret (none, some "unknown response") ∧
      (c.GetSpeech env text speakerID bitRate sampleRate ext).client = c) := by
  refine ⟨?_, ?_, ?_⟩
  · intro req resp h200 h401 hsent hdo
    rw [Client.Auth_answered hsent hclient hdo]
    simp [Client.authSwitch, h200, h401]
  · intro req resp _ h200 h401 hsent hdo
    rw [Client.GetVoices_answered hsent hclient hdo]
    simp [Client.voicesSwitch, h200, h401]
  · intro text speakerID bitRate sampleRate ext req resp _ h200 h400 h401 hsent hdo
    rw [Client.GetSpeech_answered hsent hclient hdo]
    simp [Client.speechSwitch, h200, h400, h401]

/-- Witness of C8: the mock server answers `Auth` with 500, `GetVoices` with 400 and
`GetSpeech` with 404. -/
theorem unknown_status_is_unknown_response_witness :
    ((tokenClient.Auth (mockEnv 500 "")).result = .ret (some "unknown response") ∧
      (tokenClient.Auth (mockEnv 500 "")).client = tokenClient) ∧
    ((tokenClient.GetVoices (mockEnv 400 badRequestBody)).result
        = .ret (none, some "unknown response") ∧
      (tokenClient.GetVoices (mockEnv 400 badRequestBody)).client = tokenClient) ∧
    ((tokenClient.GetSpeech (mockEnv 404 "") "This is just a test." "v1" 128 0 MP3).result
        = .ret (none, some "unknown response") ∧
      (tokenClient.GetSpeech (mockEnv 404 "") "This is just a test." "v1" 128 0 MP3).client
        = tokenClient) :=
  ⟨(unknown_status_is_unknown_response (mockEnv 500 "") tokenClient 0 rfl).1
      mockAuthRequest ⟨500, .ok ""⟩ (by decide) (by decide) (by rfl) (by rfl),
   (unknown_status_is_unknown_response (mockEnv 400 badRequestBody) tokenClient 0 rfl).2.1
      mockVoicesRequest ⟨400, .ok badRequestBody⟩ (by decide) (by decide) (by decide)
      (by rfl) (by rfl),
   (unknown_status_is_unknown_response (mockEnv 404 "") tokenClient 0 rfl).2.2
      "This is just a test." "v1" 128 0 MP3 mockSpeechRequest ⟨404, .ok ""⟩
      (by decide) (by decide) (by decide) (by decide) (by rfl) (by rfl)⟩

/-! ## Claims about the voice listing -/

/-- C9. Voice-list fold: when the client holds a non-empty token and the transport
answers with status 200 and a body that decodes to the records `r_0 .. r_{N-1}`,
`GetVoices` returns a nil error and the mapping `insertVoices rs`, built by
inserting `uuid(r_i) -> name(r_i)` for `i = 0 .. N-2` in order. The loop does not
panic (no index leaves the slice). A key of the result is the uuid of one of the
first `N-1` records, so the uuid of the final record is a key only if an earlier
record has the same uuid; each key is mapped to the name of the latest such
record; and for `N = 0` and `N = 1` the result is the empty mapping. -/
theorem voices_fold_drops_last (env : Env) (c : Client) (h : Nat) (req : Request)
    (resp : Response) (body : String) (rs : List VoiceResponse)
    (_htoken : c.AccessToken ≠ "")
    (hsent : (c.GetVoices env).sent = [req]) (hclient : c.HTTPClient = some h)
    (hdo : env.Do h req = .ok resp) (hstatus : resp.StatusCode = 200)
    (hbody : resp.Body = .ok body) (hdecode : env.unmarshalVoiceResponses body = .ok rs) :
    (c.GetVoices env).result = .ret (some (insertVoices rs), none) ∧
    (∀ msg, voicesLoop rs 0 [] ≠ .panic msg) ∧
    (∀ k, k ∈ GoMap.keys (insertVoices rs)
      ↔ ∃ r ∈ rs.take (rs.length - 1), r.UUID = k) ∧
    (∀ last, rs.getLast? = some last → last.UUID ∈ GoMap.keys (insertVoices rs) →
      ∃ r ∈ rs.take (rs.length - 1), r.UUID = last.UUID) ∧
    (∀ k, GoMap.get? (insertVoices rs) k
      = ((rs.take (rs.length - 1)).reverse.find? (fun r => r.UUID = k)).map
          (fun r => r.Name)) ∧
    (rs.length ≤ 1 → insertVoices rs = []) := by
  have hkeys : ∀ k, k ∈ GoMap.keys (insertVoices rs)
      ↔ ∃ r ∈ rs.take (rs.length - 1), r.UUID = k := by
    intro k
    rw [insertVoices, GoMap.mem_keys_foldl]
    simp [GoMap.keys]
  refine ⟨?_, ?_, hkeys, ?_, ?_, ?_⟩
  · rw [Client.GetVoices_answered hsent hclient hdo]
    simp [Client.voicesSwitch, hstatus, hbody, hdecode, voicesLoop_zero]
  · intro msg
    rw [voicesLoop_zero]
    simp
  · intro last _ hmem
    exact (hkeys last.UUID).mp hmem
  · intro k
    rw [insertVoices, GoMap.get?_foldl]
    cases (rs.take (rs.length - 1)).reverse.find? (fun r => decide (r.UUID = k)) with
    | some r => simp
    | none => simp [GoMap.get?]
  · intro hlen
    have hzero : rs.length - 1 = 0 := by omega
    simp [insertVoices, hzero]

/-- Witness of C9: the mock server lists three voices; the third is dropped. -/
theorem voices_fold_drops_last_witness :
    (tokenClient.GetVoices (mockEnv 200 voicesBody)).sent = [mockVoicesRequest] ∧
    (tokenClient.GetVoices (mockEnv 200 voicesBody)).result
      = .ret (some (insertVoices [⟨"u1", "Ann"⟩, ⟨"u2", "Bob"⟩, ⟨"u3", "Cy"⟩]), none) ∧
    insertVoices [⟨"u1", "Ann"⟩, ⟨"u2", "Bob"⟩, ⟨"u3", "Cy"⟩] = [("u1", "Ann"), ("u2", "Bob")] :=
  ⟨by rfl,
   (voices_fold_drops_last (mockEnv 200 voicesBody) tokenClient 0 mockVoicesRequest
      ⟨200, .ok voicesBody⟩ voicesBody [⟨"u1", "Ann"⟩, ⟨"u2", "Bob"⟩, ⟨"u3", "Cy"⟩]
      (by decide) (by rfl) rfl (by rfl) rfl rfl (by rfl)).1,
   by decide⟩

/-- C7, as the code has it. Voice-listing size: when the client holds a non-empty
token and the transport answers with status 200 and a body that decodes to `N`
records, `GetVoices` returns a mapping with exactly as many entries as there are
distinct uuids among the first `N-1` records. That is never more than `N-1`; it is
`N-1` when `N ≥ 1` and those uuids are pairwise distinct, and `0` when `N = 0`. -/
theorem voices_size_distinct_uuids (env : Env) (c : Client) (h : Nat) (req : Request)
    (resp : Response) (body : String) (rs : List VoiceResponse)
    (_htoken : c.AccessToken ≠ "")
    (hsent : (c.GetVoices env).sent = [req]) (hclient : c.HTTPClient = some h)
    (hdo : env.Do h req = .ok resp) (hstatus : resp.StatusCode = 200)
    (hbody : resp.Body = .ok body) (hdecode : env.unmarshalVoiceResponses body = .ok rs) :
    ∃ m, (c.GetVoices env).result = .ret (some m, none) ∧
      GoMap.size m = ((rs.take (rs.length - 1)).map (fun r => r.UUID)).dedup.length ∧
      GoMap.size m ≤ rs.length - 1 ∧
      (rs ≠ [] → ((rs.take (rs.length - 1)).map (fun r => r.UUID)).Nodup →
        (GoMap.size m : Int) = (rs.length : Int) - 1) ∧
      (rs = [] → GoMap.size m = 0) := by
  refine ⟨insertVoices rs, ?_, ?_, ?_, ?_, ?_⟩
  · rw [Client.GetVoices_answered hsent hclient hdo]
    simp [Client.voicesSwitch, hstatus, hbody, hdecode, voicesLoop_zero]
  · rw [insertVoices, GoMap.size_foldl]
  · rw [insertVoices, GoMap.size_foldl]
    calc ((rs.take (rs.length - 1)).map (fun r => r.UUID)).dedup.length
        ≤ ((rs.take (rs.length - 1)).map (fun r => r.UUID)).length :=
          (List.dedup_sublist _).length_le
      _ ≤ rs.length - 1 := by simp
  · intro hne hnodup
    have hpos : 0 < rs.length := List.length_pos.mpr hne
    rw [insertVoices, GoMap.size_foldl, hnodup.dedup]
    simp only [List.length_map, List.length_take]
    omega
  · intro hnil
    subst hnil
    rfl

/-- Witness of the amended C7: three voices with distinct uuids give two entries. -/
theorem voices_size_distinct_uuids_witness :
    ∃ m, (tokenClient.GetVoices (mockEnv 200 voicesBody)).result = .ret (some m, none) ∧
      GoMap.size m = 2 := by
  obtain ⟨m, hm, hsize, -, -, -⟩ :=
    voices_size_distinct_uuids (mockEnv 200 voicesBody) tokenClient 0 mockVoicesRequest
      ⟨200, .ok voicesBody⟩ voicesBody [⟨"u1", "Ann"⟩, ⟨"u2", "Bob"⟩, ⟨"u3", "Cy"⟩]
      (by decide) (by rfl) rfl (by rfl) rfl rfl (by rfl)
  exact ⟨m, hm, by rw [hsize]; decide⟩

/-- Counterexample to C7 as stated: the mock server answers 200 with three records,
the first two sharing the uuid `u1`; the returned mapping has one entry, not
`3 - 1`. -/
theorem voices_size_counterexample :
    (mockEnv 200 repeatedVoicesBody).unmarshalVoiceResponses repeatedVoicesBody
      = .ok [⟨"u1", "Ann"⟩, ⟨"u1", "Bob"⟩, ⟨"u3", "Cy"⟩] ∧
    (tokenClient.GetVoices (mockEnv 200 repeatedVoicesBody)).result
      = .ret (some [("u1", "Bob")], none) ∧
    ¬ ((GoMap.size [("u1", "Bob")] : Int) = 3 - 1) := by
  refine ⟨by rfl, ?_, by decide⟩
  have hrun : (tokenClient.GetVoices (mockEnv 200 repeatedVoicesBody)).result
      = (match voicesLoop [⟨"u1", "Ann"⟩, ⟨"u1", "Bob"⟩, ⟨"u3", "Cy"⟩] 0 [] with
        | .panic msg => .panic msg
        | .ret voiceMap => .ret (some voiceMap, none)) := by
    rfl
  rw [hrun, voicesLoop_zero]
  decide

/-! ## Claims about the requests -/

theorem Client.authData_Encode_ne (c : Client) : Values.Encode c.authData ≠ "" := by
  intro h
  have hlen := congrArg String.length h
  rw [Client.authData_Encode] at hlen
  simp only [String.length_append] at hlen
  have h1 : ("client_id=" : String).length = 10 := by decide
  have h0 : ("" : String).length = 0 := by decide
  omega

theorem speechData_Encode_ne (text speakerID : String) (bitRate sampleRate : Int)
    (ext : SpeechExtension) :
    Values.Encode (speechData text speakerID bitRate sampleRate ext) ≠ "" := by
  intro h
  have hlen := congrArg String.length h
  rw [speechData_Encode] at hlen
  simp only [String.length_append] at hlen
  have h1 : ("extension=" : String).length = 10 := by decide
  have h0 : ("" : String).length = 0 := by decide
  omega

/-- The serialisation of a URL with a non-empty raw query: the scheme, then the
opaque part or else the hierarchical part, then `?` and the query, then the
fragment if there is one. -/
theorem URL.string_of_query (env : Env) (u : URL) (hq : u.RawQuery ≠ "") :
    u.string env
      = (if u.Scheme ≠ "" then u.Scheme ++ ":" else "")
        ++ (if u.Opaque ≠ "" then u.Opaque else env.hierPart u)
        ++ "?" ++ u.RawQuery
        ++ (if u.Fragment ≠ "" then "#" ++ env.EscapedFragment u else "") := by
  unfold URL.string
  by_cases ho : u.Opaque = "" <;> by_cases hf : u.Fragment = "" <;>
    simp [ho, hf, hq, String.append_assoc]

/-- C3, the defect. `GetVoices` and `GetSpeech` discard the error of
`url.ParseRequestURI`: when the endpoint does not parse, `u` is nil and the
assignment to `u.Path` panics, whatever the access token is. A client with an
empty token then gets a panic, not the missing-authorization error. No request
is sent. -/
theorem unparsed_endpoint_panics (env : Env) (c : Client) (err : Error)
    (hparse : env.ParseRequestURI c.ServiceEndpoint = .error err)
    (text speakerID : String) (bitRate sampleRate : Int) (ext : SpeechExtension) :
    c.GetVoices env = ⟨[], c, .panic nilDereference⟩ ∧
    c.GetSpeech env text speakerID bitRate sampleRate ext
      = ⟨[], c, .panic nilDereference⟩ := by
  constructor
  · simp [Client.GetVoices, hparse]
  · simp [Client.GetSpeech, hparse]

/-- C3 at a failing input: the zero value `Client{}` has an empty token and an
empty `ServiceEndpoint`, which `url.ParseRequestURI` rejects; `GetVoices` and
`GetSpeech` panic on the nil URL instead of returning the missing-authorization
error. -/
theorem missing_token_zero_client_panics :
    zeroClient.AccessToken = "" ∧
    (mockEnv 200 voicesBody).ParseRequestURI zeroClient.ServiceEndpoint
      = .error "parse \"\": empty url" ∧
    zeroClient.GetVoices (mockEnv 200 voicesBody)
      = ⟨[], zeroClient, .panic nilDereference⟩ ∧
    zeroClient.GetSpeech (mockEnv 200 voicesBody) "This is just a test." "v1" 128 0 MP3
      = ⟨[], zeroClient, .panic nilDereference⟩ :=
  ⟨rfl, rfl,
   unparsed_endpoint_panics (mockEnv 200 voicesBody) zeroClient "parse \"\": empty url" rfl
     "This is just a test." "v1" 128 0 MP3⟩

/-- With an empty token, `GetVoices` and `GetSpeech` return the
missing-authorization error, a nil map, and send nothing, provided the request
could be built: the endpoint parses and `http.NewRequest` accepts the URL. -/
theorem missing_token_when_request_builds (env : Env) (c : Client) (u r : URL)
    (text speakerID : String) (bitRate sampleRate : Int) (ext : SpeechExtension)
    (htoken : c.AccessToken = "")
    (hparse : env.ParseRequestURI c.ServiceEndpoint = .ok u) :
    (env.Parse (URL.string env { u with Path := "/voice/" }) = .ok r →
      c.GetVoices env = ⟨[], c, .ret (none,
        some "authorization token is missing, make sure you get permission first")⟩) ∧
    (env.Parse (URL.string env { u with
        Path := "/speech/",
        RawQuery := Values.Encode (speechData text speakerID bitRate sampleRate ext) })
        = .ok r →
      c.GetSpeech env text speakerID bitRate sampleRate ext = ⟨[], c, .ret (none,
        some "authorization token is missing, make sure you get permission first")⟩) := by
  constructor
  · intro hr
    simp [Client.GetVoices, hparse, NewRequest, hr, htoken]
  · intro hr
    simp [Client.GetSpeech, hparse, NewRequest, hr, htoken]

/-- The mock server receives no request from a client without a token: both calls
return the missing-authorization error and a nil map. -/
theorem missing_token_mock_server :
    mockClient.GetVoices (mockEnv 200 voicesBody) = ⟨[], mockClient, .ret (none,
      some "authorization token is missing, make sure you get permission first")⟩ ∧
    mockClient.GetSpeech (mockEnv 200 speechBody) "This is just a test." "v1" 128 0 MP3
      = ⟨[], mockClient, .ret (none,
          some "authorization token is missing, make sure you get permission first")⟩ :=
  ⟨(missing_token_when_request_builds (mockEnv 200 voicesBody) mockClient
      { Scheme := "http", Host := "127.0.0.1:8080" }
      { Scheme := "http", Host := "127.0.0.1:8080", Path := "/voice/" }
      "" "" 0 0 "" rfl rfl).1 (by rfl),
   (missing_token_when_request_builds (mockEnv 200 speechBody) mockClient
      { Scheme := "http", Host := "127.0.0.1:8080" }
      { Scheme := "http", Host := "127.0.0.1:8080", Path := "/speech/",
        RawQuery := "bit_rate=128&extension=mp3&speaker_id=v1&txt=This+is+just+a+test." }
      "This is just a test." "v1" 128 0 MP3 rfl rfl).2 (by rfl)⟩

/-! ## Shared lemmas: bytes and characters -/

theorem goBytes_eq (s : String) :
    goBytes s = s.toList.flatMap fun c => (String.utf8EncodeChar c).map UInt8.toNat := by
  show (s.data.flatMap String.utf8EncodeChar).map UInt8.toNat = _
  rw [List.map_flatMap]
  rfl

theorem goBytes_append (a b : String) : goBytes (a ++ b) = goBytes a ++ goBytes b := by
  simp only [goBytes_eq, String.toList, String.data_append, List.flatMap_append]

theorem utf8EncodeChar_ascii (c : Char) (h : c.toNat < 128) :
    (String.utf8EncodeChar c).map UInt8.toNat = [c.toNat] := by
  have h1 : c.val ≤ 0x7f := by
    show c.val.toNat ≤ 127
    have : c.toNat = c.val.toNat := rfl
    omega
  simp only [String.utf8EncodeChar, h1, if_true, List.map_cons, List.map_nil]
  congr 1
  show (c.val.toNat.toUInt8).toNat = c.toNat
  simp [Nat.toUInt8, UInt8.ofNat, UInt8.toNat]
  have : c.toNat = c.val.toNat := rfl
  omega

theorem goBytes_mk_ascii (l : List Char) (h : ∀ c ∈ l, c.toNat < 128) :
    goBytes (String.mk l) = l.map Char.toNat := by
  rw [goBytes_eq]
  show l.flatMap _ = _
  induction l with
  | nil => rfl
  | cons c l ih =>
    rw [List.flatMap_cons, utf8EncodeChar_ascii c (h c (List.mem_cons_self _ _)),
      ih fun d hd => h d (List.mem_cons_of_mem _ hd)]
    rfl

theorem goBytes_lt (s : String) : ∀ b ∈ goBytes s, b < 256 := by
  intro b hb
  unfold goBytes at hb
  rw [List.mem_map] at hb
  obtain ⟨x, -, rfl⟩ := hb
  exact x.toNat_lt

theorem mem_goBytes_of_ascii (s : String) (ch : Char) (hmem : ch ∈ s.toList)
    (h : ch.toNat < 128) : ch.toNat ∈ goBytes s := by
  rw [goBytes_eq, List.mem_flatMap]
  exact ⟨ch, hmem, by rw [utf8EncodeChar_ascii ch h]; exact List.mem_singleton_self _⟩

/-! ## Shared lemmas: escaping and unescaping -/

theorem unescapeBad_pct (h1 h2 : Nat) (rest : List Nat) (m : encoding) :
    unescapeBad ('%'.toNat :: h1 :: h2 :: rest) m
      = if ishex h1 = false ∨ ishex h2 = false then some (true, ['%'.toNat, h1, h2])
        else if m = .encodeHost ∧ unhex h1 < 8 ∧ ['%'.toNat, h1, h2] ≠ codes "%25" then
          some (true, ['%'.toNat, h1, h2])
        else if m = .encodeZone ∧ ['%'.toNat, h1, h2] ≠ codes "%25"
            ∧ unhex h1 * 16 + unhex h2 ≠ ' '.toNat
            ∧ shouldEscape (unhex h1 * 16 + unhex h2) .encodeHost then
          some (true, ['%'.toNat, h1, h2])
        else unescapeBad rest m := by
  rfl

theorem unescapeBad_cons (c : Nat) (rest : List Nat) (m : encoding) (hc : c ≠ '%'.toNat) :
    unescapeBad (c :: rest) m
      = if (m = .encodeHost ∨ m = .encodeZone) ∧ c < 0x80 ∧ shouldEscape c .encodeHost then
          some (false, [c])
        else unescapeBad rest m := by
  conv_lhs => unfold unescapeBad
  simp only [if_neg hc]

theorem unescapeBad_pct_one (h1 : Nat) (m : encoding) :
    unescapeBad ['%'.toNat, h1] m = some (true, ['%'.toNat, h1]) := by
  rfl

theorem unescapeBad_pct_nil (m : encoding) :
    unescapeBad ['%'.toNat] m = some (true, ['%'.toNat]) := by
  rfl

theorem unescapeBytes_pct (h1 h2 : Nat) (rest : List Nat) (m : encoding) :
    unescapeBytes ('%'.toNat :: h1 :: h2 :: rest) m
      = (unhex h1 * 16 + unhex h2) :: unescapeBytes rest m := by
  rfl

theorem unescapeBytes_cons (c : Nat) (rest : List Nat) (m : encoding) (hc : c ≠ '%'.toNat) :
    unescapeBytes (c :: rest) m
      = if c = '+'.toNat ∧ m = .encodeQueryComponent then ' '.toNat :: unescapeBytes rest m
        else c :: unescapeBytes rest m := by
  conv_lhs => unfold unescapeBytes
  simp only [if_neg hc]

theorem unescape_append_aux (n : Nat) (m : encoding) :
    ∀ a : List Nat, a.length ≤ n → unescapeBad a m = none → ∀ b,
      unescapeBad (a ++ b) m = unescapeBad b m ∧
      unescapeBytes (a ++ b) m = unescapeBytes a m ++ unescapeBytes b m := by
  induction n with
  | zero =>
    intro a hn _ b
    have : a = [] := List.length_eq_zero.mp (Nat.le_zero.mp hn)
    subst this
    exact ⟨rfl, rfl⟩
  | succ n ih =>
    intro a hn h b
    match a, hn with
    | [], _ => exact ⟨rfl, rfl⟩
    | c :: rest, hn =>
      by_cases hc : c = '%'.toNat
      · subst hc
        match rest, hn with
        | [], _ => rw [unescapeBad_pct_nil] at h; cases h
        | [h1], _ => rw [unescapeBad_pct_one] at h; cases h
        | h1 :: h2 :: rest', hn =>
          rw [unescapeBad_pct] at h
          simp only [List.cons_append, unescapeBad_pct, unescapeBytes_pct]
          split_ifs at h ⊢
          have hl : rest'.length ≤ n := by simp at hn; omega
          obtain ⟨e1, e2⟩ := ih rest' hl h b
          exact ⟨e1, by rw [e2]⟩
      · rw [unescapeBad_cons _ _ _ hc] at h
        simp only [List.cons_append, unescapeBad_cons _ _ _ hc, unescapeBytes_cons _ _ _ hc]
        split_ifs at h with h1
        have hl : rest.length ≤ n := by simp at hn; omega
        obtain ⟨e1, e2⟩ := ih rest hl h b
        rw [if_neg h1]
        refine ⟨e1, ?_⟩
        split_ifs <;> rw [e2] <;> rfl

theorem unescapeBad_append (a b : List Nat) (m : encoding) (h : unescapeBad a m = none) :
    unescapeBad (a ++ b) m = unescapeBad b m :=
  (unescape_append_aux a.length m a (Nat.le_refl _) h b).1

theorem unescapeBytes_append (a b : List Nat) (m : encoding) (h : unescapeBad a m = none) :
    unescapeBytes (a ++ b) m = unescapeBytes a m ++ unescapeBytes b m :=
  (unescape_append_aux a.length m a (Nat.le_refl _) h b).2

set_option maxRecDepth 1000000 in
theorem escapeByte_query_bad : ∀ c, c < 256 →
    unescapeBad ((escapeByte c .encodeQueryComponent).map Char.toNat) .encodeQueryComponent
      = none := by
  decide

set_option maxRecDepth 1000000 in
theorem escapeByte_query_fragment : ∀ c, c < 256 →
    unescapeBad ((escapeByte c .encodeQueryComponent).map Char.toNat) .encodeFragment
      = none := by
  decide

set_option maxRecDepth 1000000 in
theorem escapeByte_query_bytes : ∀ c, c < 256 →
    unescapeBytes ((escapeByte c .encodeQueryComponent).map Char.toNat) .encodeQueryComponent
      = [c] := by
  decide

set_option maxRecDepth 1000000 in
theorem escapeByte_query_chars : ∀ c, c < 256 → ∀ ch ∈ escapeByte c .encodeQueryComponent,
    0x20 < ch.toNat ∧ ch.toNat < 0x7f ∧ ch ≠ '#' ∧ ch ≠ '?' ∧ ch ≠ '/' := by
  decide

set_option maxRecDepth 1000000 in
theorem escapeByte_query_seps : ∀ c, c < 256 → ∀ ch ∈ escapeByte c .encodeQueryComponent,
    ch ≠ '&' ∧ ch ≠ '=' ∧ ch ≠ ';' := by
  decide

set_option maxRecDepth 1000000 in
theorem escapeByte_host_chars : ∀ c, c < 256 → ∀ ch ∈ escapeByte c .encodeHost,
    0x20 < ch.toNat ∧ ch.toNat < 0x7f ∧ ch ≠ '#' ∧ ch ≠ '?' ∧ ch ≠ '/' := by
  decide

set_option maxRecDepth 1000000 in
theorem escapeByte_user_chars : ∀ c, c < 256 → ∀ ch ∈ escapeByte c .encodeUserPassword,
    0x20 < ch.toNat ∧ ch.toNat < 0x7f ∧ ch ≠ '#' ∧ ch ≠ '?' ∧ ch ≠ '/' := by
  decide

/-- The characters of an escaped text. -/
theorem escape_toList (s : String) (m : encoding) :
    (escape s m).toList = (goBytes s).flatMap fun c => escapeByte c m := rfl

theorem escapeBytes_chars (bs : List Nat) (m : encoding) (P : Char → Prop)
    (hb : ∀ b ∈ bs, b < 256) (h : ∀ c, c < 256 → ∀ ch ∈ escapeByte c m, P ch) :
    ∀ ch ∈ (escapeBytes bs m).toList, P ch := by
  intro ch hch
  have hch' : ch ∈ bs.flatMap fun c => escapeByte c m := hch
  rw [List.mem_flatMap] at hch'
  obtain ⟨c, hc, hmem⟩ := hch'
  exact h c (hb c hc) ch hmem

theorem escape_chars (s : String) (m : encoding) (P : Char → Prop)
    (h : ∀ c, c < 256 → ∀ ch ∈ escapeByte c m, P ch) :
    ∀ ch ∈ (escape s m).toList, P ch :=
  escapeBytes_chars (goBytes s) m P (goBytes_lt s) h

theorem QueryEscape_chars (s : String) : ∀ ch ∈ (QueryEscape s).toList,
    0x20 < ch.toNat ∧ ch.toNat < 0x7f ∧ ch ≠ '#' ∧ ch ≠ '?' ∧ ch ≠ '/' :=
  escape_chars s _ _ escapeByte_query_chars

theorem QueryEscape_seps (s : String) : ∀ ch ∈ (QueryEscape s).toList,
    ch ≠ '&' ∧ ch ≠ '=' ∧ ch ≠ ';' :=
  escape_chars s _ _ escapeByte_query_seps

/-- The bytes of an escaped query component. -/
theorem goBytes_QueryEscape (s : String) :
    goBytes (QueryEscape s)
      = (goBytes s).flatMap fun c => (escapeByte c .encodeQueryComponent).map Char.toNat := by
  have h : goBytes (QueryEscape s) = (QueryEscape s).toList.map Char.toNat :=
    goBytes_mk_ascii _ fun ch hch => by
      have := (QueryEscape_chars s ch hch).2.1
      omega
  rw [h]
  show List.map Char.toNat ((goBytes s).flatMap fun c => escapeByte c .encodeQueryComponent) = _
  rw [List.map_flatMap]

theorem unescape_flatMap (bs : List Nat) (hb : ∀ b ∈ bs, b < 256) :
    unescapeBad (bs.flatMap fun c => (escapeByte c .encodeQueryComponent).map Char.toNat)
      .encodeQueryComponent = none ∧
    unescapeBad (bs.flatMap fun c => (escapeByte c .encodeQueryComponent).map Char.toNat)
      .encodeFragment = none ∧
    unescapeBytes (bs.flatMap fun c => (escapeByte c .encodeQueryComponent).map Char.toNat)
      .encodeQueryComponent = bs := by
  induction bs with
  | nil => exact ⟨rfl, rfl, rfl⟩
  | cons c bs ih =>
    have hc : c < 256 := hb c (List.mem_cons_self _ _)
    obtain ⟨i1, i2, i3⟩ := ih fun b hb' => hb b (List.mem_cons_of_mem _ hb')
    rw [List.flatMap_cons, unescapeBad_append _ _ _ (escapeByte_query_bad c hc),
      unescapeBad_append _ _ _ (escapeByte_query_fragment c hc),
      unescapeBytes_append _ _ _ (escapeByte_query_bad c hc), escapeByte_query_bytes c hc, i3]
    exact ⟨i1, i2, rfl⟩

/-- Unescaping undoes `QueryEscape`: the escaped text is well formed and
`QueryUnescape` gives back the bytes of the original. -/
theorem QueryUnescape_QueryEscape (N : NetURL) (s : String) :
    unescapeList N (goBytes (QueryEscape s)) .encodeQueryComponent = .ok (goBytes s) := by
  obtain ⟨h1, -, h3⟩ := unescape_flatMap (goBytes s) (goBytes_lt s)
  rw [goBytes_QueryEscape]
  unfold unescapeList
  rw [h1, h3]

theorem QueryEscape_fragment (s : String) :
    unescapeBad (goBytes (QueryEscape s)) .encodeFragment = none := by
  rw [goBytes_QueryEscape]
  exact (unescape_flatMap (goBytes s) (goBytes_lt s)).2.1

/-! ## Shared lemmas: lists cut at a separator -/

theorem takeWhile_append_cons {α : Type} (p : α → Bool) (l : List α) (x : α) (r : List α)
    (hl : ∀ a ∈ l, p a = true) (hx : p x = false) : (l ++ x :: r).takeWhile p = l := by
  induction l with
  | nil => simp [List.takeWhile, hx]
  | cons a l ih =>
    rw [List.cons_append, List.takeWhile_cons, hl a (List.mem_cons_self _ _)]
    simp only [if_true]
    rw [ih fun b hb => hl b (List.mem_cons_of_mem _ hb)]

theorem dropWhile_append_cons {α : Type} (p : α → Bool) (l : List α) (x : α) (r : List α)
    (hl : ∀ a ∈ l, p a = true) (hx : p x = false) : (l ++ x :: r).dropWhile p = x :: r := by
  induction l with
  | nil => simp [List.dropWhile, hx]
  | cons a l ih =>
    rw [List.cons_append, List.dropWhile_cons, hl a (List.mem_cons_self _ _)]
    simp only [if_true]
    exact ih fun b hb => hl b (List.mem_cons_of_mem _ hb)

theorem takeWhile_all {α : Type} (p : α → Bool) (l : List α) (hl : ∀ a ∈ l, p a = true) :
    l.takeWhile p = l := by
  induction l with
  | nil => rfl
  | cons a l ih =>
    rw [List.takeWhile_cons, hl a (List.mem_cons_self _ _)]
    simp only [if_true]
    rw [ih fun b hb => hl b (List.mem_cons_of_mem _ hb)]

theorem dropWhile_all {α : Type} (p : α → Bool) (l : List α) (hl : ∀ a ∈ l, p a = true) :
    l.dropWhile p = [] := by
  induction l with
  | nil => rfl
  | cons a l ih =>
    rw [List.dropWhile_cons, hl a (List.mem_cons_self _ _)]
    simp only [if_true]
    exact ih fun b hb => hl b (List.mem_cons_of_mem _ hb)

/-! ## Shared lemmas: decoding a form encoding -/

set_option maxRecDepth 1000000 in
theorem escapeByte_query_sepBytes : ∀ c, c < 256 →
    ∀ b ∈ (escapeByte c .encodeQueryComponent).map Char.toNat,
      b ≠ '&'.toNat ∧ b ≠ '='.toNat ∧ b ≠ ';'.toNat := by
  decide

theorem goBytes_QueryEscape_seps (s : String) : ∀ b ∈ goBytes (QueryEscape s),
    b ≠ '&'.toNat ∧ b ≠ '='.toNat ∧ b ≠ ';'.toNat := by
  intro b hb
  rw [goBytes_QueryEscape, List.mem_flatMap] at hb
  obtain ⟨c, hc, hmem⟩ := hb
  exact escapeByte_query_sepBytes c (goBytes_lt s c hc) b hmem

/-- The bytes of one `key=value` piece of a form encoding. -/
theorem goBytes_pair (kv : String × String) :
    goBytes (QueryEscape kv.1 ++ "=" ++ QueryEscape kv.2)
      = goBytes (QueryEscape kv.1) ++ '='.toNat :: goBytes (QueryEscape kv.2) := by
  rw [goBytes_append, goBytes_append]
  have : goBytes "=" = ['='.toNat] := by decide
  rw [this, List.append_assoc]
  rfl

theorem goBytes_intercalate_go (acc : String) (l : List String) :
    goBytes (String.intercalate.go acc "&" l)
      = goBytes acc ++ l.flatMap fun s => '&'.toNat :: goBytes s := by
  induction l generalizing acc with
  | nil => simp [String.intercalate.go]
  | cons s l ih =>
    rw [String.intercalate.go, ih, goBytes_append, goBytes_append]
    have : goBytes "&" = ['&'.toNat] := by decide
    rw [this, List.flatMap_cons]
    simp

theorem intercalate_cons {α : Type} (sep : α) (x : List α) (xs : List (List α)) :
    [sep].intercalate (x :: xs) = x ++ xs.flatMap fun s => sep :: s := by
  induction xs generalizing x with
  | nil => simp [List.intercalate]
  | cons y ys ih =>
    have h := ih y
    simp only [List.intercalate, List.intersperse, List.flatten_cons, List.flatMap_cons] at h ⊢
    rw [h]
    simp

/-- The bytes of a form encoding, cut at each `&`, are the encoded pairs. -/
theorem splitOn_Encode (v : Values) (hv : Values.sortedPairs v ≠ []) :
    (goBytes (Values.Encode v)).splitOn '&'.toNat
      = (Values.sortedPairs v).map fun kv =>
          goBytes (QueryEscape kv.1) ++ '='.toNat :: goBytes (QueryEscape kv.2) := by
  rw [Values.Encode_eq_intercalate]
  generalize Values.sortedPairs v = ps at hv
  match ps, hv with
  | p :: ps, _ =>
    rw [List.map_cons, String.intercalate, goBytes_intercalate_go]
    have e : (goBytes (QueryEscape p.1 ++ "=" ++ QueryEscape p.2) ++
          (ps.map fun kv => QueryEscape kv.1 ++ "=" ++ QueryEscape kv.2).flatMap
            fun s => '&'.toNat :: goBytes s)
        = ['&'.toNat].intercalate ((p :: ps).map fun kv =>
            goBytes (QueryEscape kv.1) ++ '='.toNat :: goBytes (QueryEscape kv.2)) := by
      rw [List.map_cons, intercalate_cons, goBytes_pair, List.flatMap_map, List.flatMap_map]
      congr 1
      apply List.flatMap_congr
      intro kv _
      rw [goBytes_pair]
    rw [e]
    apply List.splitOn_intercalate
    · intro l hl
      rw [List.mem_map] at hl
      obtain ⟨kv, -, rfl⟩ := hl
      intro hmem
      rw [List.mem_append, List.mem_cons] at hmem
      rcases hmem with h | h | h
      · exact (goBytes_QueryEscape_seps _ _ h).1 rfl
      · exact absurd h (by decide)
      · exact (goBytes_QueryEscape_seps _ _ h).1 rfl
    · simp

/-- One round of `parseQuery` on an encoded pair stores the pair. -/
theorem parseQueryRound_pair (N : NetURL) (acc : ByteValues × Option Error)
    (kv : String × String) :
    parseQueryRound N acc
        (goBytes (QueryEscape kv.1) ++ '='.toNat :: goBytes (QueryEscape kv.2))
      = (ByteValues.Add acc.1 (goBytes kv.1) (goBytes kv.2), acc.2) := by
  have hsemi : ';'.toNat ∉
      goBytes (QueryEscape kv.1) ++ '='.toNat :: goBytes (QueryEscape kv.2) := by
    intro hmem
    rw [List.mem_append, List.mem_cons] at hmem
    rcases hmem with h | h | h
    · exact (goBytes_QueryEscape_seps _ _ h).2.2 rfl
    · exact absurd h (by decide)
    · exact (goBytes_QueryEscape_seps _ _ h).2.2 rfl
  have hne : goBytes (QueryEscape kv.1) ++ '='.toNat :: goBytes (QueryEscape kv.2) ≠ [] := by
    simp
  have hk : ∀ a ∈ goBytes (QueryEscape kv.1), (fun b => decide (b ≠ '='.toNat)) a = true := by
    intro a ha
    simpa using (goBytes_QueryEscape_seps _ _ ha).2.1
  have hx : (fun b => decide (b ≠ '='.toNat)) '='.toNat = false := by decide
  unfold parseQueryRound
  rw [if_neg hsemi, if_neg hne]
  simp only []
  rw [takeWhile_append_cons _ _ _ _ hk hx, dropWhile_append_cons _ _ _ _ hk hx,
    List.drop_one, List.tail_cons, QueryUnescape_QueryEscape, QueryUnescape_QueryEscape]

theorem parseQuery_foldl (N : NetURL) (ps : List (String × String))
    (acc : ByteValues × Option Error) :
    (ps.map fun kv =>
        goBytes (QueryEscape kv.1) ++ '='.toNat :: goBytes (QueryEscape kv.2)).foldl
      (parseQueryRound N) acc
      = (ps.foldl (fun m kv => ByteValues.Add m (goBytes kv.1) (goBytes kv.2)) acc.1, acc.2) := by
  induction ps generalizing acc with
  | nil => rfl
  | cons p ps ih => rw [List.map_cons, List.foldl_cons, parseQueryRound_pair, ih]; rfl

/-- Decoding undoes the form encoding: `url.ParseQuery` applied to `Values.Encode`
returns, without error, the pairs in the order they were written, each key and
value with the bytes it had before escaping. -/
theorem ParseQuery_Encode (N : NetURL) (v : Values) :
    ParseQuery N (Values.Encode v)
      = ((Values.sortedPairs v).foldl
          (fun m kv => ByteValues.Add m (goBytes kv.1) (goBytes kv.2)) [], none) := by
  unfold ParseQuery
  by_cases hv : Values.sortedPairs v = []
  · have he : Values.Encode v = "" := by
      rw [Values.Encode_eq_intercalate, hv]
      rfl
    rw [he, hv]
    rfl
  · rw [splitOn_Encode v hv, parseQuery_foldl]

/-! ## Shared lemmas: the scheme of a URL -/

theorem getSchemeFrom_colon (raw pre rest : List Char) (hpre : pre ≠ []) :
    getSchemeFrom raw pre (':' :: rest) = .ok (pre, rest) := by
  have h1 : schemeLetter ':' = false := by decide
  have h2 : schemeOther ':' = false := by decide
  simp [getSchemeFrom, h1, h2, hpre]

theorem getSchemeFrom_scheme (raw : List Char) (sch : List Char) :
    ∀ pre rest : List Char, (∀ c ∈ sch, schemeLetter c = true ∨ schemeOther c = true) →
      (pre ≠ [] ∨ ∃ c cs, sch = c :: cs ∧ schemeLetter c = true) →
      getSchemeFrom raw pre (sch ++ ':' :: rest) = .ok (pre ++ sch, rest) := by
  induction sch with
  | nil =>
    intro pre rest _ hpre
    rcases hpre with hpre | ⟨c, cs, h, _⟩
    · rw [List.nil_append, List.append_nil]
      exact getSchemeFrom_colon raw pre rest hpre
    · cases h
  | cons c cs ih =>
    intro pre rest hs hpre
    have hcs : ∀ d ∈ cs, schemeLetter d = true ∨ schemeOther d = true :=
      fun d hd => hs d (List.mem_cons_of_mem _ hd)
    have hne : pre ++ [c] ≠ [] := by simp
    have hrec := ih (pre ++ [c]) rest hcs (Or.inl hne)
    rw [List.append_assoc, List.singleton_append] at hrec
    rw [List.cons_append, getSchemeFrom]
    by_cases hl : schemeLetter c = true
    · rw [if_pos hl]
      exact hrec
    · rw [if_neg hl]
      have ho : schemeOther c = true := (hs c (List.mem_cons_self _ _)).resolve_left hl
      have hp : pre ≠ [] := by
        rcases hpre with hpre | ⟨d, ds, h, hd⟩
        · exact hpre
        · cases h
          exact absurd hd hl
      rw [if_pos ho, if_neg hp]
      exact hrec

/-- A well-formed scheme followed by a colon is read back as the scheme. -/
theorem getScheme_scheme (sch rest : List Char) (hs : isScheme sch) :
    getScheme (sch ++ ':' :: rest) = .ok (sch, rest) := by
  have h := getSchemeFrom_scheme (sch ++ ':' :: rest) sch [] rest hs.1 (Or.inr hs.2)
  rw [List.nil_append] at h
  exact h

theorem getSchemeFrom_ok (raw : List Char) (l : List Char) :
    ∀ pre s r : List Char, getSchemeFrom raw pre l = .ok (s, r) →
      (s = [] ∧ r = raw) ∨
      (∃ sch, s = pre ++ sch ∧ l = sch ++ ':' :: r ∧ s ≠ [] ∧
        (∀ c ∈ sch, schemeLetter c = true ∨ schemeOther c = true) ∧
        (pre = [] → ∃ c cs, sch = c :: cs ∧ schemeLetter c = true)) := by
  induction l with
  | nil =>
    intro pre s r h
    simp only [getSchemeFrom, Except.ok.injEq, Prod.mk.injEq] at h
    exact Or.inl ⟨h.1.symm, h.2.symm⟩
  | cons c cs ih =>
    intro pre s r h
    rw [getSchemeFrom] at h
    have step : getSchemeFrom raw (pre ++ [c]) cs = .ok (s, r) →
        (schemeLetter c = true ∨ schemeOther c = true) →
        (pre = [] → schemeLetter c = true) →
        (s = [] ∧ r = raw) ∨
        (∃ sch, s = pre ++ sch ∧ c :: cs = sch ++ ':' :: r ∧ s ≠ [] ∧
          (∀ c ∈ sch, schemeLetter c = true ∨ schemeOther c = true) ∧
          (pre = [] → ∃ c cs, sch = c :: cs ∧ schemeLetter c = true)) := by
      intro h hc hl
      rcases ih _ _ _ h with h0 | ⟨sch, e1, e2, e3, e4, -⟩
      · exact Or.inl h0
      · refine Or.inr ⟨c :: sch, ?_, ?_, e3, ?_, ?_⟩
        · rw [e1, List.append_assoc, List.singleton_append]
        · rw [e2, List.cons_append]
        · intro d hd
          rcases List.mem_cons.mp hd with rfl | hd
          · exact hc
          · exact e4 d hd
        · intro hp
          exact ⟨c, sch, rfl, hl hp⟩
    by_cases hl : schemeLetter c = true
    · rw [if_pos hl] at h
      exact step h (Or.inl hl) fun _ => hl
    · rw [if_neg hl] at h
      by_cases ho : schemeOther c = true
      · rw [if_pos ho] at h
        by_cases hp : pre = []
        · rw [if_pos hp] at h
          simp only [Except.ok.injEq, Prod.mk.injEq] at h
          exact Or.inl ⟨h.1.symm, h.2.symm⟩
        · rw [if_neg hp] at h
          exact step h (Or.inr ho) fun hp' => absurd hp' hp
      · rw [if_neg ho] at h
        by_cases hc : c = ':'
        · rw [if_pos hc] at h
          by_cases hp : pre = []
          · rw [if_pos hp] at h
            cases h
          · rw [if_neg hp] at h
            simp only [Except.ok.injEq, Prod.mk.injEq] at h
            refine Or.inr ⟨[], ?_, ?_, ?_, ?_, ?_⟩
            · rw [List.append_nil]; exact h.1.symm
            · rw [hc, h.2]; rfl
            · rw [← h.1]; exact hp
            · intro d hd; cases hd
            · intro hp'; exact absurd hp' hp
        · rw [if_neg hc] at h
          simp only [Except.ok.injEq, Prod.mk.injEq] at h
          exact Or.inl ⟨h.1.symm, h.2.symm⟩

/-- What `getScheme` returns: no scheme and the whole text, or a well-formed
scheme and the text after its colon. -/
theorem getScheme_ok (l s r : List Char) (h : getScheme l = .ok (s, r)) :
    (s = [] ∧ r = l) ∨ (isScheme s ∧ l = s ++ ':' :: r) := by
  rcases getSchemeFrom_ok l l [] s r h with h0 | ⟨sch, e1, e2, -, e4, e5⟩
  · exact Or.inl h0
  · rw [List.nil_append] at e1
    subst e1
    exact Or.inr ⟨⟨e4, e5 rfl⟩, e2⟩

theorem toNat_ofNat_letter (n : Nat) (h1 : 97 ≤ n) (h2 : n ≤ 122) : (Char.ofNat n).toNat = n := by
  interval_cases n <;> rfl

theorem schemeLetter_iff (c : Char) :
    schemeLetter c = true ↔ (97 ≤ c.toNat ∧ c.toNat ≤ 122) ∨ (65 ≤ c.toNat ∧ c.toNat ≤ 90) := by
  simp [schemeLetter]

theorem schemeOther_iff (c : Char) :
    schemeOther c = true ↔ (48 ≤ c.toNat ∧ c.toNat ≤ 57) ∨ c = '+' ∨ c = '-' ∨ c = '.' := by
  simp [schemeOther]

/-- One character of `strings.ToLower`. -/
theorem toLower_char (c : Char) :
    (schemeLetter c = true →
      schemeLetter (if 'A'.toNat ≤ c.toNat ∧ c.toNat ≤ 'Z'.toNat then Char.ofNat (c.toNat + 32)
        else c) = true) ∧
    (schemeOther c = true →
      schemeOther (if 'A'.toNat ≤ c.toNat ∧ c.toNat ≤ 'Z'.toNat then Char.ofNat (c.toNat + 32)
        else c) = true) := by
  have hA : 'A'.toNat = 65 := rfl
  have hZ : 'Z'.toNat = 90 := rfl
  rw [hA, hZ]
  constructor
  · intro h
    by_cases hu : 65 ≤ c.toNat ∧ c.toNat ≤ 90
    · rw [if_pos hu, schemeLetter_iff, toNat_ofNat_letter _ (by omega) (by omega)]
      omega
    · rw [if_neg hu]
      exact h
  · intro h
    by_cases hu : 65 ≤ c.toNat ∧ c.toNat ≤ 90
    · exfalso
      rw [schemeOther_iff] at h
      rcases h with h | h | h | h
      · omega
      · subst h; revert hu; decide
      · subst h; revert hu; decide
      · subst h; revert hu; decide
    · rw [if_neg hu]
      exact h

theorem isScheme_toLower (s : List Char) (hs : isScheme s) : isScheme (toLower s) := by
  obtain ⟨h1, c, cs, rfl, hc⟩ := hs
  constructor
  · intro d hd
    unfold toLower at hd
    rw [List.mem_map] at hd
    obtain ⟨e, he, rfl⟩ := hd
    rcases h1 e he with h | h
    · exact Or.inl ((toLower_char e).1 h)
    · exact Or.inr ((toLower_char e).2 h)
  · exact ⟨_, _, rfl, (toLower_char c).1 hc⟩

/-- A scheme character is no control character and none of `#`, `?`, `/`. -/
theorem schemeChar_plain (c : Char) (h : schemeLetter c = true ∨ schemeOther c = true) :
    plainChar c ∧ c ≠ '/' := by
  have e1 : '#'.toNat = 35 := rfl
  have e2 : '?'.toNat = 63 := rfl
  have e3 : '/'.toNat = 47 := rfl
  rw [schemeLetter_iff, schemeOther_iff] at h
  have hn : (97 ≤ c.toNat ∧ c.toNat ≤ 122) ∨ (65 ≤ c.toNat ∧ c.toNat ≤ 90)
      ∨ (43 ≤ c.toNat ∧ c.toNat ≤ 57 ∧ c.toNat ≠ 47) := by
    rcases h with (h | h) | h | h | h | h
    · exact Or.inl h
    · exact Or.inr (Or.inl h)
    · exact Or.inr (Or.inr (by omega))
    · subst h; decide
    · subst h; decide
    · subst h; decide
  refine ⟨⟨by omega, ?_, ?_⟩, ?_⟩
  · intro hc; rw [hc, e1] at hn; omega
  · intro hc; rw [hc, e2] at hn; omega
  · intro hc; rw [hc, e3] at hn; omega

theorem isScheme_chars (s : List Char) (hs : isScheme s) :
    ∀ c ∈ s, plainChar c ∧ c ≠ '/' :=
  fun c hc => schemeChar_plain c (hs.1 c hc)

theorem isScheme_ne_nil (s : List Char) (hs : isScheme s) : s ≠ [] := by
  obtain ⟨-, c, cs, rfl, -⟩ := hs
  simp

/-! ## Shared lemmas: strings and their characters -/

theorem mk_ne_empty (l : List Char) : String.mk l ≠ "" ↔ l ≠ [] := by
  constructor
  · intro h hl
    exact h (by rw [hl])
  · intro h hs
    exact h (congrArg String.data hs)

theorem toList_ne_nil (s : String) : s.toList ≠ [] ↔ s ≠ "" := by
  constructor
  · intro h hs
    exact h (by rw [hs]; rfl)
  · intro h hl
    exact h (String.ext hl)

theorem noCTL_of_plain (l : List Char) (h : ∀ ch ∈ l, ¬ (ch.toNat < 0x20 ∨ ch.toNat = 0x7f)) :
    stringContainsCTLByte l = false := by
  unfold stringContainsCTLByte
  rw [List.any_eq_false]
  intro ch hch
  have := h ch hch
  simpa using this

theorem plain_of_noCTL (l : List Char) (h : stringContainsCTLByte l = false) :
    ∀ ch ∈ l, ¬ (ch.toNat < 0x20 ∨ ch.toNat = 0x7f) := by
  unfold stringContainsCTLByte at h
  rw [List.any_eq_false] at h
  intro ch hch
  have := h ch hch
  simpa using this

/-! ## Shared lemmas: the query step of `parse` -/

theorem getLast?_mem {α : Type} (l : List α) (a : α) (h : l.getLast? = some a) : a ∈ l := by
  induction l with
  | nil => cases h
  | cons x xs ih =>
    cases xs with
    | nil =>
      simp only [List.getLast?_singleton, Option.some.injEq] at h
      rw [h]
      exact List.mem_singleton_self _
    | cons y ys =>
      rw [List.getLast?_cons_cons] at h
      exact List.mem_cons_of_mem _ (ih h)

theorem getLast?_append_cons {α : Type} (a : List α) (x : α) (q : List α) (hq : q ≠ []) :
    (a ++ x :: q).getLast? = q.getLast? := by
  induction a with
  | nil =>
    cases q with
    | nil => exact absurd rfl hq
    | cons y ys => exact List.getLast?_cons_cons
  | cons b bs ih =>
    cases hbs : bs ++ x :: q with
    | nil => simp at hbs
    | cons y ys =>
      rw [List.cons_append, hbs, List.getLast?_cons_cons, ← hbs]
      exact ih

/-- A text with a non-empty query after its only `?`. -/
theorem cutQuery_query (url : URL) (a q : List Char) (ha : '?' ∉ a) (hq : q ≠ [])
    (hq' : '?' ∉ q) :
    cutQuery url (a ++ '?' :: q) = ({ url with RawQuery := String.mk q }, a) := by
  have hlast : ¬ ((a ++ '?' :: q).getLast? = some '?' ∧ (a ++ '?' :: q).count '?' = 1) := by
    intro h
    rw [getLast?_append_cons a '?' q hq] at h
    exact hq' (getLast?_mem _ _ h.1)
  have hp : ∀ ch ∈ a, (fun ch => decide (ch ≠ '?')) ch = true := by
    intro ch hch
    have : ch ≠ '?' := fun e => ha (e ▸ hch)
    simpa using this
  have hx : (fun ch => decide (ch ≠ '?')) '?' = false := by decide
  unfold cutQuery
  rw [if_neg hlast, takeWhile_append_cons _ _ _ _ hp hx, dropWhile_append_cons _ _ _ _ hp hx]
  rfl

/-- A text without `?`. -/
theorem cutQuery_none (url : URL) (a : List Char) (ha : '?' ∉ a) :
    cutQuery url a = ({ url with RawQuery := "" }, a) := by
  have hlast : ¬ (a.getLast? = some '?' ∧ a.count '?' = 1) :=
    fun h => ha (getLast?_mem _ _ h.1)
  have hp : ∀ ch ∈ a, (fun ch => decide (ch ≠ '?')) ch = true := by
    intro ch hch
    have : ch ≠ '?' := fun e => ha (e ▸ hch)
    simpa using this
  unfold cutQuery
  rw [if_neg hlast, takeWhile_all _ _ hp, dropWhile_all _ _ hp]
  rfl

/-- The query step in general: the text left is part of the text given and holds no
`?`, and only `ForceQuery` and `RawQuery` of the URL are set. -/
theorem cutQuery_spec (url : URL) (rest : List Char) :
    (∀ ch ∈ (cutQuery url rest).2, ch ∈ rest ∧ ch ≠ '?') ∧
    ((cutQuery url rest).2.head? = some '/' → rest.head? = some '/') ∧
    (rest.head? = some '/' → (cutQuery url rest).2.head? = some '/') ∧
    ∃ f q, (cutQuery url rest).1 = { url with ForceQuery := f, RawQuery := q } := by
  unfold cutQuery
  by_cases h : rest.getLast? = some '?' ∧ rest.count '?' = 1
  · rw [if_pos h]
    obtain ⟨h1, h2⟩ := h
    have hsplit : rest = rest.dropLast ++ ['?'] := by
      have := List.dropLast_append_getLast? '?' (by rw [h1]; exact rfl : '?' ∈ rest.getLast?)
      exact this.symm
    have hcount : rest.dropLast.count '?' = 0 := by
      rw [hsplit, List.count_append] at h2
      simp at h2
      simpa using h2
    have hnot : '?' ∉ rest.dropLast := List.count_eq_zero.mp hcount
    refine ⟨?_, ?_, ?_, true, url.RawQuery, rfl⟩
    · intro ch hch
      exact ⟨List.dropLast_subset _ hch, fun e => hnot (e ▸ hch)⟩
    · intro hh
      show rest.head? = some '/'
      cases hd : rest.dropLast with
      | nil => rw [hd] at hh; cases hh
      | cons x xs =>
        have hh' : (rest.dropLast).head? = some '/' := hh
        rw [hd] at hh'
        rw [hsplit, hd]
        exact hh'
    · intro hh
      show rest.dropLast.head? = some '/'
      cases hd : rest.dropLast with
      | nil =>
        rw [hd] at hsplit
        rw [hsplit] at hh
        cases hh
      | cons x xs =>
        rw [hsplit, hd] at hh
        exact hh
  · rw [if_neg h]
    refine ⟨?_, ?_, ?_, url.ForceQuery, _, rfl⟩
    · intro ch hch
      have hch' : ch ∈ rest.takeWhile fun ch => decide (ch ≠ '?') := hch
      refine ⟨(List.takeWhile_sublist _).subset hch', ?_⟩
      have := List.mem_takeWhile_imp hch'
      simpa using this
    · intro hh
      have hh' : (rest.takeWhile fun ch => decide (ch ≠ '?')).head? = some '/' := hh
      cases rest with
      | nil => cases hh'
      | cons x xs =>
        rw [List.takeWhile_cons] at hh'
        split at hh'
        · exact hh'
        · cases hh'
    · intro hh
      show (rest.takeWhile fun ch => decide (ch ≠ '?')).head? = some '/'
      cases rest with
      | nil => cases hh
      | cons x xs =>
        simp only [List.head?_cons, Option.some.injEq] at hh
        subst hh
        rfl

/-! ## Shared lemmas: what `url.ParseRequestURI` returns -/

theorem setPath_ok (N : NetURL) (url : URL) (p : String) (u : URL)
    (h : URL.setPath N url p = .ok u) :
    ∃ path, unescape N p .encodePath = .ok path ∧
      u = { url with
        Path := stringOfBytes path,
        RawPath := if p = escapeBytes path .encodePath then "" else p } := by
  unfold URL.setPath at h
  cases hp : unescape N p .encodePath with
  | error e => rw [hp] at h; cases h
  | ok path =>
    rw [hp] at h
    simp only [Except.ok.injEq] at h
    exact ⟨path, rfl, h.symm⟩

theorem setPath_requestURI (N : NetURL) (url : URL) (rest : List Char) (u : URL)
    (h : URL.setPath N url (String.mk rest) = .ok u)
    (hrest : rest = [] ∨ rest.head? = some '/')
    (hf : url.Fragment = "") (hs : url.Scheme = "" ∨ isScheme url.Scheme.toList)
    (hn : url.Scheme = "" → url.Host = "" ∧ url.User = none ∧ url.Opaque = "")
    (ho : url.Opaque = "") : RequestURI u := by
  obtain ⟨path, -, rfl⟩ := setPath_ok N url _ u h
  refine ⟨hf, hs, hn, ?_, ?_, ?_⟩
  · show url.Opaque.toList.head? ≠ some '/'
    rw [ho]
    decide
  · show ∀ ch ∈ url.Opaque.toList, _
    rw [ho]
    intro ch hch
    cases hch
  · show (if String.mk rest = escapeBytes path .encodePath then "" else String.mk rest) = ""
      ∨ (if String.mk rest = escapeBytes path .encodePath then "" else String.mk rest).toList.head?
        = some '/'
    split
    · exact Or.inl rfl
    · rcases hrest with hr | hr
      · left; rw [hr]
      · exact Or.inr hr

theorem parse_requestURI (N : NetURL) (s : String) (u : URL) (h : parse N s true = .ok u) :
    RequestURI u := by
  unfold parse at h
  split_ifs at h with hctl hempty hstar
  · cases h
    exact ⟨rfl, Or.inl rfl, fun _ => ⟨rfl, rfl, rfl⟩, by decide, (fun ch hch => by cases hch),
      Or.inl rfl⟩
  · cases hg : getScheme s.toList with
    | error e => rw [hg] at h; cases h
    | ok p =>
      obtain ⟨sch, rest⟩ := p
      rw [hg] at h
      simp only [] at h
      have hctl' : ∀ ch ∈ s.toList, ¬ (ch.toNat < 0x20 ∨ ch.toNat = 0x7f) :=
        plain_of_noCTL _ (by simpa using hctl)
      have hsub : ∀ ch ∈ rest, ch ∈ s.toList := by
        rcases getScheme_ok _ _ _ hg with ⟨-, hr⟩ | ⟨-, hr⟩
        · intro ch hch; rw [hr] at hch; exact hch
        · intro ch hch; rw [hr]; simp [hch]
      have hscheme : String.mk (toLower sch) = "" ∨ isScheme (String.mk (toLower sch)).toList := by
        rcases getScheme_ok _ _ _ hg with ⟨hs, -⟩ | ⟨hs, -⟩
        · left; rw [hs]; rfl
        · exact Or.inr (isScheme_toLower _ hs)
      obtain ⟨hmem, hhead1, hhead2, f, q, hurl⟩ :=
        cutQuery_spec { Scheme := String.mk (toLower sch) } rest
      generalize cutQuery { Scheme := String.mk (toLower sch) } rest = cut at h hmem hhead1 hhead2 hurl
      obtain ⟨url, rest'⟩ := cut
      simp only [] at h hmem hhead1 hhead2 hurl
      subst hurl
      unfold parseHier at h
      simp only [] at h
      split_ifs at h with h1 h2 h3 h4 h5
      · cases h
        refine ⟨rfl, hscheme, fun hs => absurd hs h1.2, h1.1, ?_, Or.inl rfl⟩
        intro ch hch
        exact ⟨(hmem ch hch).2, hctl' ch (hsub ch (hmem ch hch).1)⟩
      · cases hpa : N.parseAuthority (String.mk
            ((rest'.drop 2).takeWhile fun ch => ch ≠ '/')) with
        | error e => rw [hpa] at h; cases h
        | ok res =>
          obtain ⟨user, host⟩ := res
          rw [hpa] at h
          simp only [] at h
          have hsch : String.mk (toLower sch) ≠ "" := by
            rcases h4.1 with hh | hh
            · exact hh
            · exact absurd hh.1 (by decide)
          refine setPath_requestURI N _ _ u h ?_ rfl hscheme (fun hs => absurd hs hsch) rfl
          cases hd : (rest'.drop 2).dropWhile fun ch => ch ≠ '/' with
          | nil => exact Or.inl rfl
          | cons x xs =>
            right
            have := List.head_dropWhile_not (fun ch => decide (ch ≠ '/')) (rest'.drop 2)
              (by rw [hd]; simp)
            simp only [hd, List.head_cons] at this
            have hx : x = '/' := by simpa using this
            rw [hx]
            rfl
      · refine setPath_requestURI N _ _ u h (Or.inr h5.2) rfl hscheme
          (fun hs => absurd hs h5.1) rfl
      · have hhd : rest'.head? = some '/' := by
          by_contra hc
          by_cases hs : String.mk (toLower sch) = ""
          · exact h2 ⟨hc, trivial⟩
          · exact h1 ⟨hc, hs⟩
        have hs : String.mk (toLower sch) = "" := by
          by_contra hc
          exact h5 ⟨hc, hhd⟩
        refine setPath_requestURI N _ _ u h (Or.inr hhd) rfl hscheme
          (fun _ => ⟨rfl, rfl, rfl⟩) rfl

/-- The URL `url.ParseRequestURI` returns is of the form `RequestURI`. -/
theorem ParseRequestURI_ok (N : NetURL) (s : String) (u : URL)
    (h : ParseRequestURI N s = .ok u) : RequestURI u := by
  unfold ParseRequestURI at h
  cases hp : parse N s true with
  | error e => rw [hp] at h; cases h
  | ok url =>
    rw [hp] at h
    simp only [Except.ok.injEq] at h
    subst h
    exact parse_requestURI N s url hp

/-! ## Shared lemmas: parsing a URL that was written by `URL.String` -/

/-- A text without `#` has no fragment. -/
theorem Parse_noFragment (N : NetURL) (L : List Char) (hL : '#' ∉ L) (r : URL) :
    Parse N (String.mk L) = .ok r ↔ parse N (String.mk L) false = .ok r := by
  have hp : ∀ ch ∈ L, (fun ch => decide (ch ≠ '#')) ch = true := by
    intro ch hch
    have : ch ≠ '#' := fun e => hL (e ▸ hch)
    simpa using this
  unfold Parse
  simp only [String.toList]
  rw [takeWhile_all _ _ hp, dropWhile_all _ _ hp]
  cases parse N (String.mk L) false with
  | error e => simp
  | ok url => simp

theorem mk_ne_star (L : List Char) (h : 2 ≤ L.length ∨ L.head? = some '/') :
    String.mk L ≠ "*" := by
  intro e
  have hl : L = ['*'] := congrArg String.data e
  rw [hl] at h
  rcases h with h | h
  · simp at h
  · revert h; decide

/-- Reading a text that starts with a well-formed scheme and a colon. -/
theorem parse_scheme (N : NetURL) (sl rest : List Char) (hs : isScheme sl)
    (hctl : ∀ ch ∈ sl ++ ':' :: rest, ¬ (ch.toNat < 0x20 ∨ ch.toNat = 0x7f)) :
    parse N (String.mk (sl ++ ':' :: rest)) false
      = parseHier N (cutQuery { Scheme := String.mk (toLower sl) } rest).1
          (cutQuery { Scheme := String.mk (toLower sl) } rest).2 false := by
  have h1 : ¬ (stringContainsCTLByte (String.mk (sl ++ ':' :: rest)).toList = true) := by
    rw [show (String.mk (sl ++ ':' :: rest)).toList = sl ++ ':' :: rest from rfl,
      noCTL_of_plain _ hctl]
    decide
  have h2 : ¬ (String.mk (sl ++ ':' :: rest) = "" ∧ false = true) := fun h => by cases h.2
  have h3 : String.mk (sl ++ ':' :: rest) ≠ "*" := by
    apply mk_ne_star
    left
    have := isScheme_ne_nil sl hs
    cases sl with
    | nil => exact absurd rfl this
    | cons c cs => simp only [List.cons_append, List.length_cons, List.length_append]; omega
  unfold parse
  rw [if_neg h1, if_neg h2, if_neg h3]
  rw [show (String.mk (sl ++ ':' :: rest)).toList = sl ++ ':' :: rest from rfl,
    getScheme_scheme sl rest hs]

/-- Reading a text that starts with `/`. -/
theorem parse_noScheme (N : NetURL) (rest : List Char)
    (hctl : ∀ ch ∈ '/' :: rest, ¬ (ch.toNat < 0x20 ∨ ch.toNat = 0x7f)) :
    parse N (String.mk ('/' :: rest)) false
      = parseHier N (cutQuery { Scheme := "" } ('/' :: rest)).1
          (cutQuery { Scheme := "" } ('/' :: rest)).2 false := by
  have h1 : ¬ (stringContainsCTLByte (String.mk ('/' :: rest)).toList = true) := by
    rw [show (String.mk ('/' :: rest)).toList = '/' :: rest from rfl, noCTL_of_plain _ hctl]
    decide
  have h2 : ¬ (String.mk ('/' :: rest) = "" ∧ false = true) := fun h => by cases h.2
  have h3 : String.mk ('/' :: rest) ≠ "*" := mk_ne_star _ (Or.inr rfl)
  have hg : getScheme ('/' :: rest) = .ok ([], '/' :: rest) := by
    have e1 : schemeLetter '/' = false := by decide
    have e2 : schemeOther '/' = false := by decide
    simp [getScheme, getSchemeFrom, e1, e2]
  unfold parse
  rw [if_neg h1, if_neg h2, if_neg h3]
  rw [show (String.mk ('/' :: rest)).toList = '/' :: rest from rfl, hg]
  rfl

theorem parseHier_noSlash (N : NetURL) (url : URL) (rest : List Char) (v : Bool)
    (hr : rest.head? ≠ some '/') (hs : url.Scheme ≠ "") :
    parseHier N url rest v = .ok { url with Opaque := String.mk rest } := by
  unfold parseHier
  rw [if_pos ⟨hr, hs⟩]

theorem parseHier_authority (N : NetURL) (url : URL) (au pc : List Char)
    (hs : url.Scheme ≠ "") (hau : ∀ ch ∈ au, ch ≠ '/') (hpc : pc.head? = some '/') :
    parseHier N url ('/' :: '/' :: (au ++ pc)) false
      = match N.parseAuthority (String.mk au) with
        | .error err => .error err
        | .ok (user, host) =>
          URL.setPath N { url with User := user, Host := host } (String.mk pc) := by
  have hp : ∀ ch ∈ au, (fun ch => decide (ch ≠ '/')) ch = true := by
    intro ch hch
    simpa using hau ch hch
  have hx : (fun ch => decide (ch ≠ '/')) '/' = false := by decide
  obtain ⟨t, rfl⟩ : ∃ t, pc = '/' :: t := by
    cases pc with
    | nil => cases hpc
    | cons x xs =>
      simp only [List.head?_cons, Option.some.injEq] at hpc
      exact ⟨xs, by rw [hpc]⟩
  unfold parseHier
  have c1 : ¬ (('/' :: '/' :: (au ++ '/' :: t)).head? ≠ some '/' ∧ url.Scheme ≠ "") :=
    fun h => h.1 rfl
  have c2 : ¬ (('/' :: '/' :: (au ++ '/' :: t)).head? ≠ some '/' ∧ false = true) :=
    fun h => h.1 rfl
  have c3 : ¬ (('/' :: '/' :: (au ++ '/' :: t)).head? ≠ some '/'
      ∧ ':' ∈ firstSegment ('/' :: '/' :: (au ++ '/' :: t))) := fun h => h.1 rfl
  have c4 : (url.Scheme ≠ "" ∨ (false = false
        ∧ ('/' :: '/' :: (au ++ '/' :: t)).take 3 ≠ ['/', '/', '/']))
      ∧ ('/' :: '/' :: (au ++ '/' :: t)).take 2 = ['/', '/'] := ⟨Or.inl hs, rfl⟩
  rw [if_neg c1, if_neg c2, if_neg c3, if_pos c4]
  simp only [List.drop_succ_cons, List.drop_zero]
  rw [takeWhile_append_cons _ _ _ _ hp hx, dropWhile_append_cons _ _ _ _ hp hx]

theorem parseHier_path (N : NetURL) (url : URL) (pc : List Char)
    (hpc : pc.head? = some '/') (h2 : pc.take 2 ≠ ['/', '/']) :
    parseHier N url pc false
      = URL.setPath N (if url.Scheme ≠ "" then { url with OmitHost := true } else url)
          (String.mk pc) := by
  unfold parseHier
  have c1 : ¬ (pc.head? ≠ some '/' ∧ url.Scheme ≠ "") := fun h => h.1 hpc
  have c2 : ¬ (pc.head? ≠ some '/' ∧ false = true) := fun h => h.1 hpc
  have c3 : ¬ (pc.head? ≠ some '/' ∧ ':' ∈ firstSegment pc) := fun h => h.1 hpc
  have c4 : ¬ ((url.Scheme ≠ "" ∨ (false = false ∧ pc.take 3 ≠ ['/', '/', '/']))
      ∧ pc.take 2 = ['/', '/']) := fun h => h2 h.2
  rw [if_neg c1, if_neg c2, if_neg c3, if_neg c4]
  by_cases hs : url.Scheme = ""
  · have c5 : ¬ (url.Scheme ≠ "" ∧ pc.head? = some '/') := fun h => h.1 hs
    have c6 : ¬ (url.Scheme ≠ "") := fun h => h hs
    rw [if_neg c5, if_neg c6]
  · rw [if_pos ⟨hs, hpc⟩, if_pos hs]

theorem setPath_client (N : NetURL) (url : URL) (p P : String)
    (hp : unescape N p .encodePath = .ok (goBytes P)) (hP : stringOfBytes (goBytes P) = P) :
    URL.setPath N url p
      = .ok { url with
          Path := P,
          RawPath := if p = escapeBytes (goBytes P) .encodePath then "" else p } := by
  unfold URL.setPath
  rw [hp]
  simp only [hP]

/-! ## Shared lemmas: the path and the authority `URL.String` writes -/

theorem unescape_ok (N : NetURL) (s : String) (m : encoding) (bs : List Nat)
    (h : unescape N s m = .ok bs) :
    unescapeBad (goBytes s) m = none ∧ unescapeBytes (goBytes s) m = bs := by
  unfold unescape unescapeList at h
  split at h
  · cases h
  · cases h
  · rename_i hb
    simp only [Except.ok.injEq] at h
    exact ⟨hb, h⟩

theorem unescape_of_wellFormed (N : NetURL) (s : String) (m : encoding)
    (h : unescapeBad (goBytes s) m = none) :
    unescape N s m = .ok (unescapeBytes (goBytes s) m) := by
  unfold unescape unescapeList
  rw [h]

theorem unescapesTo_ok (N : NetURL) (raw : String) (m : encoding) (text : String)
    (h : unescapesTo N raw m text = true) : unescape N raw m = .ok (goBytes text) := by
  unfold unescapesTo at h
  cases hu : unescape N raw m with
  | error e => rw [hu] at h; cases h
  | ok p =>
    rw [hu] at h
    simp only [decide_eq_true_eq] at h
    rw [h]

theorem goBytes_slashes (s : String) (t : List Char) (h : s.toList = '/' :: '/' :: t) :
    goBytes s = '/'.toNat :: '/'.toNat :: goBytes (String.mk t) := by
  rw [goBytes_eq, h, goBytes_eq]
  rfl

theorem goBytes_slash (s : String) (t : List Char) (h : s.toList = '/' :: t) :
    goBytes s = '/'.toNat :: goBytes (String.mk t) := by
  rw [goBytes_eq, h, goBytes_eq]
  rfl

/-- A text that unescapes to a client path does not start with two slashes. -/
theorem take_two_of_unescape (s P : String) (hP : ClientPath P)
    (hb : unescapeBytes (goBytes s) .encodePath = goBytes P) :
    s.toList.take 2 ≠ ['/', '/'] := by
  intro h
  obtain ⟨t, ht⟩ : ∃ t, s.toList = '/' :: '/' :: t := by
    match hs : s.toList, h with
    | [], h => cases h
    | [_], h => cases h
    | a :: b :: t, h =>
      simp only [List.take_succ_cons, List.take_zero, List.cons.injEq, and_true] at h
      exact ⟨t, by rw [h.1, h.2]⟩
  rw [goBytes_slashes s t ht, unescapeBytes_cons _ _ _ (by decide),
    if_neg (by decide), unescapeBytes_cons _ _ _ (by decide), if_neg (by decide)] at hb
  apply hP.second
  rw [← hb]
  rfl

set_option maxRecDepth 1000000 in
theorem validEncoded_byte : ∀ n, n < 128 →
    (decide (n ∈ codes "!$&'()*+,;=:@[]%") || !shouldEscape n .encodePath) = true →
    ¬ (n < 0x20 ∨ n = 0x7f) ∧ n ≠ '#'.toNat ∧ n ≠ '?'.toNat := by
  decide

theorem validEncoded_chars (s : String) (h : validEncoded s .encodePath = true) :
    ∀ ch ∈ s.toList, plainChar ch := by
  intro ch hch
  unfold validEncoded at h
  rw [List.all_eq_true] at h
  by_cases hlt : ch.toNat < 128
  · have hb := h _ (mem_goBytes_of_ascii s ch hch hlt)
    obtain ⟨h1, h2, h3⟩ := validEncoded_byte _ hlt hb
    exact ⟨h1, fun e => h2 (by rw [e]), fun e => h3 (by rw [e])⟩
  · refine ⟨by omega, ?_, ?_⟩
    · intro e; rw [e] at hlt; exact hlt (by decide)
    · intro e; rw [e] at hlt; exact hlt (by decide)

/-- The escaped path of a URL whose path is a client path: it starts with one
slash, holds no `?`, `#` or control character, and unescapes to the path. -/
theorem EscapedPath_client (N : NetURL) (u : URL) (P : String) (hu : RequestURI u)
    (hP : ClientPath P) :
    (URL.EscapedPath N { u with Path := P }).toList.head? = some '/' ∧
    (URL.EscapedPath N { u with Path := P }).toList.take 2 ≠ ['/', '/'] ∧
    (∀ ch ∈ (URL.EscapedPath N { u with Path := P }).toList, plainChar ch) ∧
    unescape N (URL.EscapedPath N { u with Path := P }) .encodePath = .ok (goBytes P) := by
  unfold URL.EscapedPath
  simp only []
  split_ifs with h1 h2
  · obtain ⟨hne, hv, ht⟩ := h1
    have hun := unescapesTo_ok N _ _ _ ht
    refine ⟨?_, take_two_of_unescape _ P hP (unescape_ok N _ _ _ hun).2,
      validEncoded_chars _ hv, hun⟩
    rcases hu.rawPath with h | h
    · exact absurd h hne
    · exact h
  · exact absurd h2 hP.notStar
  · rw [hP.escaped]
    refine ⟨hP.head, take_two_of_unescape _ P hP hP.unescaped, hP.chars, ?_⟩
    rw [unescape_of_wellFormed N P _ hP.wellFormed, hP.unescaped]

theorem escape_host_chars (s : String) :
    ∀ ch ∈ (escape s .encodeHost).toList, plainChar ch ∧ ch ≠ '/' := by
  intro ch hch
  have := escape_chars s .encodeHost _ escapeByte_host_chars ch hch
  exact ⟨⟨by omega, this.2.2.1, this.2.2.2.1⟩, this.2.2.2.2⟩

theorem escape_user_chars (s : String) :
    ∀ ch ∈ (escape s .encodeUserPassword).toList, plainChar ch ∧ ch ≠ '/' := by
  intro ch hch
  have := escape_chars s .encodeUserPassword _ escapeByte_user_chars ch hch
  exact ⟨⟨by omega, this.2.2.1, this.2.2.2.1⟩, this.2.2.2.2⟩

theorem Userinfo_string_chars (ui : Userinfo) :
    ∀ ch ∈ (ui.string ++ "@").toList, plainChar ch ∧ ch ≠ '/' := by
  intro ch hch
  unfold Userinfo.string at hch
  split at hch
  · simp only [String.toList, String.data_append, List.mem_append] at hch
    rcases hch with ((h | h) | h) | h
    · exact escape_user_chars _ ch h
    · have : ch = ':' := by simpa using h
      subst this; exact ⟨⟨by decide, by decide, by decide⟩, by decide⟩
    · exact escape_user_chars _ ch h
    · have : ch = '@' := by simpa using h
      subst this; exact ⟨⟨by decide, by decide, by decide⟩, by decide⟩
  · simp only [String.toList, String.data_append, List.mem_append] at hch
    rcases hch with h | h
    · exact escape_user_chars _ ch h
    · have : ch = '@' := by simpa using h
      subst this; exact ⟨⟨by decide, by decide, by decide⟩, by decide⟩

/-- The authority written for a parsed request URI whose path has been set: none,
or `//` and a text without `/`, `?`, `#` and control characters after a scheme. -/
theorem authorityText_client (u : URL) (P : String) (hu : RequestURI u) (hP : P ≠ "") :
    (URL.authorityText { u with Path := P }) = "" ∨
    (u.Scheme ≠ "" ∧ ∃ au, (URL.authorityText { u with Path := P }).toList = '/' :: '/' :: au
      ∧ ∀ ch ∈ au, plainChar ch ∧ ch ≠ '/') := by
  unfold URL.authorityText
  simp only []
  by_cases h1 : u.Scheme ≠ "" ∨ u.Host ≠ "" ∨ u.User ≠ none
  · rw [if_pos h1]
    by_cases h2 : u.OmitHost = true ∧ u.Host = "" ∧ u.User = none
    · rw [if_pos h2]
      exact Or.inl rfl
    · rw [if_neg h2, if_pos (Or.inr (Or.inl hP))]
      right
      have hs : u.Scheme ≠ "" := by
        intro hs
        obtain ⟨e1, e2, -⟩ := hu.noScheme hs
        rcases h1 with h | h | h
        · exact h hs
        · exact h e1
        · exact h e2
      refine ⟨hs, ((match u.User with
          | some ui => ui.string ++ "@"
          | none => "") ++ (if u.Host ≠ "" then escape u.Host .encodeHost else "")).toList,
        ?_, ?_⟩
      · simp only [String.toList, String.data_append, List.append_assoc]
        rfl
      · intro ch hch
        simp only [String.toList, String.data_append, List.mem_append] at hch
        rcases hch with h | h
        · cases hU : u.User with
          | none => rw [hU] at h; cases h
          | some ui => rw [hU] at h; exact Userinfo_string_chars ui ch h
        · by_cases hH : u.Host ≠ ""
          · rw [if_pos hH] at h
            exact escape_host_chars _ ch h
          · rw [if_neg hH] at h
            cases h
  · rw [if_neg h1]
    exact Or.inl rfl

/-- The hierarchical part written for a parsed request URI whose path has been set:
the escaped path, after `//` and an authority when there is one. -/
theorem hierPart_client (N : NetURL) (u : URL) (P : String) (hu : RequestURI u)
    (hP : ClientPath P) :
    (hierPart N { u with Path := P }).toList
        = (URL.EscapedPath N { u with Path := P }).toList ∨
    (u.Scheme ≠ "" ∧ ∃ au, (hierPart N { u with Path := P }).toList
        = '/' :: '/' :: (au ++ (URL.EscapedPath N { u with Path := P }).toList)
      ∧ ∀ ch ∈ au, plainChar ch ∧ ch ≠ '/') := by
  obtain ⟨hh, -, -, -⟩ := EscapedPath_client N u P hu hP
  have hPne : P ≠ "" := by
    intro e
    have := hP.head
    rw [e] at this
    cases this
  have hslash : ¬ ((URL.EscapedPath N { u with Path := P }) ≠ ""
      ∧ (URL.EscapedPath N { u with Path := P }).toList.head? ≠ some '/'
      ∧ ({ u with Path := P } : URL).Host ≠ "") := fun h => h.2.1 hh
  have hseg : ':' ∉ firstSegment (URL.EscapedPath N { u with Path := P }).toList := by
    cases hl : (URL.EscapedPath N { u with Path := P }).toList with
    | nil => rw [hl] at hh; cases hh
    | cons x xs =>
      rw [hl] at hh
      simp only [List.head?_cons, Option.some.injEq] at hh
      subst hh
      simp [firstSegment]
  have hform : hierPart N { u with Path := P }
      = URL.authorityText { u with Path := P } ++ URL.EscapedPath N { u with Path := P } := by
    unfold hierPart
    simp only []
    rw [if_neg hslash, if_neg hseg]
    simp
  rw [hform]
  rcases authorityText_client u P hu hPne with h | ⟨hs, au, h1, h2⟩
  · left
    rw [h]
    simp
  · right
    refine ⟨hs, au, ?_, h2⟩
    simp only [String.toList, String.data_append] at h1 ⊢
    rw [h1]
    rfl

/-! ## Shared lemmas: the request URL of `Auth` and `GetSpeech` -/

/-- The text `URL.String` writes for a parsed request URI whose path and query have
been set: the scheme and a colon if there is a scheme, the opaque part or else the
hierarchical part, then `?` and the query. -/
theorem string_client (N : NetURL) (env : Env) (u : URL) (P q : String)
    (hu : RequestURI u) (hq : q ≠ "") :
    URL.string (netEnv N env) { u with Path := P, RawQuery := q }
      = String.mk ((if u.Scheme ≠ "" then u.Scheme.toList ++ [':'] else [])
          ++ (if u.Opaque ≠ "" then u.Opaque.toList
              else (hierPart N { u with Path := P }).toList)
          ++ '?' :: q.toList) := by
  rw [URL.string_of_query _ _ hq]
  have hf : ¬ (({ u with Path := P, RawQuery := q } : URL).Fragment ≠ "") :=
    fun h => h hu.fragment
  rw [if_neg hf]
  apply String.ext
  simp only [String.data_append, String.toList]
  have e1 : (if ({ u with Path := P, RawQuery := q } : URL).Scheme ≠ ""
        then ({ u with Path := P, RawQuery := q } : URL).Scheme ++ ":" else "").data
      = if u.Scheme ≠ "" then u.Scheme.data ++ [':'] else [] := by
    by_cases h : u.Scheme ≠ ""
    · rw [if_pos h, if_pos h]; rfl
    · rw [if_neg h, if_neg h]
  have e2 : (if ({ u with Path := P, RawQuery := q } : URL).Opaque ≠ ""
        then ({ u with Path := P, RawQuery := q } : URL).Opaque
        else (netEnv N env).hierPart { u with Path := P, RawQuery := q }).data
      = if u.Opaque ≠ "" then u.Opaque.data else (hierPart N { u with Path := P }).data := by
    by_cases h : u.Opaque ≠ ""
    · rw [if_pos h, if_pos h]
    · rw [if_neg h, if_neg h]; rfl
  rw [e1, e2]
  simp

theorem plain_not_hash (L : List Char) (h : ∀ ch ∈ L, plainChar ch) : '#' ∉ L :=
  fun hm => (h _ hm).2.1 rfl

theorem plain_not_query (L : List Char) (h : ∀ ch ∈ L, plainChar ch) : '?' ∉ L :=
  fun hm => (h _ hm).2.2 rfl

theorem plain_colon : plainChar ':' := ⟨by decide, by decide, by decide⟩

theorem plain_slash : plainChar '/' := ⟨by decide, by decide, by decide⟩

theorem toLower_ne_empty (sl : List Char) (h : sl ≠ []) : String.mk (toLower sl) ≠ "" := by
  rw [mk_ne_empty]
  intro e
  unfold toLower at e
  exact h (List.map_eq_nil_iff.mp e)

/-- Case of a scheme and an authority: `scheme://authority/path?query`. -/
theorem parse_authority_client (N : NetURL) (sl au : List Char) (pth P q : String)
    (hs : isScheme sl) (hau : ∀ ch ∈ au, plainChar ch ∧ ch ≠ '/')
    (hh : pth.toList.head? = some '/') (hpc : ∀ ch ∈ pth.toList, plainChar ch)
    (hun : unescape N pth .encodePath = .ok (goBytes P)) (hP : stringOfBytes (goBytes P) = P)
    (hq : EncodedQuery q) (r : URL) :
    Parse N (String.mk (sl ++ [':'] ++ ('/' :: '/' :: (au ++ pth.toList)) ++ '?' :: q.toList))
        = .ok r ↔
      ∃ user host, N.parseAuthority (String.mk au) = .ok (user, host) ∧
        r = { Scheme := String.mk (toLower sl), User := user, Host := host, Path := P,
              RawPath := if pth = escapeBytes (goBytes P) .encodePath then "" else pth,
              RawQuery := q } := by
  have hfront : ∀ ch ∈ '/' :: '/' :: (au ++ pth.toList), plainChar ch := by
    intro ch hch
    simp only [List.mem_cons, List.mem_append] at hch
    rcases hch with h | h | h | h
    · rw [h]; exact plain_slash
    · rw [h]; exact plain_slash
    · exact (hau ch h).1
    · exact hpc ch h
  have hall : ∀ ch ∈ sl ++ ':' :: ('/' :: '/' :: (au ++ pth.toList) ++ '?' :: q.toList),
      ¬ (ch.toNat < 0x20 ∨ ch.toNat = 0x7f) ∧ ch ≠ '#' := by
    intro ch hch
    simp only [List.mem_cons, List.mem_append] at hch
    rcases hch with h | h | (h | h | h | h) | h | h
    · exact ⟨(isScheme_chars sl hs ch h).1.1, (isScheme_chars sl hs ch h).1.2.1⟩
    · rw [h]; exact ⟨by decide, by decide⟩
    · rw [h]; exact ⟨by decide, by decide⟩
    · rw [h]; exact ⟨by decide, by decide⟩
    · exact ⟨(hau ch h).1.1, (hau ch h).1.2.1⟩
    · exact ⟨(hpc ch h).1, (hpc ch h).2.1⟩
    · rw [h]; exact ⟨by decide, by decide⟩
    · exact ⟨(hq.chars ch h).1, (hq.chars ch h).2.1⟩
  have hL : sl ++ [':'] ++ ('/' :: '/' :: (au ++ pth.toList)) ++ '?' :: q.toList
      = sl ++ ':' :: ('/' :: '/' :: (au ++ pth.toList) ++ '?' :: q.toList) := by
    simp
  rw [hL]
  have hparse : parse N (String.mk
      (sl ++ ':' :: ('/' :: '/' :: (au ++ pth.toList) ++ '?' :: q.toList))) false
      = match N.parseAuthority (String.mk au) with
        | .error err => .error err
        | .ok (user, host) =>
          .ok { Scheme := String.mk (toLower sl), User := user, Host := host, Path := P,
                RawPath := if pth = escapeBytes (goBytes P) .encodePath then "" else pth,
                RawQuery := q } := by
    rw [parse_scheme N sl _ hs fun ch hch => (hall ch hch).1,
      cutQuery_query _ _ _ (plain_not_query _ hfront) ((toList_ne_nil q).mpr hq.nonempty)
        (plain_not_query _ hq.chars)]
    simp only []
    rw [parseHier_authority N _ au pth.toList (toLower_ne_empty sl (isScheme_ne_nil sl hs))
      (fun ch hch => (hau ch hch).2) hh]
    cases N.parseAuthority (String.mk au) with
    | error e => rfl
    | ok res =>
      obtain ⟨user, host⟩ := res
      simp only []
      rw [setPath_client N _ (String.mk pth.toList) P hun hP]
      rfl
  have hnf : '#' ∉ sl ++ ':' :: ('/' :: '/' :: (au ++ pth.toList) ++ '?' :: q.toList) :=
    fun hm => (hall _ hm).2 rfl
  rw [Parse_noFragment N _ hnf, hparse]
  cases N.parseAuthority (String.mk au) with
  | error e => simp
  | ok res =>
    obtain ⟨user, host⟩ := res
    simp only [Except.ok.injEq, Prod.mk.injEq]
    constructor
    · intro h
      exact ⟨user, host, ⟨rfl, rfl⟩, h.symm⟩
    · rintro ⟨user', host', ⟨rfl, rfl⟩, h⟩
      exact h.symm

/-- Case of a scheme without authority: `scheme:/path?query`. -/
theorem parse_omitHost_client (N : NetURL) (sl : List Char) (pth P q : String)
    (hs : isScheme sl) (hh : pth.toList.head? = some '/')
    (h2 : pth.toList.take 2 ≠ ['/', '/']) (hpc : ∀ ch ∈ pth.toList, plainChar ch)
    (hun : unescape N pth .encodePath = .ok (goBytes P)) (hP : stringOfBytes (goBytes P) = P)
    (hq : EncodedQuery q) :
    Parse N (String.mk (sl ++ [':'] ++ pth.toList ++ '?' :: q.toList))
      = .ok { Scheme := String.mk (toLower sl), OmitHost := true, Path := P,
              RawPath := if pth = escapeBytes (goBytes P) .encodePath then "" else pth,
              RawQuery := q } := by
  have hall : ∀ ch ∈ sl ++ ':' :: (pth.toList ++ '?' :: q.toList),
      ¬ (ch.toNat < 0x20 ∨ ch.toNat = 0x7f) ∧ ch ≠ '#' := by
    intro ch hch
    simp only [List.mem_cons, List.mem_append] at hch
    rcases hch with h | h | h | h | h
    · exact ⟨(isScheme_chars sl hs ch h).1.1, (isScheme_chars sl hs ch h).1.2.1⟩
    · rw [h]; exact ⟨by decide, by decide⟩
    · exact ⟨(hpc ch h).1, (hpc ch h).2.1⟩
    · rw [h]; exact ⟨by decide, by decide⟩
    · exact ⟨(hq.chars ch h).1, (hq.chars ch h).2.1⟩
  have hL : sl ++ [':'] ++ pth.toList ++ '?' :: q.toList
      = sl ++ ':' :: (pth.toList ++ '?' :: q.toList) := by
    simp
  rw [hL]
  have hnf : '#' ∉ sl ++ ':' :: (pth.toList ++ '?' :: q.toList) :=
    fun hm => (hall _ hm).2 rfl
  rw [Parse_noFragment N _ hnf, parse_scheme N sl _ hs fun ch hch => (hall ch hch).1,
    cutQuery_query _ _ _ (plain_not_query _ hpc) ((toList_ne_nil q).mpr hq.nonempty)
      (plain_not_query _ hq.chars)]
  simp only []
  rw [parseHier_path N _ pth.toList hh h2,
    if_pos (toLower_ne_empty sl (isScheme_ne_nil sl hs)),
    setPath_client N _ (String.mk pth.toList) P hun hP]
  rfl

/-- Case without scheme: `/path?query`. -/
theorem parse_path_client (N : NetURL) (pth P q : String)
    (hh : pth.toList.head? = some '/')
    (h2 : pth.toList.take 2 ≠ ['/', '/']) (hpc : ∀ ch ∈ pth.toList, plainChar ch)
    (hun : unescape N pth .encodePath = .ok (goBytes P)) (hP : stringOfBytes (goBytes P) = P)
    (hq : EncodedQuery q) :
    Parse N (String.mk (pth.toList ++ '?' :: q.toList))
      = .ok { Path := P,
              RawPath := if pth = escapeBytes (goBytes P) .encodePath then "" else pth,
              RawQuery := q } := by
  have hall : ∀ ch ∈ pth.toList ++ '?' :: q.toList,
      ¬ (ch.toNat < 0x20 ∨ ch.toNat = 0x7f) ∧ ch ≠ '#' := by
    intro ch hch
    simp only [List.mem_cons, List.mem_append] at hch
    rcases hch with h | h | h
    · exact ⟨(hpc ch h).1, (hpc ch h).2.1⟩
    · rw [h]; exact ⟨by decide, by decide⟩
    · exact ⟨(hq.chars ch h).1, (hq.chars ch h).2.1⟩
  have hnf : '#' ∉ pth.toList ++ '?' :: q.toList := fun hm => (hall _ hm).2 rfl
  obtain ⟨t, ht⟩ : ∃ t, pth.toList = '/' :: t := by
    cases hl : pth.toList with
    | nil => rw [hl] at hh; cases hh
    | cons x xs =>
      rw [hl] at hh
      simp only [List.head?_cons, Option.some.injEq] at hh
      exact ⟨xs, by rw [hh]⟩
  rw [Parse_noFragment N _ hnf]
  have hform : pth.toList ++ '?' :: q.toList = '/' :: (t ++ '?' :: q.toList) := by
    rw [ht]; rfl
  rw [hform, parse_noScheme N _ (by rw [← hform]; exact fun ch hch => (hall ch hch).1), ← hform,
    cutQuery_query _ _ _ (plain_not_query _ hpc) ((toList_ne_nil q).mpr hq.nonempty)
      (plain_not_query _ hq.chars)]
  simp only []
  rw [parseHier_path N _ pth.toList hh h2, if_neg (fun h => h rfl),
    setPath_client N _ (String.mk pth.toList) P hun hP]
  rfl

/-- Case of an opaque part without `#`: `scheme:opaque?query`. -/
theorem parse_opaque_client (N : NetURL) (sl op : List Char) (q : String)
    (hs : isScheme sl) (hh : op.head? ≠ some '/')
    (hop : ∀ ch ∈ op, ch ≠ '?' ∧ ¬ (ch.toNat < 0x20 ∨ ch.toNat = 0x7f)) (hnh : '#' ∉ op)
    (hq : EncodedQuery q) :
    Parse N (String.mk (sl ++ [':'] ++ op ++ '?' :: q.toList))
      = .ok { Scheme := String.mk (toLower sl), Opaque := String.mk op, RawQuery := q } := by
  have hall : ∀ ch ∈ sl ++ ':' :: (op ++ '?' :: q.toList),
      ¬ (ch.toNat < 0x20 ∨ ch.toNat = 0x7f) ∧ ch ≠ '#' := by
    intro ch hch
    simp only [List.mem_cons, List.mem_append] at hch
    rcases hch with h | h | h | h | h
    · exact ⟨(isScheme_chars sl hs ch h).1.1, (isScheme_chars sl hs ch h).1.2.1⟩
    · rw [h]; exact ⟨by decide, by decide⟩
    · exact ⟨(hop ch h).2, fun e => hnh (e ▸ h)⟩
    · rw [h]; exact ⟨by decide, by decide⟩
    · exact ⟨(hq.chars ch h).1, (hq.chars ch h).2.1⟩
  have hL : sl ++ [':'] ++ op ++ '?' :: q.toList = sl ++ ':' :: (op ++ '?' :: q.toList) := by
    simp
  rw [hL]
  have hnf : '#' ∉ sl ++ ':' :: (op ++ '?' :: q.toList) := fun hm => (hall _ hm).2 rfl
  rw [Parse_noFragment N _ hnf, parse_scheme N sl _ hs fun ch hch => (hall ch hch).1,
    cutQuery_query _ _ _ (fun hm => (hop _ hm).1 rfl) ((toList_ne_nil q).mpr hq.nonempty)
      (plain_not_query _ hq.chars)]
  simp only []
  rw [parseHier_noSlash N _ op false hh (toLower_ne_empty sl (isScheme_ne_nil sl hs))]
  rfl

theorem mem_split_first (op : List Char) (h : '#' ∈ op) :
    ∃ a b, op = a ++ '#' :: b ∧ '#' ∉ a := by
  induction op with
  | nil => cases h
  | cons x xs ih =>
    by_cases hx : x = '#'
    · exact ⟨[], xs, by rw [hx]; rfl, fun hm => by cases hm⟩
    · have hxs : '#' ∈ xs := by
        rcases List.mem_cons.mp h with e | e
        · exact absurd e.symm hx
        · exact e
      obtain ⟨a, b, e, ha⟩ := ih hxs
      refine ⟨x :: a, b, by rw [e]; rfl, ?_⟩
      intro hm
      rcases List.mem_cons.mp hm with e' | e'
      · exact hx e'.symm
      · exact ha e'

/-- A text with a `#`: what follows the first `#` is the fragment. -/
theorem Parse_fragment (N : NetURL) (A F : List Char) (hA : '#' ∉ A) (hF : F ≠ [])
    (r : URL) :
    Parse N (String.mk (A ++ '#' :: F)) = .ok r ↔
      ∃ url, parse N (String.mk A) false = .ok url ∧
        URL.setFragment N url (String.mk F) = .ok r := by
  have hp : ∀ ch ∈ A, (fun ch => decide (ch ≠ '#')) ch = true := by
    intro ch hch
    have : ch ≠ '#' := fun e => hA (e ▸ hch)
    simpa using this
  have hx : (fun ch => decide (ch ≠ '#')) '#' = false := by decide
  have hne : String.mk F ≠ "" := (mk_ne_empty F).mpr hF
  unfold Parse
  simp only [String.toList]
  rw [takeWhile_append_cons _ _ _ _ hp hx, dropWhile_append_cons _ _ _ _ hp hx]
  simp only [List.drop_succ_cons, List.drop_zero]
  cases parse N (String.mk A) false with
  | error e => simp
  | ok url =>
    simp only [if_neg hne]
    cases hsf : URL.setFragment N url (String.mk F) with
    | error e => simp [hsf]
    | ok r' => simp [hsf]

theorem setFragment_ok (N : NetURL) (url : URL) (f : String) (r : URL) :
    URL.setFragment N url f = .ok r ↔
      unescapeBad (goBytes f) .encodeFragment = none ∧
      r = { url with
        Fragment := stringOfBytes (unescapeBytes (goBytes f) .encodeFragment),
        RawFragment :=
          if f = escapeBytes (unescapeBytes (goBytes f) .encodeFragment) .encodeFragment
          then "" else f } := by
  unfold URL.setFragment unescape unescapeList
  cases hb : unescapeBad (goBytes f) .encodeFragment with
  | none =>
    simp only [Except.ok.injEq, true_and]
    exact ⟨fun h => h.symm, fun h => h.symm⟩
  | some p =>
    obtain ⟨k, piece⟩ := p
    cases k <;> simp

/-- Whether a text followed by `?` and a well-formed text is well formed does not
depend on the text that follows. -/
theorem unescapeBad_question_aux (n : Nat) (m : encoding) (hm : m = .encodeFragment) :
    ∀ bs : List Nat, bs.length ≤ n → ∀ qs, unescapeBad qs m = none →
      (unescapeBad (bs ++ '?'.toNat :: qs) m = none ↔ unescapeBad (bs ++ ['?'.toNat]) m = none) := by
  have hq1 : ∀ qs, unescapeBad qs m = none → unescapeBad ('?'.toNat :: qs) m = none := by
    intro qs h
    rw [unescapeBad_cons _ _ _ (by decide), if_neg (by rw [hm]; decide)]
    exact h
  induction n with
  | zero =>
    intro bs hn qs hqs
    have : bs = [] := List.length_eq_zero.mp (Nat.le_zero.mp hn)
    subst this
    simp only [List.nil_append]
    rw [hq1 qs hqs, hq1 [] rfl]
  | succ n ih =>
    intro bs hn qs hqs
    match bs, hn with
    | [], _ =>
      simp only [List.nil_append]
      rw [hq1 qs hqs, hq1 [] rfl]
    | c :: rest, hn =>
      by_cases hc : c = '%'.toNat
      · subst hc
        match rest, hn with
        | [], _ =>
          have e2 : unescapeBad ('%'.toNat :: ['?'.toNat]) m ≠ none := by
            rw [unescapeBad_pct_one]; simp
          have e1 : unescapeBad ('%'.toNat :: '?'.toNat :: qs) m ≠ none := by
            cases qs with
            | nil => rw [unescapeBad_pct_one]; simp
            | cons x xs =>
              rw [unescapeBad_pct, if_pos (Or.inl (by decide))]
              simp
          simp only [List.nil_append, List.cons_append]
          exact ⟨fun h => absurd h e1, fun h => absurd h e2⟩
        | [h1], _ =>
          have e1 : unescapeBad ('%'.toNat :: h1 :: '?'.toNat :: qs) m ≠ none := by
            rw [unescapeBad_pct, if_pos (Or.inr (by decide))]
            simp
          have e2 : unescapeBad ('%'.toNat :: h1 :: ['?'.toNat]) m ≠ none := by
            rw [unescapeBad_pct, if_pos (Or.inr (by decide))]
            simp
          simp only [List.nil_append, List.cons_append]
          exact ⟨fun h => absurd h e1, fun h => absurd h e2⟩
        | h1 :: h2 :: rest', hn =>
          have hl : rest'.length ≤ n := by simp at hn; omega
          simp only [List.cons_append, unescapeBad_pct]
          split_ifs
          · simp
          · simp
          · simp
          · exact ih rest' hl qs hqs
      · have hl : rest.length ≤ n := by simp at hn; omega
        simp only [List.cons_append, unescapeBad_cons _ _ _ hc]
        split_ifs
        · simp
        · exact ih rest hl qs hqs

theorem unescapeBad_question (bs qs qs' : List Nat)
    (h : unescapeBad qs .encodeFragment = none) (h' : unescapeBad qs' .encodeFragment = none) :
    unescapeBad (bs ++ '?'.toNat :: qs) .encodeFragment = none →
      unescapeBad (bs ++ '?'.toNat :: qs') .encodeFragment = none := by
  intro hb
  rw [unescapeBad_question_aux bs.length _ rfl bs (Nat.le_refl _) qs' h']
  exact (unescapeBad_question_aux bs.length _ rfl bs (Nat.le_refl _) qs h).mp hb

theorem goBytes_question (b : List Char) (q : String) :
    goBytes (String.mk (b ++ '?' :: q.toList)) = goBytes (String.mk b) ++ '?'.toNat :: goBytes q := by
  have e : String.mk (b ++ '?' :: q.toList) = String.mk b ++ "?" ++ q := by
    apply String.ext
    simp [String.data_append]
  rw [e, goBytes_append, goBytes_append, List.append_assoc]
  rfl

/-- Case of an opaque part with a `#`: what follows the `#`, the query included, is
read as the fragment. -/
theorem parse_opaque_fragment (N : NetURL) (sl a b : List Char) (q : String)
    (hs : isScheme sl) (hh : (a ++ '#' :: b).head? ≠ some '/')
    (hop : ∀ ch ∈ a ++ '#' :: b, ch ≠ '?' ∧ ¬ (ch.toNat < 0x20 ∨ ch.toNat = 0x7f))
    (ha : '#' ∉ a) (r : URL) :
    Parse N (String.mk (sl ++ [':'] ++ (a ++ '#' :: b) ++ '?' :: q.toList)) = .ok r ↔
      URL.setFragment N { Scheme := String.mk (toLower sl), Opaque := String.mk a }
        (String.mk (b ++ '?' :: q.toList)) = .ok r := by
  have hL : sl ++ [':'] ++ (a ++ '#' :: b) ++ '?' :: q.toList
      = (sl ++ ':' :: a) ++ '#' :: (b ++ '?' :: q.toList) := by
    simp
  have hA : '#' ∉ sl ++ ':' :: a := by
    intro hm
    simp only [List.mem_cons, List.mem_append] at hm
    rcases hm with h | h | h
    · exact (isScheme_chars sl hs _ h).1.2.1 rfl
    · revert h; decide
    · exact ha h
  have hctl : ∀ ch ∈ sl ++ ':' :: a, ¬ (ch.toNat < 0x20 ∨ ch.toNat = 0x7f) := by
    intro ch hch
    simp only [List.mem_cons, List.mem_append] at hch
    rcases hch with h | h | h
    · exact (isScheme_chars sl hs ch h).1.1
    · rw [h]; decide
    · exact (hop ch (List.mem_append_left _ h)).2
  have hqa : '?' ∉ a := fun hm => (hop _ (List.mem_append_left _ hm)).1 rfl
  have hha : a.head? ≠ some '/' := by
    cases a with
    | nil => decide
    | cons x xs => exact hh
  have hfront : parse N (String.mk (sl ++ ':' :: a)) false
      = .ok { Scheme := String.mk (toLower sl), Opaque := String.mk a } := by
    rw [parse_scheme N sl a hs hctl, cutQuery_none _ a hqa]
    simp only []
    rw [parseHier_noSlash N _ a false hha (toLower_ne_empty sl (isScheme_ne_nil sl hs))]
  rw [hL, Parse_fragment N _ _ hA (by simp), hfront]
  constructor
  · rintro ⟨url, e, h⟩
    simp only [Except.ok.injEq] at e
    rw [e]
    exact h
  · intro h
    exact ⟨_, rfl, h⟩

theorem clientPath_auth : ClientPath "/auth/" :=
  ⟨by decide, by decide, by decide, by decide, by decide, by decide, by decide,
   by unfold plainChar; decide⟩

theorem clientPath_speech : ClientPath "/speech/" :=
  ⟨by decide, by decide, by decide, by decide, by decide, by decide, by decide,
   by unfold plainChar; decide⟩

theorem QueryEscape_plain (s : String) : ∀ ch ∈ (QueryEscape s).toList, plainChar ch := by
  intro ch hch
  have := QueryEscape_chars s ch hch
  exact ⟨by omega, this.2.2.1, this.2.2.2.1⟩

theorem pair_plain (kv : String × String) :
    ∀ ch ∈ (QueryEscape kv.1 ++ "=" ++ QueryEscape kv.2).toList, plainChar ch := by
  intro ch hch
  simp only [String.toList, String.data_append, List.mem_append] at hch
  rcases hch with (h | h) | h
  · exact QueryEscape_plain _ ch h
  · have : ch = '=' := by simpa using h
    subst this
    exact ⟨by decide, by decide, by decide⟩
  · exact QueryEscape_plain _ ch h

theorem pair_wellFormed (kv : String × String) :
    unescapeBad (goBytes (QueryEscape kv.1 ++ "=" ++ QueryEscape kv.2)) .encodeFragment
      = none := by
  rw [goBytes_pair, unescapeBad_append _ _ _ (QueryEscape_fragment _),
    unescapeBad_cons _ _ _ (by decide), if_neg (by decide)]
  exact QueryEscape_fragment _

theorem intercalate_go_toList (acc : String) (l : List String) :
    (String.intercalate.go acc "&" l).toList
      = acc.toList ++ l.flatMap fun s => '&' :: s.toList := by
  induction l generalizing acc with
  | nil => simp [String.intercalate.go]
  | cons s l ih =>
    rw [String.intercalate.go, ih]
    simp [String.toList, String.data_append]

/-- What `Values.Encode` writes is an encoded query, as soon as it is not empty. -/
theorem Encode_encodedQuery (v : Values) (hne : Values.Encode v ≠ "") :
    EncodedQuery (Values.Encode v) := by
  refine ⟨hne, ?_, ?_⟩
  · rw [Values.Encode_eq_intercalate]
    cases Values.sortedPairs v with
    | nil => intro ch hch; cases hch
    | cons p ps =>
      intro ch hch
      rw [List.map_cons, String.intercalate, intercalate_go_toList, List.mem_append,
        List.mem_flatMap] at hch
      rcases hch with h | ⟨s, hs, h⟩
      · exact pair_plain p ch h
      · rw [List.mem_map] at hs
        obtain ⟨kv, -, rfl⟩ := hs
        rcases List.mem_cons.mp h with e | e
        · rw [e]; exact ⟨by decide, by decide, by decide⟩
        · exact pair_plain kv ch e
  · rw [Values.Encode_eq_intercalate]
    cases Values.sortedPairs v with
    | nil => rfl
    | cons p ps =>
      rw [List.map_cons, String.intercalate, goBytes_intercalate_go,
        unescapeBad_append _ _ _ (pair_wellFormed p)]
      induction ps with
      | nil => rfl
      | cons kv ps ih =>
        rw [List.map_cons, List.flatMap_cons, List.cons_append,
          unescapeBad_cons _ _ _ (by decide), if_neg (by decide),
          unescapeBad_append _ _ _ (pair_wellFormed kv)]
        exact ih

/-- The request URL of a client call. For a parsed request URI `u`, a client path
`P` and an encoded query `q`, let `r` be what `url.Parse` reads from the text
`URL.String` writes for `u` with `Path` set to `P` and `RawQuery` set to `q`. Then
the path of `r` is `P` when `u` has no opaque part and empty otherwise, the raw query
of `r` is `q` when the opaque part of `u` holds no `#` and empty otherwise, and the
text written for any other encoded query parses as well. -/
theorem Parse_string_client (N : NetURL) (env : Env) (u : URL) (P q : String) (r : URL)
    (hu : RequestURI u) (hP : ClientPath P) (hq : EncodedQuery q)
    (h : Parse N (URL.string (netEnv N env) { u with Path := P, RawQuery := q }) = .ok r) :
    (u.Opaque = "" → r.Path = P) ∧ (u.Opaque ≠ "" → r.Path = "") ∧
    ('#' ∉ u.Opaque.toList → r.RawQuery = q) ∧ ('#' ∈ u.Opaque.toList → r.RawQuery = "") ∧
    ∀ q', EncodedQuery q' →
      ∃ r', Parse N (URL.string (netEnv N env) { u with Path := P, RawQuery := q' }) = .ok r' := by
  have hempty : '#' ∉ ("" : String).toList := by decide
  rw [string_client N env u P q hu hq.nonempty] at h
  by_cases ho : u.Opaque = ""
  · rw [if_neg (not_not.mpr ho)] at h
    obtain ⟨hh, h2, hpc, hun⟩ := EscapedPath_client N u P hu hP
    rcases hierPart_client N u P hu hP with hH | ⟨hs, au, hH, hau⟩
    · rw [hH] at h
      by_cases hsch : u.Scheme = ""
      · rw [if_neg (not_not.mpr hsch), List.nil_append,
          parse_path_client N _ P q hh h2 hpc hun hP.text hq] at h
        simp only [Except.ok.injEq] at h
        subst h
        refine ⟨fun _ => rfl, fun e' => absurd ho e', fun _ => rfl,
          fun e' => absurd e' (by rw [ho]; exact hempty), ?_⟩
        intro q' hq'
        rw [string_client N env u P q' hu hq'.nonempty, if_neg (not_not.mpr ho), hH,
          if_neg (not_not.mpr hsch), List.nil_append]
        exact ⟨_, parse_path_client N _ P q' hh h2 hpc hun hP.text hq'⟩
      · have hsl : isScheme u.Scheme.toList := hu.scheme.resolve_left hsch
        rw [if_pos hsch, parse_omitHost_client N _ _ P q hsl hh h2 hpc hun hP.text hq] at h
        simp only [Except.ok.injEq] at h
        subst h
        refine ⟨fun _ => rfl, fun e' => absurd ho e', fun _ => rfl,
          fun e' => absurd e' (by rw [ho]; exact hempty), ?_⟩
        intro q' hq'
        rw [string_client N env u P q' hu hq'.nonempty, if_neg (not_not.mpr ho), hH,
          if_pos hsch]
        exact ⟨_, parse_omitHost_client N _ _ P q' hsl hh h2 hpc hun hP.text hq'⟩
    · have hsl : isScheme u.Scheme.toList := hu.scheme.resolve_left hs
      rw [hH, if_pos hs, parse_authority_client N _ au _ P q hsl hau hh hpc hun hP.text hq] at h
      obtain ⟨user, host, hpa, rfl⟩ := h
      refine ⟨fun _ => rfl, fun e' => absurd ho e', fun _ => rfl,
          fun e' => absurd e' (by rw [ho]; exact hempty), ?_⟩
      intro q' hq'
      rw [string_client N env u P q' hu hq'.nonempty, if_neg (not_not.mpr ho), hH, if_pos hs]
      exact ⟨_, (parse_authority_client N _ au _ P q' hsl hau hh hpc hun hP.text hq' _).mpr
        ⟨user, host, hpa, rfl⟩⟩
  · have hs : u.Scheme ≠ "" := fun e => ho (hu.noScheme e).2.2
    have hsl : isScheme u.Scheme.toList := hu.scheme.resolve_left hs
    rw [if_pos ho, if_pos hs] at h
    by_cases hhash : '#' ∈ u.Opaque.toList
    · obtain ⟨a, b, e, ha⟩ := mem_split_first _ hhash
      have hhead := hu.opaqueHead
      have hchars := hu.opaqueChars
      rw [e] at h hhead hchars
      rw [parse_opaque_fragment N _ a b q hsl hhead hchars ha, setFragment_ok] at h
      obtain ⟨hwf, rfl⟩ := h
      refine ⟨fun e' => absurd e' ho, fun _ => rfl, fun e' => absurd hhash e', fun _ => rfl, ?_⟩
      intro q' hq'
      rw [string_client N env u P q' hu hq'.nonempty, if_pos ho, if_pos hs, e]
      refine ⟨_, (parse_opaque_fragment N _ a b q' hsl hhead hchars ha _).mpr
        ((setFragment_ok N _ _ _).mpr ⟨?_, rfl⟩)⟩
      rw [goBytes_question] at hwf ⊢
      exact unescapeBad_question _ _ _ hq.wellFormed hq'.wellFormed hwf
    · rw [parse_opaque_client N _ _ q hsl hu.opaqueHead hu.opaqueChars hhash hq] at h
      simp only [Except.ok.injEq] at h
      subst h
      refine ⟨fun e' => absurd e' ho, fun _ => rfl, fun _ => rfl, fun e' => absurd e' hhash, ?_⟩
      intro q' hq'
      rw [string_client N env u P q' hu hq'.nonempty, if_pos ho, if_pos hs]
      exact ⟨_, parse_opaque_client N _ _ q' hsl hu.opaqueHead hu.opaqueChars hhash hq'⟩

/-! ## Shared lemmas: the request a call builds and the request it sends -/

theorem requestURL_ok (N : NetURL) (s : String) (r : URL) (h : requestURL N s = .ok r) :
    ∃ r0, Parse N s = .ok r0 ∧ r = { r0 with Host := removeEmptyPort r0.Host } := by
  unfold requestURL at h
  cases hp : Parse N s with
  | error e => rw [hp] at h; cases h
  | ok r0 =>
    rw [hp] at h
    simp only [Except.ok.injEq] at h
    exact ⟨r0, rfl, h.symm⟩

theorem Client.Auth_sent (env : Env) (c : Client) (u : URL) (req : Request)
    (hparse : env.ParseRequestURI c.ServiceEndpoint = .ok u)
    (hs : (c.Auth env).sent = [req]) :
    req.Method = "POST" ∧ req.Body = some (Values.Encode c.authData) ∧
    env.Parse ((c.authURL u).string env) = .ok req.URL := by
  revert hs
  unfold Client.Auth
  simp only [hparse, NewRequest]
  cases hr : env.Parse ((c.authURL u).string env) with
  | error e =>
    unfold Client.authURL at hr
    simp [hr]
  | ok r =>
    unfold Client.authURL at hr
    simp only [hr]
    cases hc : c.HTTPClient with
    | none => simp
    | some h =>
      simp only []
      split
      · intro hs
        simp only [List.cons.injEq, and_true] at hs
        subst hs
        exact ⟨rfl, rfl, rfl⟩
      · rw [Client.authSwitch_sent]
        intro hs
        simp only [List.cons.injEq, and_true] at hs
        subst hs
        exact ⟨rfl, rfl, rfl⟩

theorem Client.GetSpeech_sent (env : Env) (c : Client) (text speakerID : String)
    (bitRate sampleRate : Int) (ext : SpeechExtension) (u : URL) (req : Request)
    (hparse : env.ParseRequestURI c.ServiceEndpoint = .ok u)
    (hs : (c.GetSpeech env text speakerID bitRate sampleRate ext).sent = [req]) :
    req.Method = "GET" ∧
    req.Body = some (Values.Encode (speechData text speakerID bitRate sampleRate ext)) ∧
    env.Parse ((speechURL u text speakerID bitRate sampleRate ext).string env) = .ok req.URL ∧
    c.AccessToken ≠ "" ∧ ∃ h, c.HTTPClient = some h := by
  revert hs
  unfold Client.GetSpeech
  simp only [hparse, NewRequest]
  cases hr : env.Parse ((speechURL u text speakerID bitRate sampleRate ext).string env) with
  | error e =>
    unfold speechURL at hr
    simp [hr]
  | ok r =>
    unfold speechURL at hr
    simp only [hr]
    by_cases htoken : c.AccessToken ≠ ""
    · rw [if_pos htoken]
      cases hc : c.HTTPClient with
      | none => simp
      | some h =>
        simp only []
        split
        · intro hs
          simp only [List.cons.injEq, and_true] at hs
          subst hs
          exact ⟨rfl, rfl, rfl, htoken, h, rfl⟩
        · rw [Client.speechSwitch_sent]
          intro hs
          simp only [List.cons.injEq, and_true] at hs
          subst hs
          exact ⟨rfl, rfl, rfl, htoken, h, rfl⟩
    · rw [if_neg htoken]
      simp

theorem Client.GetSpeech_builds (env : Env) (c : Client) (text speakerID : String)
    (bitRate sampleRate : Int) (ext : SpeechExtension) (u r : URL) (h : Nat)
    (hparse : env.ParseRequestURI c.ServiceEndpoint = .ok u)
    (hr : env.Parse ((speechURL u text speakerID bitRate sampleRate ext).string env) = .ok r)
    (htoken : c.AccessToken ≠ "") (hc : c.HTTPClient = some h) :
    ∃ req, (c.GetSpeech env text speakerID bitRate sampleRate ext).sent = [req] := by
  unfold speechURL at hr
  unfold Client.GetSpeech
  simp only [hparse, NewRequest, hr, hc]
  rw [if_pos htoken]
  split
  · exact ⟨_, rfl⟩
  · rw [Client.speechSwitch_sent]
    exact ⟨_, rfl⟩

theorem speechData_sortedPairs (text speakerID : String) (bitRate sampleRate : Int)
    (ext : SpeechExtension) :
    Values.sortedPairs (speechData text speakerID bitRate sampleRate ext)
      = (if bitRate > 0 then [("bit_rate", Itoa bitRate)] else [])
        ++ [("extension", ext)]
        ++ (if sampleRate > 0 then [("sample_rate", Itoa sampleRate)] else [])
        ++ [("speaker_id", speakerID), ("txt", text)] := by
  rw [speechData_eq]
  by_cases hb : bitRate > 0 <;> by_cases hs : sampleRate > 0
  · simp only [if_pos hb, if_pos hs]; rfl
  · simp only [if_pos hb, if_neg hs]; rfl
  · simp only [if_neg hb, if_pos hs]; rfl
  · simp only [if_neg hb, if_neg hs]; rfl

/-- Decoding the query of `GetSpeech` gives back its parameters. -/
theorem ParseQuery_speechData (N : NetURL) (text speakerID : String)
    (bitRate sampleRate : Int) (ext : SpeechExtension) :
    ParseQuery N (Values.Encode (speechData text speakerID bitRate sampleRate ext))
      = ((if bitRate > 0 then [(goBytes "bit_rate", [goBytes (Itoa bitRate)])] else [])
          ++ [(goBytes "extension", [goBytes ext])]
          ++ (if sampleRate > 0 then [(goBytes "sample_rate", [goBytes (Itoa sampleRate)])]
              else [])
          ++ [(goBytes "speaker_id", [goBytes speakerID]), (goBytes "txt", [goBytes text])],
         none) := by
  have d12 : goBytes "bit_rate" ≠ goBytes "extension" := by decide
  have d13 : goBytes "bit_rate" ≠ goBytes "sample_rate" := by decide
  have d14 : goBytes "bit_rate" ≠ goBytes "speaker_id" := by decide
  have d15 : goBytes "bit_rate" ≠ goBytes "txt" := by decide
  have d23 : goBytes "extension" ≠ goBytes "sample_rate" := by decide
  have d24 : goBytes "extension" ≠ goBytes "speaker_id" := by decide
  have d25 : goBytes "extension" ≠ goBytes "txt" := by decide
  have d34 : goBytes "sample_rate" ≠ goBytes "speaker_id" := by decide
  have d35 : goBytes "sample_rate" ≠ goBytes "txt" := by decide
  have d45 : goBytes "speaker_id" ≠ goBytes "txt" := by decide
  rw [ParseQuery_Encode, speechData_sortedPairs]
  by_cases hb : bitRate > 0 <;> by_cases hs : sampleRate > 0 <;>
    simp [hb, hs, ByteValues.Add, d12, d13, d14, d15, d23, d24, d25, d34, d35, d45]

/-- Decoding the query of `Auth` gives back the two credentials. -/
theorem ParseQuery_authData (N : NetURL) (c : Client) :
    ParseQuery N (Values.Encode c.authData)
      = ([(goBytes "client_id", [goBytes c.ClientID]),
          (goBytes "secret", [goBytes c.ClientSecret])], none) := by
  have hpairs : Values.sortedPairs c.authData
      = [("client_id", c.ClientID), ("secret", c.ClientSecret)] := by
    rfl
  have d12 : goBytes "client_id" ≠ goBytes "secret" := by decide
  rw [ParseQuery_Encode, hpairs]
  simp [ByteValues.Add, d12]

/-! ## Claims about the requests: the URL of the request -/

/-- C10, as the code has it. `Auth` request shape, with `net/url` written out: for
every client whose `ServiceEndpoint` is accepted by `url.ParseRequestURI`, giving
`u`, the request `Auth` hands to the transport is a POST whose body is the form
encoding of the two pairs `client_id = ClientID` and `secret = ClientSecret`:
`client_id=<ClientID>&secret=<ClientSecret>` with both values escaped, which
`url.ParseQuery` decodes to exactly these two pairs. The path of the request URL is
`/auth/`, whatever path the endpoint had, exactly when `u` has no opaque part, and
it is empty otherwise. The query string of the request URL is identical to the
body, so that the secret is in the URL as in the body, exactly when the opaque part
of `u` holds no `#`, and it is empty otherwise. In every case the URL text `Auth`
hands to `http.NewRequest` ends with `?` and the encoding. -/
theorem auth_request_shape (N : NetURL) (env : Env) (c : Client) (u : URL) (req : Request)
    (hparse : ParseRequestURI N c.ServiceEndpoint = .ok u)
    (hsent : (c.Auth (netEnv N env)).sent = [req]) :
    req.Method = "POST" ∧
    req.Body = some (Values.Encode c.authData) ∧
    Values.Encode c.authData
      = "client_id=" ++ QueryEscape c.ClientID ++ "&secret=" ++ QueryEscape c.ClientSecret ∧
    ParseQuery N (Values.Encode c.authData)
      = ([(goBytes "client_id", [goBytes c.ClientID]),
          (goBytes "secret", [goBytes c.ClientSecret])], none) ∧
    (req.URL.Path = "/auth/" ↔ u.Opaque = "") ∧
    (u.Opaque ≠ "" → req.URL.Path = "") ∧
    (some req.URL.RawQuery = req.Body ↔ '#' ∉ u.Opaque.toList) ∧
    ('#' ∈ u.Opaque.toList → req.URL.RawQuery = "") ∧
    (∃ front : String,
      URL.string (netEnv N env) (c.authURL u) = front ++ "?" ++ Values.Encode c.authData) := by
  obtain ⟨hm, hb, hurl⟩ := Client.Auth_sent (netEnv N env) c u req hparse hsent
  obtain ⟨r, hr, hreq⟩ := requestURL_ok N _ _ hurl
  have hq := Encode_encodedQuery c.authData (Client.authData_Encode_ne c)
  obtain ⟨p1, p2, q1, q2, -⟩ :=
    Parse_string_client N env u "/auth/" _ r (ParseRequestURI_ok N _ u hparse) clientPath_auth
      hq hr
  have hpath : req.URL.Path = r.Path := by rw [hreq]
  have hquery : req.URL.RawQuery = r.RawQuery := by rw [hreq]
  refine ⟨hm, hb, Client.authData_Encode c, ParseQuery_authData N c, ?_, ?_, ?_, ?_, ?_⟩
  · rw [hpath]
    constructor
    · intro h
      by_contra ho
      rw [p2 ho] at h
      revert h
      decide
    · exact p1
  · intro ho
    rw [hpath]
    exact p2 ho
  · rw [hquery, hb]
    constructor
    · intro h hhash
      rw [q2 hhash] at h
      simp only [Option.some.injEq] at h
      exact Client.authData_Encode_ne c h.symm
    · intro h
      rw [q1 h]
  · intro h
    rw [hquery]
    exact q2 h
  · have hf : ¬ ((c.authURL u).Fragment ≠ "") :=
      fun h => h (ParseRequestURI_ok N _ u hparse).fragment
    rw [URL.string_of_query _ _ (Client.authData_Encode_ne c), if_neg hf, String.append_empty]
    exact ⟨_, rfl⟩

/-- Witness of the amended C10: for the mock server at `http://127.0.0.1:8080` the
endpoint has no opaque part; the request is a POST with the path `/auth/`, and its
query `client_id=my+id&secret=s3cr3t` is its body and decodes to `my id` and
`s3cr3t`. -/
theorem auth_request_shape_witness :
    ParseRequestURI mockNet mockClient.ServiceEndpoint
      = .ok { Scheme := "http", Host := "127.0.0.1:8080" } ∧
    (mockClient.Auth (netEnv mockNet (mockEnv 200 authBody))).sent = [mockAuthRequest] ∧
    mockAuthRequest.Method = "POST" ∧
    mockAuthRequest.URL.Path = "/auth/" ∧
    mockAuthRequest.URL.RawQuery = "client_id=my+id&secret=s3cr3t" ∧
    some mockAuthRequest.URL.RawQuery = mockAuthRequest.Body ∧
    ParseQuery mockNet (Values.Encode mockClient.authData)
      = ([(goBytes "client_id", [goBytes "my id"]), (goBytes "secret", [goBytes "s3cr3t"])],
         none) ∧
    goBytes "my id" = [109, 121, 32, 105, 100] :=
  have key := auth_request_shape mockNet (mockEnv 200 authBody) mockClient
    { Scheme := "http", Host := "127.0.0.1:8080" } mockAuthRequest (by rfl) (by rfl)
  ⟨by rfl, by rfl, key.1, key.2.2.2.2.1.mpr rfl, rfl, key.2.2.2.2.2.2.1.mpr (by decide),
   key.2.2.2.1, by decide⟩

/-- Counterexample to C10 as stated. The endpoint `localhost:8080` is accepted by
`url.ParseRequestURI` (scheme `localhost`, opaque part `8080`), and the request
`Auth` builds for it goes to `localhost:8080?client_id=my+id&secret=s3cr3t`: its URL
has an empty path, not `/auth/`. The endpoint `foo:bar#x` is accepted as well
(scheme `foo`, opaque part `bar#x`), and the request built for it goes to
`foo:bar#x?client_id=my+id&secret=s3cr3t`: what follows the `#` is its fragment, and
its query string is empty, not identical to the body. -/
theorem auth_request_counterexample :
    ParseRequestURI mockNet opaqueClient.ServiceEndpoint
      = .ok { Scheme := "localhost", Opaque := "8080" } ∧
    (opaqueClient.Auth (netEnv mockNet (mockEnv 200 authBody))).sent = [opaqueAuthRequest] ∧
    opaqueAuthRequest.URL.Path = "" ∧
    ¬ (opaqueAuthRequest.URL.Path = "/auth/") ∧
    ParseRequestURI mockNet fragmentClient.ServiceEndpoint
      = .ok { Scheme := "foo", Opaque := "bar#x" } ∧
    URL.string (netEnv mockNet (mockEnv 200 authBody))
        (fragmentClient.authURL { Scheme := "foo", Opaque := "bar#x" })
      = "foo:bar#x?client_id=my+id&secret=s3cr3t" ∧
    (fragmentClient.Auth (netEnv mockNet (mockEnv 200 authBody))).sent
      = [fragmentAuthRequest] ∧
    fragmentAuthRequest.URL.RawQuery = "" ∧
    fragmentAuthRequest.URL.Fragment = "x?client_id=my+id&secret=s3cr3t" ∧
    fragmentAuthRequest.Body = some "client_id=my+id&secret=s3cr3t" ∧
    ¬ (some fragmentAuthRequest.URL.RawQuery = fragmentAuthRequest.Body) := by
  refine ⟨by rfl, by rfl, rfl, by decide, by rfl, by decide, by rfl, rfl, rfl, rfl, by decide⟩

/-- C4, as the code has it. `GetSpeech` query construction, with `net/url` written
out: for every client whose `ServiceEndpoint` is accepted by `url.ParseRequestURI`,
giving `u`, and every text, speaker, bit rate, sample rate and extension (any
string), the form values are exactly `txt`, `speaker_id` and `extension` (the
extension unchanged), plus `bit_rate` as a decimal string exactly when
`bitRate > 0`, plus `sample_rate` as a decimal string exactly when
`sampleRate > 0`. The request handed to the transport is a GET whose body is their
form encoding, and decoding the query of its URL with `url.ParseQuery` gives
exactly these parameters, without error and with nothing else, if and only if the
opaque part of `u` holds no `#`; when it holds one, the query of the request URL is
empty and decodes to no parameter at all. No extension makes the call fail: when
the call sends a request for one extension, it sends one for every extension. -/
theorem speech_query_parameters (N : NetURL) (env : Env) (c : Client)
    (text speakerID : String) (bitRate sampleRate : Int) (ext : SpeechExtension)
    (u : URL) (req : Request)
    (hparse : ParseRequestURI N c.ServiceEndpoint = .ok u)
    (hsent : (c.GetSpeech (netEnv N env) text speakerID bitRate sampleRate ext).sent = [req]) :
    speechData text speakerID bitRate sampleRate ext
      = [("txt", [text]), ("speaker_id", [speakerID]), ("extension", [ext])]
        ++ (if bitRate > 0 then [("bit_rate", [Itoa bitRate])] else [])
        ++ (if sampleRate > 0 then [("sample_rate", [Itoa sampleRate])] else []) ∧
    req.Method = "GET" ∧
    req.Body = some (Values.Encode (speechData text speakerID bitRate sampleRate ext)) ∧
    (ParseQuery N req.URL.RawQuery
        = ((if bitRate > 0 then [(goBytes "bit_rate", [goBytes (Itoa bitRate)])] else [])
            ++ [(goBytes "extension", [goBytes ext])]
            ++ (if sampleRate > 0 then [(goBytes "sample_rate", [goBytes (Itoa sampleRate)])]
                else [])
            ++ [(goBytes "speaker_id", [goBytes speakerID]), (goBytes "txt", [goBytes text])],
           none)
      ↔ '#' ∉ u.Opaque.toList) ∧
    ('#' ∉ u.Opaque.toList →
      req.URL.RawQuery = Values.Encode (speechData text speakerID bitRate sampleRate ext)) ∧
    ('#' ∈ u.Opaque.toList →
      req.URL.RawQuery = "" ∧ ParseQuery N req.URL.RawQuery = ([], none)) ∧
    (∀ ext' : SpeechExtension, ∃ req',
      (c.GetSpeech (netEnv N env) text speakerID bitRate sampleRate ext').sent = [req']) := by
  obtain ⟨hm, hb, hurl, htoken, h, hc⟩ :=
    Client.GetSpeech_sent (netEnv N env) c text speakerID bitRate sampleRate ext u req hparse
      hsent
  obtain ⟨r, hr, hreq⟩ := requestURL_ok N _ _ hurl
  have hq := Encode_encodedQuery (speechData text speakerID bitRate sampleRate ext)
    (speechData_Encode_ne _ _ _ _ _)
  obtain ⟨-, -, q1, q2, hbuild⟩ :=
    Parse_string_client N env u "/speech/" _ r (ParseRequestURI_ok N _ u hparse)
      clientPath_speech hq hr
  have hquery : req.URL.RawQuery = r.RawQuery := by rw [hreq]
  have hnone : ParseQuery N "" = ([], none) := rfl
  refine ⟨speechData_eq _ _ _ _ _, hm, hb, ?_, ?_, ?_, ?_⟩
  · constructor
    · intro hp hhash
      rw [hquery, q2 hhash, hnone] at hp
      have hl := congrArg (fun p => p.1.length) hp
      simp only [List.length_nil, List.length_append, List.length_cons] at hl
      omega
    · intro hhash
      rw [hquery, q1 hhash]
      exact ParseQuery_speechData N text speakerID bitRate sampleRate ext
  · intro hhash
    rw [hquery]
    exact q1 hhash
  · intro hhash
    rw [hquery, q2 hhash]
    exact ⟨rfl, hnone⟩
  · intro ext'
    obtain ⟨r', hr'⟩ := hbuild _ (Encode_encodedQuery
      (speechData text speakerID bitRate sampleRate ext') (speechData_Encode_ne _ _ _ _ _))
    have hreq' : (netEnv N env).Parse
        ((speechURL u text speakerID bitRate sampleRate ext').string (netEnv N env))
        = .ok { r' with Host := removeEmptyPort r'.Host } := by
      show requestURL N _ = _
      unfold requestURL
      have e : (speechURL u text speakerID bitRate sampleRate ext').string (netEnv N env)
          = URL.string (netEnv N env) { u with
              Path := "/speech/",
              RawQuery := Values.Encode (speechData text speakerID bitRate sampleRate ext') } :=
        rfl
      rw [e, hr']
    exact Client.GetSpeech_builds (netEnv N env) c text speakerID bitRate sampleRate ext' u _ h
      hparse hreq' htoken hc

/-- Witness of the amended C4: the extension `m&x` is not one of wav, mp3, ogg,
flac and holds a separator; it is passed through as `extension=m%26x` and decodes
to the three bytes of `m&x`; `bit_rate=128` is present and `sample_rate` (0) is
absent; and the extension `flac` is sent as well. -/
theorem speech_query_parameters_witness :
    ParseRequestURI mockNet tokenClient.ServiceEndpoint
      = .ok { Scheme := "http", Host := "127.0.0.1:8080" } ∧
    (tokenClient.GetSpeech (netEnv mockNet (mockEnv 200 speechBody))
        "This is just a test." "v1" 128 0 "m&x").sent = [unknownExtensionRequest] ∧
    unknownExtensionRequest.URL.RawQuery
      = "bit_rate=128&extension=m%26x&speaker_id=v1&txt=This+is+just+a+test." ∧
    ParseQuery mockNet unknownExtensionRequest.URL.RawQuery
      = ([(goBytes "bit_rate", [goBytes "128"]), (goBytes "extension", [goBytes "m&x"]),
          (goBytes "speaker_id", [goBytes "v1"]), (goBytes "txt", [goBytes "This is just a test."])],
         none) ∧
    goBytes "m&x" = [109, 38, 120] ∧
    (∃ req', (tokenClient.GetSpeech (netEnv mockNet (mockEnv 200 speechBody))
        "This is just a test." "v1" 128 0 FLAC).sent = [req']) :=
  have key := speech_query_parameters mockNet (mockEnv 200 speechBody) tokenClient
    "This is just a test." "v1" 128 0 "m&x" { Scheme := "http", Host := "127.0.0.1:8080" }
    unknownExtensionRequest (by rfl) (by rfl)
  ⟨by rfl, by rfl, rfl, key.2.2.2.1.mpr (by decide), by decide, key.2.2.2.2.2.2 FLAC⟩

/-- Counterexample to C4 as stated. The endpoint `foo:bar#x` is accepted by
`url.ParseRequestURI` (scheme `foo`, opaque part `bar#x`). `GetSpeech` writes the URL
`foo:bar#x?bit_rate=128&extension=mp3&speaker_id=v1&txt=This+is+just+a+test.`, and
in the request built from it everything after the `#` is the fragment: the query of
the request URL is empty and decodes to no parameter, neither `txt` nor
`speaker_id` nor `extension`. -/
theorem speech_query_counterexample :
    ParseRequestURI mockNet fragmentTokenClient.ServiceEndpoint
      = .ok { Scheme := "foo", Opaque := "bar#x" } ∧
    URL.string (netEnv mockNet (mockEnv 200 speechBody))
        (speechURL { Scheme := "foo", Opaque := "bar#x" } "This is just a test." "v1" 128 0 MP3)
      = "foo:bar#x?bit_rate=128&extension=mp3&speaker_id=v1&txt=This+is+just+a+test." ∧
    (fragmentTokenClient.GetSpeech (netEnv mockNet (mockEnv 200 speechBody))
        "This is just a test." "v1" 128 0 MP3).sent = [fragmentSpeechRequest] ∧
    fragmentSpeechRequest.URL.RawQuery = "" ∧
    fragmentSpeechRequest.URL.Fragment
      = "x?bit_rate=128&extension=mp3&speaker_id=v1&txt=This+is+just+a+test." ∧
    ParseQuery mockNet fragmentSpeechRequest.URL.RawQuery = ([], none) ∧
    ¬ (ParseQuery mockNet fragmentSpeechRequest.URL.RawQuery
        = ([(goBytes "bit_rate", [goBytes "128"]), (goBytes "extension", [goBytes "mp3"]),
            (goBytes "speaker_id", [goBytes "v1"]),
            (goBytes "txt", [goBytes "This is just a test."])], none)) := by
  refine ⟨by rfl, by decide, by rfl, rfl, rfl, by rfl, by decide⟩

end GoReplica
